import Mathlib

/-!
# Canary traffic shifting for ALB listeners (`pkg/resource/cluster/alb.go`)

A shallow embedding of `planListenerChanges` and `graduallyShiftTraffic`, and of
the part of `CreateOrUpdateCourierRoute53Record`
(`pkg/courier/courier_r53_ops.go`) that builds the weighted DNS record router.

* Pointers of the Go code are `Option`s; a nil dereference and an index out of
  range are the outcome `Outcome.panic`.
* The ELBv2 control plane is a record of functions over an abstract state; the
  calls that change remote state are appended to a trace.
* Go `int` is a 64-bit two's complement integer: arithmetic on it is wrapped by
  `wrapInt`.
* A Go map is an association list; the order in which `range` visits it is the
  order of the list handed to the loop.
* A value behind `interface{}` is a `Value`; a failed type assertion is a panic.
  The two tasks of the DNS rollout are recorded when they are started; their
  joint result is a parameter of the environment.
-/

namespace Alb

/-! ## SDK data types (the fields the code reads or writes) -/

/-- One member of a weighted forward action (`elbv2.TargetGroupTuple`). -/
structure TargetGroupTuple where
  TargetGroupArn : Option String
  Weight : Option Int
  deriving DecidableEq, Repr

/-- The weighted forward configuration of an action (`elbv2.ForwardActionConfig`);
the stickiness configuration is nil wherever the code builds one. -/
structure ForwardActionConfig where
  TargetGroups : List TargetGroupTuple
  deriving DecidableEq, Repr

/-- A rule action (`elbv2.Action`); `ActionType` is the SDK field `Type`. -/
structure Action where
  ForwardConfig : Option ForwardActionConfig
  TargetGroupArn : Option String
  Order : Option Int
  ActionType : Option String
  deriving DecidableEq, Repr

/-- A rule condition (`elbv2.RuleCondition`): the field name and the values of
its host-header or path-pattern configuration. -/
structure RuleCondition where
  Field : Option String
  HostHeaderValues : Option (List String)
  PathPatternValues : Option (List String)
  deriving DecidableEq, Repr

/-- A listener rule (`elbv2.Rule`). A nil and an empty `Actions` slice both have
length 0 and are both the empty list. -/
structure Rule where
  RuleArn : Option String
  Priority : Option String
  Conditions : List RuleCondition
  Actions : List Action
  deriving DecidableEq, Repr

/-- A target group (`elbv2.TargetGroup`). -/
structure TargetGroup where
  TargetGroupArn : Option String
  TargetGroupName : Option String
  Port : Option Int
  Protocol : Option String
  TargetType : Option String
  VpcId : Option String
  deriving DecidableEq, Repr

/-- A listener (`elbv2.Listener`). -/
structure Listener where
  ListenerArn : Option String
  deriving DecidableEq, Repr

/-- Modelled from the spec: the declaration of the type `ALBAttachment` is not
among the sources; these are the fields `planListenerChanges` reads, the
AttachmentSpec of the data model (backend name and port, listener, protocol,
priority, host and path patterns). -/
structure ALBAttachment where
  NodeGroupName : String
  ListenerARN : String
  Protocol : String
  NodePort : Int
  Priority : Int
  Hosts : List String
  PathPatterns : List String
  deriving DecidableEq, Repr

/-- Per-listener working state (`ListenerStatus`). -/
structure ListenerStatus where
  Listener : Option Listener
  Rule : Option Rule
  ALBAttachments : List ALBAttachment
  DesiredTG : Option TargetGroup
  CurrentTG : Option TargetGroup
  DeletedTGs : Option TargetGroup
  RulePriority : Int
  Hosts : List String
  PathPatterns : List String
  deriving DecidableEq, Repr

/-- The map `ListenerStatuses`, keyed by listener ARN. -/
abbrev ListenerStatuses := List (String × ListenerStatus)

/-- The fields of `Cluster` that the listener planner reads. -/
structure Cluster where
  Name : String
  Region : String
  VPCID : String
  ALBAttachments : List ALBAttachment
  deriving DecidableEq, Repr

/-- The fields of `ClusterSet` that the traffic shifter reads. -/
structure ClusterSet where
  Cluster : Cluster
  ListenerStatuses : ListenerStatuses
  deriving DecidableEq, Repr

/-- Shift parameters (`CanaryOpts`); the interval is a `time.Duration`. -/
structure CanaryOpts where
  CanaryAdvancementInterval : Int
  CanaryAdvancementStep : Int
  deriving DecidableEq, Repr

/-! ## Requests, the call trace and the control plane -/

structure CreateTargetGroupInput where
  Name : Option String
  Port : Option Int
  TargetType : Option String
  VpcId : Option String
  Protocol : Option String
  deriving DecidableEq, Repr

structure CreateTagsInput where
  Resources : List String
  Tags : List (String × String)
  deriving DecidableEq, Repr

structure CreateRuleInput where
  Actions : List Action
  Priority : Option Int
  Conditions : List RuleCondition
  ListenerArn : Option String
  deriving DecidableEq, Repr

structure ModifyRuleInput where
  Actions : List Action
  RuleArn : Option String
  deriving DecidableEq, Repr

/-- A remote call that changes state, as recorded in the trace. -/
inductive Call where
  | CreateTargetGroup (input : CreateTargetGroupInput)
  | CreateTags (input : CreateTagsInput)
  | CreateRule (input : CreateRuleInput)
  | ModifyRule (input : ModifyRuleInput)
  deriving DecidableEq, Repr

/-- An error reported by the remote API (`awserr.Error`): its code. -/
abbrev AwsError := String

/-- The ELBv2 (and EC2 tagging) client the code talks to, over a remote state
`σ`. The describe calls read the state; the others may change it. The output of
`CreateTags` is discarded by the code. -/
structure Elbv2 (σ : Type) where
  DescribeListeners : σ → List String → Except AwsError (List Listener)
  DescribeTargetGroups : σ → List String → Except AwsError (List TargetGroup)
  DescribeRules : σ → String → Except AwsError (List Rule)
  CreateTargetGroup : σ → CreateTargetGroupInput → Except AwsError (List TargetGroup) × σ
  CreateTags : σ → CreateTagsInput → σ
  CreateRule : σ → CreateRuleInput → Except AwsError (List Rule) × σ
  ModifyRule : σ → ModifyRuleInput → Except AwsError (List Rule) × σ

/-- The remote state together with the state-changing calls issued so far. -/
structure World (σ : Type) where
  st : σ
  trace : List Call
  deriving DecidableEq

/-- The errors the two functions construct, one constructor per `fmt.Errorf`
or `errors.New` site, and `remote` for an error passed on from the API. -/
inductive GoError where
  | vpcIdRequired
  | mismatchingProtocol (index : Nat)
  | mismatchingPriority (index : Nat)
  | mismatchingHosts (index : Nat)
  | mismatchingPathPatterns (index : Nat)
  | onlyOneAttachment
  | nameTooLong (len : Nat)
  | nodePortOmitted
  | creatingTargetGroup (e : AwsError)
  | noListenerRuleToCreate
  | creatingListenerRule (e : AwsError)
  | remote (e : AwsError)
  | invalidP (p : Int)
  | desiredTGNil
  | currentTGNil
  | ruleNil
  | unexpectedNumberOfActions (ruleArn : String) (n : Nat)
  deriving DecidableEq, Repr

/-- The two run-time panics the code can raise. -/
inductive Panic where
  | nilDereference
  | indexOutOfRange
  deriving DecidableEq, Repr

/-- How a Go call ends: a value, a returned error, or a panic. -/
inductive Outcome (α : Type) where
  | ok (v : α)
  | error (e : GoError)
  | panic (p : Panic)
  deriving DecidableEq, Repr

/-- Go `int` arithmetic: reduce into the 64-bit two's complement range. -/
def wrapInt (x : Int) : Int := (x + 2 ^ 63) % 2 ^ 64 - 2 ^ 63

/-! ## `graduallyShiftTraffic` -/

/-- The request built by the closure `setDesiredTGTrafficPercentage`. -/
def shiftInput (d c : TargetGroup) (r : Rule) (p : Int) : ModifyRuleInput :=
  { Actions :=
      [{ ForwardConfig := some
           { TargetGroups :=
               [ { TargetGroupArn := d.TargetGroupArn, Weight := some p },
                 { TargetGroupArn := c.TargetGroupArn, Weight := some (wrapInt (100 - p)) } ] },
         TargetGroupArn := none,
         Order := some 1,
         ActionType := some "forward" }],
    RuleArn := r.RuleArn }

/-- The closure `setDesiredTGTrafficPercentage(l, p)`. -/
def setDesiredTGTrafficPercentage {σ : Type} (svc : Elbv2 σ) (l : ListenerStatus) (p : Int)
    (w : World σ) : Outcome Unit × World σ :=
  if p > 100 then (.error (.invalidP p), w)
  else
    match l.DesiredTG with
    | none => (.error .desiredTGNil, w)
    | some d =>
      match l.CurrentTG with
      | none => (.error .currentTGNil, w)
      | some c =>
        match l.Rule with
        | none => (.error .ruleNil, w)
        | some r =>
          let input := shiftInput d c r p
          let w' : World σ :=
            { st := (svc.ModifyRule w.st input).2, trace := w.trace ++ [Call.ModifyRule input] }
          match (svc.ModifyRule w.st input).1 with
          | .error e => (.error (.remote e), w')
          | .ok _ => (.ok (), w')

/-- The loop `for p := ...; p < 100; p += step`, entered with the current `p`.
`none` means the fuel ran out before the loop ended. The sleep between two
steps changes neither the state nor the trace. -/
def shiftLoop {σ : Type} (svc : Elbv2 σ) (l : ListenerStatus) (step : Int) :
    Nat → Int → World σ → Option (Outcome Unit × World σ)
  | 0, p, w => if p < 100 then none else some (.ok (), w)
  | fuel + 1, p, w =>
    if p < 100 then
      match setDesiredTGTrafficPercentage svc l p w with
      | (.ok _, w') => shiftLoop svc l step fuel (wrapInt (p + step)) w'
      | (.error e, w') => some (.error e, w')
      | (.panic q, w') => some (.panic q, w')
    else some (.ok (), w)

/-- The step the loop uses: the configured one if positive, else 5. -/
def effectiveStep (opts : CanaryOpts) : Int :=
  if opts.CanaryAdvancementStep > 0 then opts.CanaryAdvancementStep else 5

/-- The body of `for _, l := range listenerStatuses` in `graduallyShiftTraffic`. -/
def shiftListener {σ : Type} (svc : Elbv2 σ) (opts : CanaryOpts) (fuel : Nat)
    (l : ListenerStatus) (w : World σ) : Option (Outcome Unit × World σ) :=
  match l.Rule with
  | none => some (.panic .nilDereference, w)
  | some rule =>
    if rule.Actions.length > 0 then
      if rule.Actions.length ≠ 1 then
        match rule.RuleArn with
        | none => some (.panic .nilDereference, w)
        | some arn => some (.error (.unexpectedNumberOfActions arn rule.Actions.length), w)
      else
        match shiftLoop svc l (effectiveStep opts) fuel 1 w with
        | none => none
        | some (.ok _, w') => some (setDesiredTGTrafficPercentage svc l 100 w')
        | some (.error e, w') => some (.error e, w')
        | some (.panic q, w') => some (.panic q, w')
    else some (.ok (), w)

/-- The loop over the listener statuses, in the order the map is ranged over. -/
def shiftAll {σ : Type} (svc : Elbv2 σ) (opts : CanaryOpts) (fuel : Nat) :
    ListenerStatuses → World σ → Option (Outcome Unit × World σ)
  | [], w => some (.ok (), w)
  | (_, l) :: rest, w =>
    match shiftListener svc opts fuel l w with
    | none => none
    | some (.ok _, w') => shiftAll svc opts fuel rest w'
    | some (.error e, w') => some (.error e, w')
    | some (.panic q, w') => some (.panic q, w')

/-- The function `graduallyShiftTraffic(set, opts)`. -/
def graduallyShiftTraffic {σ : Type} (svc : Elbv2 σ) (set : ClusterSet) (opts : CanaryOpts)
    (fuel : Nat) (w : World σ) : Option (Outcome Unit × World σ) :=
  shiftAll svc opts fuel set.ListenerStatuses w

/-! ## `planListenerChanges` -/

/-- Sequencing of two steps of a Go function body: an error or a panic of the
first step ends the function. -/
def andThen {σ α β : Type} (r : Outcome α × World σ)
    (k : α → World σ → Outcome β × World σ) : Outcome β × World σ :=
  match r with
  | (.ok v, w) => k v w
  | (.error e, w) => (.error e, w)
  | (.panic q, w) => (.panic q, w)

/-- The zero value `&ListenerStatus{}`. -/
def emptyStatus : ListenerStatus :=
  { Listener := none, Rule := none, ALBAttachments := [], DesiredTG := none, CurrentTG := none,
    DeletedTGs := none, RulePriority := 0, Hosts := [], PathPatterns := [] }

/-- Map lookup `listenerStatuses[arn]`. -/
def lookupStatus (m : ListenerStatuses) (arn : String) : Option ListenerStatus :=
  (m.find? (fun kv => kv.1 = arn)).map (fun kv => kv.2)

/-- Writing through the pointer stored under `arn`. -/
def updateStatus (m : ListenerStatuses) (arn : String) (f : ListenerStatus → ListenerStatus) :
    ListenerStatuses :=
  m.map (fun kv => if kv.1 = arn then (kv.1, f kv.2) else kv)

/-- One round of the grouping loop: create the entry for the listener of `a`
when there is none, then append `a` to its attachments. -/
def addAttachment (m : ListenerStatuses) (a : ALBAttachment) : ListenerStatuses :=
  let m1 := match lookupStatus m a.ListenerARN with
    | some _ => m
    | none => m ++ [(a.ListenerARN, emptyStatus)]
  updateStatus m1 a.ListenerARN (fun l => { l with ALBAttachments := l.ALBAttachments ++ [a] })

/-- The grouping loop over `cluster.ALBAttachments`. -/
def groupAttachments (as : List ALBAttachment) : ListenerStatuses :=
  as.foldl addAttachment []

/-- The loop over `r.Listeners` that stores each described listener in its
status: the listener's ARN pointer and the map entry are both dereferenced. -/
def attachListeners : List Listener → ListenerStatuses → Outcome ListenerStatuses
  | [], m => .ok m
  | info :: rest, m =>
    match info.ListenerArn with
    | none => .panic .nilDereference
    | some arn =>
      match lookupStatus m arn with
      | none => .panic .nilDereference
      | some _ => attachListeners rest (updateStatus m arn (fun l => { l with Listener := some info }))

/-- What the closure `sliceEq` reports. -/
inductive SliceDiff where
  | length (got want : Nat)
  | element (index : Nat) (got want : String)
  deriving DecidableEq, Repr

/-- The element loop of `sliceEq`, from index `i` on; it runs on slices of equal
length. -/
def sliceEqLoop : Nat → List String → List String → Option SliceDiff
  | _, [], _ => none
  | _, _ :: _, [] => none
  | i, x :: xs, y :: ys => if x ≠ y then some (.element i x y) else sliceEqLoop (i + 1) xs ys

/-- The closure `sliceEq`: `none` is the nil error. -/
def sliceEq (a b : List String) : Option SliceDiff :=
  if a.length ≠ b.length then some (.length a.length b.length) else sliceEqLoop 0 a b

/-- The closure `copySortSlice`: a sorted copy (`sort.Strings`). -/
def copySortSlice (a : List String) : List String :=
  a.insertionSort (fun x y => x ≤ y)

/-- An error of the validation loop: its message dereferences `l.Listener`. -/
def validationError (l : ListenerStatus) (e : GoError) : Outcome Unit :=
  match l.Listener with
  | none => .panic .nilDereference
  | some _ => .error e

/-- The loop `for i := 1; i < len(l.ALBAttachments); i++` comparing attachment
`i` with the base attachment. -/
def checkAttachments (l : ListenerStatus) (base : ALBAttachment)
    (baseHosts basePathPatterns : List String) : Nat → List ALBAttachment → Outcome Unit
  | _, [] => .ok ()
  | i, l2 :: rest =>
    if l2.Protocol ≠ base.Protocol then validationError l (.mismatchingProtocol i)
    else if l2.Priority ≠ base.Priority then validationError l (.mismatchingPriority i)
    else
      match sliceEq (copySortSlice l2.Hosts) baseHosts with
      | some _ => validationError l (.mismatchingHosts i)
      | none =>
        match sliceEq (copySortSlice l2.PathPatterns) basePathPatterns with
        | some _ => validationError l (.mismatchingPathPatterns i)
        | none => checkAttachments l base baseHosts basePathPatterns (i + 1) rest

/-- The body of the validation loop for one listener status. -/
def validateListener (l : ListenerStatus) : Outcome ListenerStatus :=
  match l.ALBAttachments with
  | [] => .panic .indexOutOfRange
  | base :: rest =>
    match checkAttachments l base (copySortSlice base.Hosts) (copySortSlice base.PathPatterns)
        1 rest with
    | .ok _ =>
      .ok { l with RulePriority := base.Priority, Hosts := base.Hosts,
                   PathPatterns := base.PathPatterns }
    | .error e => .error e
    | .panic q => .panic q

/-- The validation loop, visiting the keys in the order `ord`. -/
def validateAll : List String → ListenerStatuses → Outcome ListenerStatuses
  | [], m => .ok m
  | arn :: rest, m =>
    match lookupStatus m arn with
    | none => validateAll rest m
    | some l =>
      match validateListener l with
      | .ok l' => validateAll rest (updateStatus m arn (fun _ => l'))
      | .error e => .error e
      | .panic q => .panic q

/-- The name `fmt.Sprintf("%s-%d-%s", a.NodeGroupName, a.NodePort, id)`. -/
def targetGroupName (a : ALBAttachment) (id : String) : String :=
  a.NodeGroupName ++ "-" ++ toString a.NodePort ++ "-" ++ id

/-- The lookup of the current target group (`if oldId != ""`). -/
def resolveCurrentTG {σ : Type} (svc : Elbv2 σ) (a : ALBAttachment) (oldId : String)
    (l : ListenerStatus) (w : World σ) : Outcome ListenerStatus × World σ :=
  if oldId ≠ "" then
    match svc.DescribeTargetGroups w.st [targetGroupName a oldId] with
    | .error e => (.error (.remote e), w)
    | .ok [] => (.panic .indexOutOfRange, w)
    | .ok (tg :: _) => (.ok { l with CurrentTG := some tg }, w)
  else (.ok l, w)

/-- The function `strings.ToUpper`, on ASCII letters. -/
def toUpper (s : String) : String := String.mk (s.data.map Char.toUpper)

/-- The request `createTgInput`. -/
def createTgInput (cluster : Cluster) (a : ALBAttachment) (newId : String) :
    CreateTargetGroupInput :=
  { Name := some (targetGroupName a newId),
    Port := some a.NodePort,
    TargetType := some "instance",
    VpcId := some cluster.VPCID,
    Protocol := some (toUpper a.Protocol) }

/-- The tagging request sent after the target group is created. -/
def createTagsInput (cluster : Cluster) (a : ALBAttachment) : CreateTagsInput :=
  { Resources := [],
    Tags := [("tf-eksctl/node-group", a.NodeGroupName), ("tf-eksctl/cluster", cluster.Name)] }

/-- The creation of the desired target group (`if newId != ""`): the length of
the name is its number of bytes. -/
def createDesiredTG {σ : Type} (svc : Elbv2 σ) (cluster : Cluster) (a : ALBAttachment)
    (newId : String) (l : ListenerStatus) (w : World σ) : Outcome ListenerStatus × World σ :=
  if newId ≠ "" then
    if (targetGroupName a newId).utf8ByteSize > 32 then
      (.error (.nameTooLong (targetGroupName a newId).utf8ByteSize), w)
    else if a.NodePort ≠ 0 then
      let input := createTgInput cluster a newId
      let w1 : World σ :=
        { st := (svc.CreateTargetGroup w.st input).2,
          trace := w.trace ++ [Call.CreateTargetGroup input] }
      match (svc.CreateTargetGroup w.st input).1 with
      | .error e => (.error (.creatingTargetGroup e), w1)
      | .ok created =>
        let w2 : World σ :=
          { st := svc.CreateTags w1.st (createTagsInput cluster a),
            trace := w1.trace ++ [Call.CreateTags (createTagsInput cluster a)] }
        match created with
        | [] => (.panic .indexOutOfRange, w2)
        | tg :: _ => (.ok { l with DesiredTG := some tg }, w2)
    else (.error .nodePortOmitted, w)
  else (.ok l, w)

/-- The loop over the target groups of a rule's first action: both ARN
pointers are dereferenced before they are compared. `ok true` is a match. -/
def tupleLoop (current : TargetGroup) : List TargetGroupTuple → Outcome Bool
  | [] => .ok false
  | tg :: rest =>
    match tg.TargetGroupArn with
    | none => .panic .nilDereference
    | some primaryTGName =>
      match current.TargetGroupArn with
      | none => .panic .nilDereference
      | some primaryTGNameFromTFState =>
        if primaryTGName = primaryTGNameFromTFState then .ok true else tupleLoop current rest

/-- The target groups the loop `RULES` inspects in one rule: those of the
forward configuration of the first action, when there is one. -/
def inspectedTargetGroups (r : Rule) : List TargetGroupTuple :=
  match r.Actions with
  | [] => []
  | act :: _ =>
    match act.ForwardConfig with
    | none => []
    | some fc => fc.TargetGroups

/-- The loop `RULES`: the first rule with a matching target group. -/
def rulesLoop (current : TargetGroup) : List Rule → Outcome (Option Rule)
  | [] => .ok none
  | r :: rest =>
    match tupleLoop current (inspectedTargetGroups r) with
    | .ok true => .ok (some r)
    | .ok false => rulesLoop current rest
    | .error e => .error e
    | .panic q => .panic q

/-- The computation of `targetRuleBeforeUpdate` from the described rules. -/
def findTargetRule (l : ListenerStatus) (rules : List Rule) : Outcome (Option Rule) :=
  if rules.length = 0 then
    match l.DesiredTG with
    | none => .error .noListenerRuleToCreate
    | some _ => .ok none
  else
    match l.DesiredTG, l.CurrentTG with
    | some _, some current => rulesLoop current rules
    | _, _ => .ok none

/-- The conditions of a new rule. -/
def ruleConditions (l : ListenerStatus) : List RuleCondition :=
  (if l.Hosts.length > 0 then
      [{ Field := some "host-header", HostHeaderValues := some l.Hosts,
         PathPatternValues := none }]
    else []) ++
  (if l.PathPatterns.length > 0 then
      [{ Field := some "path-pattern", HostHeaderValues := none,
         PathPatternValues := some l.PathPatterns }]
    else [])

/-- The request `createRuleInput`. -/
def createRuleInput (listenerARN : String) (l : ListenerStatus) (desired : TargetGroup) :
    CreateRuleInput :=
  { Actions :=
      [{ ForwardConfig := some
           { TargetGroups := [{ TargetGroupArn := desired.TargetGroupArn, Weight := some 100 }] },
         TargetGroupArn := desired.TargetGroupArn,
         Order := none,
         ActionType := some "forward" }],
    Priority := some l.RulePriority,
    Conditions := ruleConditions l,
    ListenerArn := some listenerARN }

/-- The request `modifyRuleInput`. -/
def modifyRuleInput (before : Rule) (desired current : TargetGroup) : ModifyRuleInput :=
  { Actions :=
      [{ ForwardConfig := some
           { TargetGroups :=
               [ { TargetGroupArn := desired.TargetGroupArn, Weight := some 0 },
                 { TargetGroupArn := current.TargetGroupArn, Weight := some 100 } ] },
         TargetGroupArn := none,
         Order := none,
         ActionType := some "forward" }],
    RuleArn := before.RuleArn }

/-- The block computing `targetRuleAfterUpdate` and storing it in the status. -/
def applyRule {σ : Type} (svc : Elbv2 σ) (listenerARN : String) (l : ListenerStatus)
    (targetRuleBeforeUpdate : Option Rule) (w : World σ) : Outcome ListenerStatus × World σ :=
  match targetRuleBeforeUpdate, l.DesiredTG, l.CurrentTG with
  | none, some desired, _ =>
    let input := createRuleInput listenerARN l desired
    let w1 : World σ :=
      { st := (svc.CreateRule w.st input).2, trace := w.trace ++ [Call.CreateRule input] }
    match (svc.CreateRule w.st input).1 with
    | .error e => (.error (.creatingListenerRule e), w1)
    | .ok [] => (.panic .indexOutOfRange, w1)
    | .ok (r :: _) => (.ok { l with Rule := some r }, w1)
  | some before, some desired, some current =>
    let input := modifyRuleInput before desired current
    let w1 : World σ :=
      { st := (svc.ModifyRule w.st input).2, trace := w.trace ++ [Call.ModifyRule input] }
    match (svc.ModifyRule w.st input).1 with
    | .error e => (.error (.remote e), w1)
    | .ok [] => (.panic .indexOutOfRange, w1)
    | .ok (r :: _) => (.ok { l with Rule := some r }, w1)
  | _, _, _ => (.ok { l with Rule := none }, w)

/-- The listing of the listener's rules and the choice of the rule to evolve. -/
def chooseRule {σ : Type} (svc : Elbv2 σ) (listenerARN : String) (l : ListenerStatus)
    (w : World σ) : Outcome (Option Rule) × World σ :=
  match svc.DescribeRules w.st listenerARN with
  | .error e => (.error (.remote e), w)
  | .ok rules => (findTargetRule l rules, w)

/-- The body of the reconciliation loop for the listener `listenerARN`. -/
def reconcileListener {σ : Type} (svc : Elbv2 σ) (cluster : Cluster) (oldId newId : String)
    (listenerARN : String) (l : ListenerStatus) (w : World σ) :
    Outcome ListenerStatus × World σ :=
  if l.ALBAttachments.length > 1 then (.error .onlyOneAttachment, w)
  else
    match l.ALBAttachments with
    | [] => (.panic .indexOutOfRange, w)
    | a :: _ =>
      andThen (resolveCurrentTG svc a oldId l w) fun l1 w1 =>
      andThen (createDesiredTG svc cluster a newId l1 w1) fun l2 w2 =>
      andThen (chooseRule svc listenerARN l2 w2) fun before w3 =>
      applyRule svc listenerARN l2 before w3

/-- The reconciliation loop, visiting the keys in the order `ord`. -/
def reconcileAll {σ : Type} (svc : Elbv2 σ) (cluster : Cluster) (oldId newId : String) :
    List String → ListenerStatuses → World σ → Outcome ListenerStatuses × World σ
  | [], m, w => (.ok m, w)
  | arn :: rest, m, w =>
    match lookupStatus m arn with
    | none => reconcileAll svc cluster oldId newId rest m w
    | some l =>
      andThen (reconcileListener svc cluster oldId newId arn l w) fun l' w' =>
      reconcileAll svc cluster oldId newId rest (updateStatus m arn (fun _ => l')) w'

/-- The function `planListenerChanges(cluster, oldId, newId)`. The three lists
are the orders in which the runtime ranges over the keys of `listenerStatuses`:
`ordA` when the ARNs are collected, `ordV` in the validation loop and `ordR` in
the reconciliation loop. -/
def planListenerChanges {σ : Type} (svc : Elbv2 σ) (cluster : Cluster) (oldId newId : String)
    (ordA ordV ordR : List String) (w : World σ) : Outcome ListenerStatuses × World σ :=
  if cluster.VPCID = "" then (.error .vpcIdRequired, w)
  else
    match svc.DescribeListeners w.st ordA with
    | .error e => (.error (.remote e), w)
    | .ok listeners =>
      match attachListeners listeners (groupAttachments cluster.ALBAttachments) with
      | .error e => (.error e, w)
      | .panic q => (.panic q, w)
      | .ok m1 =>
        match validateAll ordV m1 with
        | .error e => (.error e, w)
        | .panic q => (.panic q, w)
        | .ok m2 => reconcileAll svc cluster oldId newId ordR m2 w

/-! ## Reading a trace -/

/-- The weight a rewrite puts on its first target group (the desired one). -/
def desiredWeight : Call → Option Int
  | .ModifyRule input =>
    match input.Actions with
    | [act] =>
      match act.ForwardConfig with
      | some fc =>
        match fc.TargetGroups with
        | [d, _] => d.Weight
        | _ => none
      | none => none
    | _ => none
  | _ => none

/-- The weight a rewrite puts on its second target group (the current one). -/
def currentWeight : Call → Option Int
  | .ModifyRule input =>
    match input.Actions with
    | [act] =>
      match act.ForwardConfig with
      | some fc =>
        match fc.TargetGroups with
        | [_, c] => c.Weight
        | _ => none
      | none => none
    | _ => none
  | _ => none

/-- The stepped weights `1 + j * s` for `j = k, k + 1, ...` as long as they stay
below 100 (at most 99 of them when `s` is positive). -/
def stepWeightsFrom (s : Int) (k : Nat) : List Int :=
  ((List.range' k (99 - k)).map (fun j : Nat => 1 + (j : Int) * s)).takeWhile (fun p => p < 100)

/-- The stepped weights 1, 1 + s, 1 + 2s, ... below 100. -/
def stepWeights (s : Int) : List Int := stepWeightsFrom s 0

/-- Every `ModifyRule` call succeeds. -/
def ModifyRuleSucceeds {σ : Type} (svc : Elbv2 σ) : Prop :=
  ∀ st input, ∃ out, (svc.ModifyRule st input).1 = Except.ok out

/-! ## Fixtures -/

/-- A control plane without state that accepts every request. -/
def acceptAll : Elbv2 Unit :=
  { DescribeListeners := fun _ _ => .ok []
    DescribeTargetGroups := fun _ _ => .ok []
    DescribeRules := fun _ _ => .ok []
    CreateTargetGroup := fun st _ => (.ok [], st)
    CreateTags := fun st _ => st
    CreateRule := fun st _ => (.ok [], st)
    ModifyRule := fun st _ => (.ok [], st) }

def sampleCluster : Cluster := { Name := "blue", Region := "us-east-1", VPCID := "vpc-1", ALBAttachments := [] }

def desiredV2 : TargetGroup :=
  { TargetGroupArn := some "arn:tg/web-80-v2", TargetGroupName := some "web-80-v2", Port := some 80,
    Protocol := some "HTTP", TargetType := some "instance", VpcId := some "vpc-1" }

def currentV1 : TargetGroup :=
  { TargetGroupArn := some "arn:tg/web-80-v1", TargetGroupName := some "web-80-v1", Port := some 80,
    Protocol := some "HTTP", TargetType := some "instance", VpcId := some "vpc-1" }

def forwardToCurrent : Action :=
  { ForwardConfig := some { TargetGroups := [{ TargetGroupArn := some "arn:tg/web-80-v1", Weight := some 100 }] },
    TargetGroupArn := none, Order := some 1, ActionType := some "forward" }

def ruleWith (actions : List Action) : Rule :=
  { RuleArn := some "arn:rule/1", Priority := some "10", Conditions := [], Actions := actions }

/-- A reconciled listener status whose rule has the given actions. -/
def statusWith (rule : Option Rule) (desired current : Option TargetGroup) : ListenerStatus :=
  { emptyStatus with Rule := rule, DesiredTG := desired, CurrentTG := current }

def readyStatus : ListenerStatus :=
  statusWith (some (ruleWith [forwardToCurrent])) (some desiredV2) (some currentV1)

def startWorld : World Unit := { st := (), trace := [] }

/-- The largest Go `int`. -/
def maxInt : Int := 2 ^ 63 - 1

def maxStepOpts : CanaryOpts := { CanaryAdvancementInterval := 0, CanaryAdvancementStep := maxInt }

def defaultOpts : CanaryOpts := { CanaryAdvancementInterval := 0, CanaryAdvancementStep := 5 }

def quarterOpts : CanaryOpts := { CanaryAdvancementInterval := 0, CanaryAdvancementStep := 25 }

def oneListener : ClusterSet :=
  { Cluster := sampleCluster, ListenerStatuses := [("arn:listener/1", readyStatus)] }

/-- A status with neither target group whose rule has no action. -/
def noActionStatus : ListenerStatus := statusWith (some (ruleWith [])) none none

/-- A status with both target groups and no rule. -/
def nilRuleStatus : ListenerStatus := statusWith none (some desiredV2) (some currentV1)

/-- A status with a rule but no desired target group. -/
def nilDesiredStatus : ListenerStatus :=
  statusWith (some (ruleWith [forwardToCurrent])) none (some currentV1)

/-- A ready status whose rule has no action. -/
def emptyRuleStatus : ListenerStatus :=
  statusWith (some (ruleWith [])) (some desiredV2) (some currentV1)

/-- A ready status whose rule has two actions. -/
def twoActionStatus : ListenerStatus :=
  statusWith (some (ruleWith [forwardToCurrent, forwardToCurrent])) (some desiredV2)
    (some currentV1)

/-- The outcome of a run and the desired weights of the rewrites it issued. -/
def writtenWeights {σ : Type} (r : Option (Outcome Unit × World σ)) :
    Option (Outcome Unit × List (Option Int)) :=
  r.map (fun x => (x.1, x.2.trace.map desiredWeight))

/-! ## Homogeneity of the attachments of one listener -/

/-- Two attachments differ in protocol, in priority, in the sorted host list or
in the sorted path-pattern list. -/
def Differ (a b : ALBAttachment) : Prop :=
  a.Protocol ≠ b.Protocol ∨ a.Priority ≠ b.Priority ∨
    copySortSlice a.Hosts ≠ copySortSlice b.Hosts ∨
    copySortSlice a.PathPatterns ≠ copySortSlice b.PathPatterns

instance (a b : ALBAttachment) : Decidable (Differ a b) := by
  unfold Differ
  infer_instance

/-- The keys of the map of listener statuses, in insertion order. -/
def statusKeys (m : ListenerStatuses) : List String := m.map (fun kv => kv.1)

/-- The answer of `DescribeListeners` names exactly the listeners asked for. -/
def DescribesRequested (listeners : List Listener) (keys : List String) : Prop :=
  (∀ info ∈ listeners, ∃ k ∈ keys, info.ListenerArn = some k) ∧
    (∀ k ∈ keys, ∃ info ∈ listeners, info.ListenerArn = some k)

/-- No state-changing call has been issued for a create. -/
def isCreateCall : Call → Bool
  | .CreateTargetGroup _ => true
  | .CreateRule _ => true
  | _ => false

/-- The attachments of `as` bound to the listener `k`, in their order. -/
def attachmentsOf (as : List ALBAttachment) (k : String) : List ALBAttachment :=
  as.filter (fun a => a.ListenerARN = k)

/-- The map `m` holds, for each listener of `as` and for no other key, a status
with the attachments of that listener. -/
def Grouped (as : List ALBAttachment) (m : ListenerStatuses) : Prop :=
  (∀ k l, lookupStatus m k = some l →
      l.ALBAttachments = attachmentsOf as k ∧ l.ALBAttachments ≠ []) ∧
    (∀ a ∈ as, ∃ l, lookupStatus m a.ListenerARN = some l)

/-! ## A model of the load-balancer control plane -/

/-- The remote state: listeners, target groups, rules (each with the ARN of its
listener) and a counter for fresh ARNs. -/
structure AlbState where
  listeners : List Listener
  targetGroups : List TargetGroup
  rules : List (String × Rule)
  nextId : Nat
  deriving DecidableEq, Repr

/-- The listeners asked for, or an error when one of them does not exist. -/
def describeListeners (st : AlbState) (arns : List String) : Except AwsError (List Listener) :=
  if arns.all (fun a => st.listeners.any (fun l => l.ListenerArn = some a)) then
    .ok (st.listeners.filter (fun l =>
      match l.ListenerArn with
      | some a => a ∈ arns
      | none => false))
  else .error "ListenerNotFound"

/-- The target groups with the names asked for, or an error when one of the
names does not exist. -/
def describeTargetGroups (st : AlbState) (names : List String) :
    Except AwsError (List TargetGroup) :=
  if names.all (fun n => st.targetGroups.any (fun tg => tg.TargetGroupName = some n)) then
    .ok (st.targetGroups.filter (fun tg =>
      match tg.TargetGroupName with
      | some n => n ∈ names
      | none => false))
  else .error "TargetGroupNotFound"

/-- The rules of a listener. -/
def describeRules (st : AlbState) (listenerArn : String) : Except AwsError (List Rule) :=
  .ok ((st.rules.filter (fun lr => lr.1 = listenerArn)).map (fun lr => lr.2))

/-- Creating a target group whose name exists returns the existing group;
otherwise a group with a fresh ARN is added. -/
def createTargetGroup (st : AlbState) (input : CreateTargetGroupInput) :
    Except AwsError (List TargetGroup) × AlbState :=
  match input.Name with
  | none => (.error "ValidationError", st)
  | some name =>
    match st.targetGroups.find? (fun tg => tg.TargetGroupName = some name) with
    | some tg => (.ok [tg], st)
    | none =>
      let tg : TargetGroup :=
        { TargetGroupArn := some ("arn:targetgroup/" ++ name ++ "/" ++ toString st.nextId),
          TargetGroupName := some name, Port := input.Port, Protocol := input.Protocol,
          TargetType := input.TargetType, VpcId := input.VpcId }
      (.ok [tg], { st with targetGroups := st.targetGroups ++ [tg], nextId := st.nextId + 1 })

/-- Creating a rule adds a rule with a fresh ARN to the listener. -/
def createRule (st : AlbState) (input : CreateRuleInput) : Except AwsError (List Rule) × AlbState :=
  match input.ListenerArn with
  | none => (.error "ValidationError", st)
  | some la =>
    let r : Rule :=
      { RuleArn := some ("arn:rule/" ++ toString st.nextId),
        Priority := input.Priority.map (fun p => toString p),
        Conditions := input.Conditions, Actions := input.Actions }
    (.ok [r], { st with rules := st.rules ++ [(la, r)], nextId := st.nextId + 1 })

/-- Replacing the actions of a rule, as `ModifyRule` does on the rule with the
given ARN. -/
def setActions (ra : String) (actions : List Action) (lr : String × Rule) : String × Rule :=
  if lr.2.RuleArn = some ra then (lr.1, { lr.2 with Actions := actions }) else lr

/-- Modifying a rule replaces its actions and returns the rule, or an error
when no rule has the ARN. -/
def modifyRule (st : AlbState) (input : ModifyRuleInput) : Except AwsError (List Rule) × AlbState :=
  match input.RuleArn with
  | none => (.error "ValidationError", st)
  | some ra =>
    match st.rules.find? (fun lr => lr.2.RuleArn = some ra) with
    | none => (.error "RuleNotFound", st)
    | some lr =>
      (.ok [{ lr.2 with Actions := input.Actions }],
        { st with rules := st.rules.map (setActions ra input.Actions) })

/-- The control plane over `AlbState`. -/
def simpleAlb : Elbv2 AlbState :=
  { DescribeListeners := describeListeners
    DescribeTargetGroups := describeTargetGroups
    DescribeRules := describeRules
    CreateTargetGroup := createTargetGroup
    CreateTags := fun st _ => st
    CreateRule := createRule
    ModifyRule := modifyRule }

/-! ## Fixtures for the planner -/

def webAttachment : ALBAttachment :=
  { NodeGroupName := "web", ListenerARN := "arn:listener/1", Protocol := "http", NodePort := 80,
    Priority := 10, Hosts := ["a.example.com"], PathPatterns := ["/*"] }

/-- The same binding with another path pattern. -/
def webAttachmentOtherPath : ALBAttachment := { webAttachment with PathPatterns := ["/api/*"] }

def clusterOf (as : List ALBAttachment) : Cluster :=
  { Name := "blue", Region := "us-east-1", VPCID := "vpc-1", ALBAttachments := as }

/-- A remote state with two listeners, the target group of version `v1` and a
rule of the first listener that forwards to it. -/
def remoteV1 : AlbState :=
  { listeners := [{ ListenerArn := some "arn:listener/1" }, { ListenerArn := some "arn:listener/2" }],
    targetGroups := [currentV1],
    rules := [("arn:listener/1", ruleWith [forwardToCurrent])],
    nextId := 2 }

def remoteWorld : World AlbState := { st := remoteV1, trace := [] }

/-- A binding to the second listener whose derived target-group name is longer
than 32 bytes. -/
def longNameAttachment : ALBAttachment :=
  { NodeGroupName := "payments-backend-blue-green-pool", ListenerARN := "arn:listener/2",
    Protocol := "http", NodePort := 8080, Priority := 20, Hosts := [], PathPatterns := [] }

/-- The create calls of a trace. -/
def createCalls (t : List Call) : List Call := t.filter isCreateCall

/-- The API operation of a recorded call. -/
def callName : Call → String
  | .CreateTargetGroup _ => "CreateTargetGroup"
  | .CreateTags _ => "CreateTags"
  | .CreateRule _ => "CreateRule"
  | .ModifyRule _ => "ModifyRule"

/-- The outcome of a run of the planner and the operations it issued. -/
def planSummary {σ : Type} (r : Outcome ListenerStatuses × World σ) :
    Outcome ListenerStatuses × List String :=
  (r.1, r.2.trace.map callName)

def bothListeners : List String := ["arn:listener/1", "arn:listener/2"]

/-- The calls of a trace that create or modify a rule. -/
def ruleCalls (t : List Call) : List Call :=
  t.filter (fun c =>
    match c with
    | .CreateRule _ => true
    | .ModifyRule _ => true
    | _ => false)

/-- The first action of the rule forwards to a group with the ARN `arn`: this
is the test the loop `RULES` makes on a rule. -/
def matchesCurrent (arn : String) (r : Rule) : Bool :=
  (inspectedTargetGroups r).any (fun tg => tg.TargetGroupArn = some arn)

/-- The sole action of the rule is a forward action that references the ARN
`arn` (the reading of the specification). -/
def soleActionReferences (arn : String) (r : Rule) : Bool :=
  match r.Actions with
  | [act] =>
    match act.ForwardConfig with
    | some fc => fc.TargetGroups.any (fun tg => tg.TargetGroupArn = some arn)
    | none => false
  | _ => false

/-- A second action, as an authentication step would be. -/
def otherAction : Action :=
  { ForwardConfig := none, TargetGroupArn := none, Order := some 2,
    ActionType := some "authenticate-oidc" }

/-- A status ready for the search of the rule to evolve. -/
def searchingStatus : ListenerStatus :=
  { emptyStatus with ALBAttachments := [webAttachment], DesiredTG := some desiredV2,
                     CurrentTG := some currentV1, RulePriority := 10,
                     Hosts := ["a.example.com"], PathPatterns := ["/*"] }

/-- The status of the first listener after grouping and validation. -/
def plannedStatus : ListenerStatus :=
  { emptyStatus with Listener := some { ListenerArn := some "arn:listener/1" },
                     ALBAttachments := [webAttachment], RulePriority := 10,
                     Hosts := ["a.example.com"], PathPatterns := ["/*"] }

/-- The target group the model creates for version `v2` in `remoteV1`. -/
def createdV2 : TargetGroup :=
  { TargetGroupArn := some "arn:targetgroup/web-80-v2/2", TargetGroupName := some "web-80-v2",
    Port := some 80, Protocol := some "HTTP", TargetType := some "instance",
    VpcId := some "vpc-1" }

/-- The world after the creation of the target group of version `v2`. -/
def worldAfterCreate : World AlbState :=
  { st := { remoteV1 with targetGroups := [currentV1, createdV2], nextId := 3 },
    trace := [Call.CreateTargetGroup (createTgInput (clusterOf [webAttachment]) webAttachment "v2"),
              Call.CreateTags (createTagsInput (clusterOf [webAttachment]) webAttachment)] }

/-- A remote state whose only rule of the first listener forwards elsewhere. -/
def remoteNoMatch : AlbState :=
  { remoteV1 with
    rules := [("arn:listener/1",
      ruleWith [{ forwardToCurrent with
        ForwardConfig := some
          { TargetGroups := [{ TargetGroupArn := some "arn:tg/other", Weight := some 100 }] } }])] }

def noMatchWorld : World AlbState := { st := remoteNoMatch, trace := [] }

/-- The world after the creation of the target group of `v2` in `remoteNoMatch`. -/
def noMatchAfterCreate : World AlbState :=
  { st := { remoteNoMatch with targetGroups := [currentV1, createdV2], nextId := 3 },
    trace := [Call.CreateTargetGroup (createTgInput (clusterOf [webAttachment]) webAttachment "v2"),
              Call.CreateTags (createTagsInput (clusterOf [webAttachment]) webAttachment)] }

/-- The status of the first listener after grouping, before validation. -/
def groupedStatus : ListenerStatus :=
  { emptyStatus with Listener := some { ListenerArn := some "arn:listener/1" },
                     ALBAttachments := [webAttachment] }

/-! ## Remote state facts used for the second run -/

/-- The first target group of the state with the given name. -/
def tgFirst (s : AlbState) (n : String) : Option TargetGroup :=
  s.targetGroups.find? (fun tg => tg.TargetGroupName = some n)

/-- The rules of the listener `k`, as `DescribeRules` lists them. -/
def rulesOf (s : AlbState) (k : String) : List Rule :=
  (s.rules.filter (fun lr => lr.1 = k)).map (fun lr => lr.2)

/-- Two rule entries with the same ARN are the same entry. -/
def DistinctRuleArns (s : AlbState) : Prop :=
  ∀ lr1 ∈ s.rules, ∀ lr2 ∈ s.rules, lr1.2.RuleArn = lr2.2.RuleArn → lr1.2.RuleArn ≠ none →
    lr1 = lr2

/-- Every target group of the state has an ARN. -/
def TargetGroupsHaveArns (s : AlbState) : Prop :=
  ∀ tg ∈ s.targetGroups, tg.TargetGroupArn ≠ none

/-- The actions `planListenerChanges` puts on the rule it evolves. -/
def evolvedActions (d c : TargetGroup) : List Action :=
  [{ ForwardConfig := some
       { TargetGroups :=
           [ { TargetGroupArn := d.TargetGroupArn, Weight := some 0 },
             { TargetGroupArn := c.TargetGroupArn, Weight := some 100 } ] },
     TargetGroupArn := none, Order := none, ActionType := some "forward" }]

/-- The call is a `CreateRule`. -/
def isCreateRule : Call → Bool
  | .CreateRule _ => true
  | _ => false

/-- What `ModifyRule` does to one rule. -/
def withActions (ra : String) (actions : List Action) (r : Rule) : Rule :=
  if r.RuleArn = some ra then { r with Actions := actions } else r

/-- The status of listener `k` is settled in the state `s`: `l'` is `l` with a
current group, a desired group and a rule that the state holds, the rule being
the one the search finds and already carrying the evolved actions. -/
def Settled (s : AlbState) (oldId newId k : String) (l l' : ListenerStatus) : Prop :=
  ∃ (a : ALBAttachment) (c d : TargetGroup) (R : Rule) (ra : String),
    l.ALBAttachments = [a] ∧
    l' = { l with CurrentTG := some c, DesiredTG := some d, Rule := some R } ∧
    ((oldId ≠ "" ∧ tgFirst s (targetGroupName a oldId) = some c) ∨
      (oldId = "" ∧ l.CurrentTG = some c)) ∧
    tgFirst s (targetGroupName a newId) = some d ∧
    (k, R) ∈ s.rules ∧
    rulesLoop c (rulesOf s k) = .ok (some R) ∧
    R.RuleArn = some ra ∧
    R.Actions = evolvedActions d c ∧
    ¬ (targetGroupName a newId).utf8ByteSize > 32 ∧
    a.NodePort ≠ 0

/-- What reconciling the listener `k` along the modify path does to the state:
target groups found by name stay found, the actions of one rule of `k` are
replaced, the listeners stay. -/
def Effect (s s' : AlbState) (k : String) : Prop :=
  (∀ n x, tgFirst s n = some x → tgFirst s' n = some x) ∧
    (∃ (R0 : Rule) (ra : String) (actions : List Action),
      (k, R0) ∈ s.rules ∧ R0.RuleArn = some ra ∧
        s'.rules = s.rules.map (setActions ra actions)) ∧
    s'.listeners = s.listeners

/-- The map `m` in which the status of every key `k` with `F k = some l'` has
been replaced by `l'`. -/
def applyResults (F : String → Option ListenerStatus) (m : ListenerStatuses) : ListenerStatuses :=
  m.map (fun kv =>
    match F kv.1 with
    | some l' => (kv.1, l')
    | none => kv)

/-- The status the validation loop stores for the key `k`, when the listener
has one and its validation ends normally. -/
def validatedStatus (m : ListenerStatuses) (k : String) : Option ListenerStatus :=
  match lookupStatus m k with
  | some l =>
    match validateListener l with
    | .ok l' => some l'
    | _ => none
  | none => none

/-! ## Fixtures for the second run -/

def justFirst : List String := ["arn:listener/1"]

/-- A first creation: no current version, desired version `v2`. -/
def createdOnce : Outcome ListenerStatuses × World AlbState :=
  planListenerChanges simpleAlb (clusterOf [webAttachment]) "" "v2" justFirst justFirst justFirst
    remoteWorld

/-- The same call on the remote state left by `createdOnce`. -/
def createdTwice : Outcome ListenerStatuses × World AlbState :=
  planListenerChanges simpleAlb (clusterOf [webAttachment]) "" "v2" justFirst justFirst justFirst
    { st := createdOnce.2.st, trace := [] }

def apiAttachment : ALBAttachment :=
  { NodeGroupName := "api", ListenerARN := "arn:listener/2", Protocol := "http", NodePort := 81,
    Priority := 20, Hosts := [], PathPatterns := ["/api/*"] }

def apiV1 : TargetGroup :=
  { TargetGroupArn := some "arn:tg/api-81-v1", TargetGroupName := some "api-81-v1", Port := some 81,
    Protocol := some "HTTP", TargetType := some "instance", VpcId := some "vpc-1" }

/-- A remote state in which each of the two listeners has a rule that forwards
to the target group of version `v1` of its backend. -/
def remoteTwo : AlbState :=
  { listeners := [{ ListenerArn := some "arn:listener/1" }, { ListenerArn := some "arn:listener/2" }],
    targetGroups := [currentV1, apiV1],
    rules :=
      [("arn:listener/1", ruleWith [forwardToCurrent]),
       ("arn:listener/2",
        { RuleArn := some "arn:rule/2", Priority := some "20", Conditions := [],
          Actions :=
            [{ ForwardConfig := some
                 { TargetGroups := [{ TargetGroupArn := some "arn:tg/api-81-v1", Weight := some 100 }] },
               TargetGroupArn := none, Order := some 1, ActionType := some "forward" }] })],
    nextId := 3 }

/-- A first run over both listeners that evolves the two existing rules. -/
def evolvedOnce : Outcome ListenerStatuses × World AlbState :=
  planListenerChanges simpleAlb (clusterOf [webAttachment, apiAttachment]) "v1" "v2"
    bothListeners bothListeners bothListeners { st := remoteTwo, trace := [] }

/-- The statuses of an outcome, empty when there are none. -/
def statusesOf (o : Outcome ListenerStatuses) : ListenerStatuses :=
  match o with
  | .ok m => m
  | _ => []

/-- The outcome of one round of the reconciliation loop in the state `s`. -/
def roundOutcome (cluster : Cluster) (oldId newId : String) (s : AlbState) (k : String)
    (l : ListenerStatus) : Outcome ListenerStatus :=
  (reconcileListener simpleAlb cluster oldId newId k l { st := s, trace := [] }).1

/-- The status a round stores for the key `k` of the map `m` in the state `s`,
when the listener has a status and the round ends normally. -/
def roundStatus (cluster : Cluster) (oldId newId : String) (s : AlbState)
    (m : ListenerStatuses) (k : String) : Option ListenerStatus :=
  match lookupStatus m k with
  | some l =>
    match roundOutcome cluster oldId newId s k l with
    | .ok l' => some l'
    | _ => none
  | none => none

/-! ## Fixtures for the lookup of the current target group -/

/-- The target groups of the state that carry one of the names, none when no
name is known: a lookup by name that reports an unknown name with an empty list
instead of an error. -/
def filterTargetGroups (st : AlbState) (names : List String) :
    Except AwsError (List TargetGroup) :=
  .ok (st.targetGroups.filter (fun tg =>
    match tg.TargetGroupName with
    | some n => n ∈ names
    | none => false))

/-- The control plane `simpleAlb` with the lookup `filterTargetGroups`. -/
def filteringAlb : Elbv2 AlbState :=
  { simpleAlb with DescribeTargetGroups := filterTargetGroups }

/-! ## Listeners with several attachments -/

/-- The attachments stored under the key `k`. -/
def attachmentsAt (m : ListenerStatuses) (k : String) : Option (List ALBAttachment) :=
  (lookupStatus m k).map (fun l => l.ALBAttachments)

/-- A cluster whose second listener has two identical attachments. -/
def twiceBound : Cluster := clusterOf [webAttachment, apiAttachment, apiAttachment]

/-! ## Fixtures for the node port -/

/-- The binding `webAttachment` without a node port. -/
def portlessAttachment : ALBAttachment := { webAttachment with NodePort := 0 }

/-! ## The range of the weights of a rewrite -/

/-- The rewrite carries a desired weight between 1 and 100 and a current weight
between 0 and 99, and the two sum to 100. -/
def weightsInRange (c : Call) : Bool :=
  match desiredWeight c, currentWeight c with
  | some d, some k => decide (1 ≤ d ∧ d ≤ 100 ∧ 0 ≤ k ∧ k ≤ 99 ∧ d + k = 100)
  | _, _ => false

/-! ## The weighted DNS record rollout (`pkg/courier/courier_r53_ops.go`) -/

/-- A configuration value as `api.Getter.Get` hands it out behind `interface{}`:
a string, an int, a slice of values or a map from keys to values. -/
inductive Value where
  | str (s : String)
  | int (n : Int)
  | list (items : List Value)
  | map (entries : List (String × Value))

/-- The interface `api.Getter`: `Get(key)`, `none` being the nil interface. -/
abbrev Getter := String → Option Value

/-- Modelled from the spec: the declaration of the type `DestinationRecordSet`
is not among the sources; these are the two fields the constructor sets, one
weighted DNS record variant (a set-identifier and an integer weight). -/
structure DestinationRecordSet where
  SetIdentifier : String
  Weight : Int
  deriving DecidableEq, Repr

/-- Modelled from the spec: the declaration of the type `Route53RecordSetRouter`
is not among the sources; these are the fields the constructor sets, the DNS
client apart: the record name, the hosted zone, the ordered destinations and
the step interval (a `time.Duration`, in nanoseconds) and step weight. -/
structure Route53RecordSetRouter where
  RecordName : String
  HostedZoneID : String
  Destinations : List DestinationRecordSet
  CanaryAdvancementInterval : Int
  CanaryAdvancementStep : Int
  deriving DecidableEq, Repr

/-- The arguments handed to `Analyze`, the context apart. -/
structure AnalyzeInput (μ : Type) where
  region : String
  profile : String
  assumeRoleConfig : Option String
  metrics : μ

/-- What the function calls outside this file, over metrics definitions of type
`μ`: the lookups of `tfsdk`, `sdk.AssumeRole` (its error, if any),
`route53.GetHostedZone` for an endpoint and a zone id (its error, if any),
`ReadMetrics`, `time.ParseDuration`, and `wait`, the result of `e.Wait()` for
the shifter and the watchdog once they are started (nil or the first error). -/
structure Route53Env (μ : Type) where
  GetAWSRegionAndProfile : Getter → String × String
  GetAssumeRoleConfig : Getter → Option String
  AssumeRole : String → Option String
  GetHostedZone : Option String → String → Option AwsError
  ReadMetrics : Getter → Except String μ
  ParseDuration : String → Except String Int
  wait : Route53RecordSetRouter → AnalyzeInput μ → Option String

/-- The errors `CreateOrUpdateCourierRoute53Record` returns. -/
inductive CourierError where
  | callingGetHostedZone (e : AwsError)
  | readingMetrics (e : String)
  | parsingStepInterval (v : String) (e : String)
  | rollout (e : String)
  deriving DecidableEq, Repr

/-- The panics it can raise: a failed type assertion on the value of a key, and
the `panic(err)` of `tfsdk.AWSSessionFromResourceData`. -/
inductive CourierPanic where
  | typeAssertion (key : String)
  | assumeRole (e : String)
  deriving DecidableEq, Repr

/-- How a step of the function ends. -/
inductive CourierOutcome (α : Type) where
  | ok (v : α)
  | error (e : CourierError)
  | panic (q : CourierPanic)
  deriving DecidableEq, Repr

/-- Sequencing: an error or a panic of the first step ends the function. -/
def CourierOutcome.bind {α β : Type} (r : CourierOutcome α) (k : α → CourierOutcome β) :
    CourierOutcome β :=
  match r with
  | .ok v => k v
  | .error e => .error e
  | .panic q => .panic q

/-- The function `tfsdk.AWSSessionFromResourceData`: it panics when a role is
configured and assuming it fails. -/
def AWSSessionFromResourceData {μ : Type} (env : Route53Env μ) (d : Getter) : CourierOutcome Unit :=
  match env.GetAssumeRoleConfig d with
  | none => .ok ()
  | some assumeRoleConfig =>
    match env.AssumeRole assumeRoleConfig with
    | some err => .panic (.assumeRole err)
    | none => .ok ()

/-- The assertion `d.Get(key).(string)`. -/
def getString (d : Getter) (key : String) : CourierOutcome String :=
  match d key with
  | some (.str s) => .ok s
  | _ => .panic (.typeAssertion key)

/-- The endpoint override: `if v := d.Get("address"); v != nil`. -/
def getEndpoint (d : Getter) : CourierOutcome (Option String) :=
  match d "address" with
  | none => .ok none
  | some (.str s) => .ok (some s)
  | some _ => .panic (.typeAssertion "address")

/-- The map index `m[key]`. -/
def lookupEntry (m : List (String × Value)) (key : String) : Option Value :=
  (m.find? (fun kv => kv.1 = key)).map (fun kv => kv.2)

/-- The body of the loop over the destination items. -/
def destinationOf (arrayItem : Value) : CourierOutcome DestinationRecordSet :=
  match arrayItem with
  | .map m =>
    match lookupEntry m "set_identifier" with
    | some (.str setIdentifier) =>
      match lookupEntry m "weight" with
      | some (.int weight) => .ok { SetIdentifier := setIdentifier, Weight := weight }
      | _ => .panic (.typeAssertion "weight")
    | _ => .panic (.typeAssertion "set_identifier")
  | _ => .panic (.typeAssertion "destination")

/-- The loop `for _, arrayItem := range v.([]interface{})`, appending to the
destinations collected so far. -/
def destinationsLoop :
    List Value → List DestinationRecordSet → CourierOutcome (List DestinationRecordSet)
  | [], destinations => .ok destinations
  | arrayItem :: rest, destinations =>
    match destinationOf arrayItem with
    | .ok dest => destinationsLoop rest (destinations ++ [dest])
    | .error e => .error e
    | .panic q => .panic q

/-- The destinations: `if v := d.Get("destination"); v != nil`. -/
def getDestinations (d : Getter) : CourierOutcome (List DestinationRecordSet) :=
  match d "destination" with
  | none => .ok []
  | some (.list items) => destinationsLoop items []
  | some _ => .panic (.typeAssertion "destination")

/-- The duration `time.Second`, in nanoseconds. -/
def second : Int := 1000000000

/-- The step interval: one second unless `step_interval` is set. -/
def getStepInterval {μ : Type} (env : Route53Env μ) (d : Getter) : CourierOutcome Int :=
  match d "step_interval" with
  | none => .ok (1 * second)
  | some (.str v) =>
    match env.ParseDuration v with
    | .error err => .error (.parsingStepInterval v err)
    | .ok dur => .ok dur
  | some _ => .panic (.typeAssertion "step_interval")

/-- The step weight: 50 unless `step_weight` is set. -/
def getStepWeight (d : Getter) : CourierOutcome Int :=
  match d "step_weight" with
  | none => .ok 50
  | some (.int v) => .ok v
  | some _ => .panic (.typeAssertion "step_weight")

/-- The lookup of the hosted zone. -/
def getHostedZone {μ : Type} (env : Route53Env μ) (endpoint : Option String) (zoneID : String) :
    CourierOutcome Unit :=
  match env.GetHostedZone endpoint zoneID with
  | some err => .error (.callingGetHostedZone err)
  | none => .ok ()

/-- The call of `ReadMetrics`. -/
def readMetrics {μ : Type} (env : Route53Env μ) (d : Getter) : CourierOutcome μ :=
  match env.ReadMetrics d with
  | .error err => .error (.readingMetrics err)
  | .ok metrics => .ok metrics

/-- The part of `CreateOrUpdateCourierRoute53Record` before the two tasks are
started: the router and the arguments of the analysis it builds. -/
def buildRouter {μ : Type} (env : Route53Env μ) (d : Getter) :
    CourierOutcome (Route53RecordSetRouter × AnalyzeInput μ) :=
  (AWSSessionFromResourceData env d).bind fun _ =>
  (getEndpoint d).bind fun endpoint =>
  (getString d "zone_id").bind fun zoneID =>
  (getHostedZone env endpoint zoneID).bind fun _ =>
  (getString d "name").bind fun recordName =>
  (readMetrics env d).bind fun metrics =>
  (getDestinations d).bind fun destinations =>
  (getStepInterval env d).bind fun stepInterval =>
  (getStepWeight d).bind fun stepWeight =>
  .ok ({ RecordName := recordName, HostedZoneID := zoneID, Destinations := destinations,
         CanaryAdvancementInterval := stepInterval, CanaryAdvancementStep := stepWeight },
       { region := (env.GetAWSRegionAndProfile d).1, profile := (env.GetAWSRegionAndProfile d).2,
         assumeRoleConfig := env.GetAssumeRoleConfig d, metrics := metrics })

/-- A task handed to the group with `e.Go`. -/
inductive Started (μ : Type) where
  | shifter (r : Route53RecordSetRouter)
  | watchdog (a : AnalyzeInput μ)

/-- The function `CreateOrUpdateCourierRoute53Record(d, mSchema)`: its outcome
and the tasks it has started, in the order of the two `e.Go` calls. -/
def CreateOrUpdateCourierRoute53Record {μ : Type} (env : Route53Env μ) (d : Getter) :
    CourierOutcome Unit × List (Started μ) :=
  match buildRouter env d with
  | .error e => (.error e, [])
  | .panic q => (.panic q, [])
  | .ok (r, a) =>
    (match env.wait r a with
      | none => .ok ()
      | some err => .error (.rollout err),
     [.shifter r, .watchdog a])

/-- The destination item `item` is a map that configures the pair `p`: the
string `p.1` under `set_identifier` and the int `p.2` under `weight`. -/
def ConfiguredAs (item : Value) (p : String × Int) : Prop :=
  ∃ m, item = .map m ∧ lookupEntry m "set_identifier" = some (.str p.1) ∧
    lookupEntry m "weight" = some (.int p.2)

/-- The destination built from a configured pair. -/
def destinationOfPair (p : String × Int) : DestinationRecordSet :=
  { SetIdentifier := p.1, Weight := p.2 }

/-! ## Fixtures for the DNS rollout -/

/-- An environment in which every outside call succeeds and the only duration
that parses is `5s`. -/
def sampleEnv : Route53Env (List String) :=
  { GetAWSRegionAndProfile := fun _ => ("us-east-1", "default")
    GetAssumeRoleConfig := fun _ => none
    AssumeRole := fun _ => none
    GetHostedZone := fun _ _ => none
    ReadMetrics := fun _ => .ok []
    ParseDuration := fun v => if v = "5s" then .ok (5 * second) else .error "time: invalid duration"
    wait := fun _ _ => none }

/-- A record with two destinations and neither `step_interval` nor
`step_weight`. -/
def sampleRecord : Getter := fun key =>
  if key = "zone_id" then some (.str "Z1")
  else if key = "name" then some (.str "www.example.com")
  else if key = "destination" then
    some (.list [.map [("set_identifier", .str "blue"), ("weight", .int 100)],
                 .map [("weight", .int 0), ("set_identifier", .str "green")]])
  else none

/-- The record `sampleRecord` with a step interval and a step weight. -/
def steppedRecord : Getter := fun key =>
  if key = "step_interval" then some (.str "5s")
  else if key = "step_weight" then some (.int 20)
  else sampleRecord key

/-- The record `sampleRecord` with a step interval that is not a duration. -/
def badIntervalRecord : Getter := fun key =>
  if key = "step_interval" then some (.str "soon") else sampleRecord key

/-! ## Cancellation of the shift (the shifter of the specification) -/

/-- The weights of `ps` that a shifter checking its cancellation scope at every
step boundary still writes: `cancelled k` tells whether the scope is cancelled
when the rewrite number `k` (counted from 0) is due, and from the first such
rewrite on nothing is written. -/
def suppressAfter (cancelled : Nat → Bool) : Nat → List Int → List Int
  | _, [] => []
  | k, p :: rest => if cancelled k then [] else p :: suppressAfter cancelled (k + 1) rest

/-- The desired weights written by the cancellable shifter of the
specification for the step `s`: the stepped weights and the final 100, cut at
the first rewrite that is due after the cancellation. -/
def specShiftWeights (cancelled : Nat → Bool) (s : Int) : List Int :=
  suppressAfter cancelled 0 (stepWeights s ++ [100])

/-- A scope that is never cancelled. -/
def neverCancelled : Nat → Bool := fun _ => false

/-- A scope that is cancelled once the first rewrite has been applied. -/
def cancelledAfterFirst : Nat → Bool := fun k => decide (1 ≤ k)

/-- A step of 25 with a wait of five seconds between two steps. -/
def waitingOpts : CanaryOpts :=
  { CanaryAdvancementInterval := 5000000000, CanaryAdvancementStep := 25 }

/-! ## Theorems -/

theorem wrapInt_of_inRange (x : Int) (h1 : -(2 ^ 63) ≤ x) (h2 : x < 2 ^ 63) : wrapInt x = x := by
  unfold wrapInt
  omega

theorem setDesired_ok {σ : Type} (svc : Elbv2 σ) (hok : ModifyRuleSucceeds svc)
    (l : ListenerStatus) (d c : TargetGroup) (r : Rule) (hd : l.DesiredTG = some d)
    (hc : l.CurrentTG = some c) (hr : l.Rule = some r) (p : Int) (hp : p ≤ 100) (w : World σ) :
    ∃ w', setDesiredTGTrafficPercentage svc l p w = (.ok (), w') ∧
      w'.trace = w.trace ++ [Call.ModifyRule (shiftInput d c r p)] := by
  obtain ⟨out, hout⟩ := hok w.st (shiftInput d c r p)
  refine ⟨{ st := (svc.ModifyRule w.st (shiftInput d c r p)).2,
            trace := w.trace ++ [Call.ModifyRule (shiftInput d c r p)] }, ?_, rfl⟩
  unfold setDesiredTGTrafficPercentage
  rw [if_neg (by omega), hd, hc, hr]
  simp only [hout]

theorem stepWeightsFrom_done (s : Int) (k : Nat) (h : ¬ (1 + (k : Int) * s < 100)) :
    stepWeightsFrom s k = [] := by
  unfold stepWeightsFrom
  rcases Nat.lt_or_ge k 99 with hk | hk
  · obtain ⟨m, hm⟩ : ∃ m, 99 - k = m + 1 := ⟨98 - k, by omega⟩
    rw [hm, List.range'_succ, List.map_cons, List.takeWhile_cons]
    simp [h]
  · have : 99 - k = 0 := by omega
    simp [this]

theorem stepWeightsFrom_step (s : Int) (k : Nat) (hk : k < 99) (h : 1 + (k : Int) * s < 100) :
    stepWeightsFrom s k = (1 + (k : Int) * s) :: stepWeightsFrom s (k + 1) := by
  unfold stepWeightsFrom
  obtain ⟨m, hm⟩ : ∃ m, 99 - k = m + 1 := ⟨98 - k, by omega⟩
  have hm2 : 99 - (k + 1) = m := by omega
  rw [hm, hm2, List.range'_succ, List.map_cons, List.takeWhile_cons]
  simp [h]

/-- The stepping loop without overflow: entered at `1 + k * s` with enough fuel,
it ends normally after the rewrites of the remaining stepped weights. -/
theorem shiftLoop_noWrap {σ : Type} (svc : Elbv2 σ) (hok : ModifyRuleSucceeds svc)
    (l : ListenerStatus) (d c : TargetGroup) (r : Rule) (hd : l.DesiredTG = some d)
    (hc : l.CurrentTG = some c) (hr : l.Rule = some r) (s : Int) (hs1 : 1 ≤ s)
    (hs2 : s < 2 ^ 63 - 1) :
    ∀ (fuel k : Nat) (w : World σ), k ≤ 99 → 99 - k ≤ fuel →
      ∃ w', shiftLoop svc l s fuel (1 + (k : Int) * s) w = some (.ok (), w') ∧
        w'.trace = w.trace ++ (stepWeightsFrom s k).map (fun p => Call.ModifyRule (shiftInput d c r p)) := by
  intro fuel
  induction fuel with
  | zero =>
    intro k w hk hf
    have hk99 : k = 99 := by omega
    have hp : ¬ (1 + (k : Int) * s < 100) := by
      subst hk99
      push_cast
      omega
    refine ⟨w, ?_, ?_⟩
    · simp only [shiftLoop, if_neg hp]
    · simp [stepWeightsFrom_done s k hp]
  | succ n ih =>
    intro k w hk hf
    by_cases hp : 1 + (k : Int) * s < 100
    · have hk99 : k < 99 := by
        by_contra hcon
        have : k = 99 := by omega
        subst this
        push_cast at hp
        omega
      obtain ⟨w1, hw1, ht1⟩ := setDesired_ok svc hok l d c r hd hc hr (1 + (k : Int) * s)
        (by omega) w
      have hnext : wrapInt (1 + (k : Int) * s + s) = 1 + ((k + 1 : Nat) : Int) * s := by
        have hks : 0 ≤ (k : Int) * s := by positivity
        have e : 1 + (k : Int) * s + s = 1 + ((k + 1 : Nat) : Int) * s := by push_cast; ring
        rw [← e]
        apply wrapInt_of_inRange
        · omega
        · rcases Nat.eq_zero_or_pos k with h0 | hpos
          · subst h0
            simp
            omega
          · have : s ≤ (k : Int) * s := by
              have hk1 : (1 : Int) ≤ k := by exact_mod_cast hpos
              nlinarith
            omega
      obtain ⟨w2, hw2, ht2⟩ := ih (k + 1) w1 (by omega) (by omega)
      refine ⟨w2, ?_, ?_⟩
      · simp only [shiftLoop, if_pos hp, hw1, hnext, hw2]
      · rw [ht2, ht1, stepWeightsFrom_step s k hk99 hp]
        simp
    · refine ⟨w, ?_, ?_⟩
      · simp only [shiftLoop, if_neg hp]
      · simp [stepWeightsFrom_done s k hp]

theorem effectiveStep_pos (opts : CanaryOpts) : 1 ≤ effectiveStep opts := by
  unfold effectiveStep
  split <;> omega

theorem effectiveStep_of_pos (opts : CanaryOpts) (h : 0 < opts.CanaryAdvancementStep) :
    effectiveStep opts = opts.CanaryAdvancementStep := by
  unfold effectiveStep
  rw [if_pos h]

theorem effectiveStep_of_nonpos (opts : CanaryOpts) (h : opts.CanaryAdvancementStep ≤ 0) :
    effectiveStep opts = 5 := by
  unfold effectiveStep
  rw [if_neg (by omega)]

/-- One listener without overflow: when the step is below the largest `int`,
the listener is ready and every rewrite succeeds, the loop body ends normally
and has issued the rewrites of the stepped weights and then of weight 100. -/
theorem shiftListener_noWrap {σ : Type} (svc : Elbv2 σ) (hok : ModifyRuleSucceeds svc)
    (opts : CanaryOpts) (hstep : effectiveStep opts < 2 ^ 63 - 1)
    (l : ListenerStatus) (d c : TargetGroup) (r : Rule) (hd : l.DesiredTG = some d)
    (hc : l.CurrentTG = some c) (hr : l.Rule = some r) (hact : r.Actions.length = 1)
    (fuel : Nat) (hfuel : 99 ≤ fuel) (w : World σ) :
    ∃ w', shiftListener svc opts fuel l w = some (.ok (), w') ∧
      w'.trace = w.trace ++
        (stepWeights (effectiveStep opts) ++ [100]).map
          (fun p => Call.ModifyRule (shiftInput d c r p)) := by
  obtain ⟨w1, hw1, ht1⟩ := shiftLoop_noWrap svc hok l d c r hd hc hr (effectiveStep opts)
    (effectiveStep_pos opts) hstep fuel 0 w (by omega) (by omega)
  obtain ⟨w2, hw2, ht2⟩ := setDesired_ok svc hok l d c r hd hc hr 100 (by omega) w1
  refine ⟨w2, ?_, ?_⟩
  · unfold shiftListener
    simp only [Nat.cast_zero, zero_mul, add_zero] at hw1
    simp only [hr, hact, hw1, hw2]
    simp
  · rw [ht2, ht1]
    simp [stepWeights]

theorem desiredWeight_shiftInput (d c : TargetGroup) (r : Rule) (p : Int) :
    desiredWeight (Call.ModifyRule (shiftInput d c r p)) = some p := rfl

theorem currentWeight_shiftInput (d c : TargetGroup) (r : Rule) (p : Int) (h1 : 1 ≤ p)
    (h2 : p ≤ 100) :
    currentWeight (Call.ModifyRule (shiftInput d c r p)) = some (100 - p) := by
  show some (wrapInt (100 - p)) = some (100 - p)
  rw [wrapInt_of_inRange _ (by omega) (by omega)]

theorem stepWeightsFrom_bounds (s : Int) (hs : 1 ≤ s) (k : Nat) :
    ∀ p ∈ stepWeightsFrom s k, 1 ≤ p ∧ p < 100 := by
  intro p hp
  have h100 : p < 100 := by
    have := List.mem_takeWhile_imp hp
    simpa using this
  have hmem := (List.takeWhile_sublist _).subset hp
  simp only [List.mem_map, List.mem_range'_1] at hmem
  obtain ⟨j, _, rfl⟩ := hmem
  have : 0 ≤ (j : Int) * s := by positivity
  exact ⟨by omega, h100⟩

theorem stepWeightsFrom_increasing (s : Int) (hs : 1 ≤ s) (k : Nat) :
    (stepWeightsFrom s k).Pairwise (fun a b => a < b) := by
  unfold stepWeightsFrom
  apply List.Pairwise.sublist (List.takeWhile_sublist _)
  rw [List.pairwise_map]
  apply List.Pairwise.imp _ (List.pairwise_lt_range' k (99 - k))
  intro a b hab
  have : (a : Int) < b := by exact_mod_cast hab
  nlinarith

/-- Without overflow the weights written are 1, 1 + s, ... and finally 100, a
non-decreasing sequence. -/
theorem stepWeights_monotone (s : Int) (hs : 1 ≤ s) :
    (stepWeights s ++ [100]).Pairwise (fun a b => a ≤ b) := by
  rw [List.pairwise_append]
  refine ⟨?_, by simp, ?_⟩
  · exact List.Pairwise.imp (fun h => le_of_lt h) (stepWeightsFrom_increasing s hs 0)
  · intro a ha b hb
    have := (stepWeightsFrom_bounds s hs 0 a ha).2
    simp only [List.mem_singleton] at hb
    omega

theorem stepWeights_25 : stepWeights 25 = [1, 26, 51, 76] := by decide

theorem shiftAll_append {σ : Type} (svc : Elbv2 σ) (opts : CanaryOpts) (fuel : Nat)
    (pre rest : ListenerStatuses) :
    ∀ (w w1 : World σ), shiftAll svc opts fuel pre w = some (.ok (), w1) →
      shiftAll svc opts fuel (pre ++ rest) w = shiftAll svc opts fuel rest w1 := by
  induction pre with
  | nil =>
    intro w w1 h
    simp only [shiftAll, Option.some.injEq, Prod.mk.injEq, true_and] at h
    subst h
    rfl
  | cons kv pre ih =>
    intro w w1 h
    obtain ⟨k, l⟩ := kv
    simp only [List.cons_append, shiftAll] at h ⊢
    cases hl : shiftListener svc opts fuel l w with
    | none => simp [hl] at h
    | some r =>
      obtain ⟨o, w2⟩ := r
      cases o with
      | ok v =>
        simp only [hl] at h ⊢
        exact ih w2 w1 h
      | error e => simp [hl] at h
      | panic q => simp [hl] at h

theorem shiftListener_noActions {σ : Type} (svc : Elbv2 σ) (opts : CanaryOpts) (fuel : Nat)
    (l : ListenerStatus) (rule : Rule) (hr : l.Rule = some rule) (hact : rule.Actions = [])
    (w : World σ) : shiftListener svc opts fuel l w = some (.ok (), w) := by
  unfold shiftListener
  simp [hr, hact]

theorem shiftListener_manyActions {σ : Type} (svc : Elbv2 σ) (opts : CanaryOpts) (fuel : Nat)
    (l : ListenerStatus) (rule : Rule) (arn : String) (hr : l.Rule = some rule)
    (harn : rule.RuleArn = some arn) (hact : 2 ≤ rule.Actions.length) (w : World σ) :
    shiftListener svc opts fuel l w =
      some (.error (.unexpectedNumberOfActions arn rule.Actions.length), w) := by
  unfold shiftListener
  have h1 : rule.Actions.length > 0 := by omega
  have h2 : rule.Actions.length ≠ 1 := by omega
  simp only [hr, h1, h2, harn, if_true, ne_eq, not_false_eq_true]

theorem shiftListener_nilTargetGroup {σ : Type} (svc : Elbv2 σ) (opts : CanaryOpts)
    (fuel : Nat) (hfuel : 0 < fuel) (l : ListenerStatus) (rule : Rule) (hr : l.Rule = some rule)
    (hact : rule.Actions.length = 1) (hnil : l.DesiredTG = none ∨ l.CurrentTG = none)
    (w : World σ) :
    ∃ e, shiftListener svc opts fuel l w = some (.error e, w) := by
  obtain ⟨n, rfl⟩ : ∃ n, fuel = n + 1 := ⟨fuel - 1, by omega⟩
  have hset : ∃ e, setDesiredTGTrafficPercentage svc l 1 w = (.error e, w) := by
    unfold setDesiredTGTrafficPercentage
    rw [if_neg (by omega)]
    cases hd : l.DesiredTG with
    | none => exact ⟨_, rfl⟩
    | some d =>
      cases hc : l.CurrentTG with
      | none => exact ⟨_, rfl⟩
      | some c => simp [hd, hc] at hnil
  obtain ⟨e, he⟩ := hset
  refine ⟨e, ?_⟩
  unfold shiftListener
  simp only [hr, hact, shiftLoop, he]
  simp

/-- C1, at the step `math.MaxInt64`: `p += step` overflows after the first
rewrite, the loop goes on with the wrapped values, and the rewrites issued carry
the desired weights 1, -2^63, -1 and 100, while the stepped sequence of the
claim for this step is 1 followed by the final 100. -/
theorem C1_maxInt_step_rewrites :
    writtenWeights (graduallyShiftTraffic acceptAll oneListener maxStepOpts 100 startWorld) =
        some (.ok (), [some 1, some (-(2 ^ 63)), some (-1), some 100]) ∧
      stepWeights (effectiveStep maxStepOpts) ++ [100] = [1, 100] := by
  constructor
  · decide
  · decide

/-- C2, at the step `math.MaxInt64`: every rewrite succeeds, the run ends
normally, and the desired weights written, 1, -2^63, -1, 100, are not a
non-decreasing sequence. -/
theorem C2_maxInt_step_not_monotone :
    ∃ w, graduallyShiftTraffic acceptAll oneListener maxStepOpts 100 startWorld =
        some (.ok (), w) ∧
      w.trace.filterMap desiredWeight = [1, -(2 ^ 63), -1, 100] ∧
      ¬ (w.trace.filterMap desiredWeight).Pairwise (fun a b => a ≤ b) := by
  refine ⟨_, rfl, by decide, by decide⟩

/-- C6 fails as stated: a status with no target groups whose rule has no action
is skipped and the run ends without an error; a status whose rule is nil makes
the run panic on `l.Rule.Actions`. -/
theorem C6_counterexample :
    (noActionStatus.DesiredTG = none ∧
      writtenWeights (graduallyShiftTraffic acceptAll
        { Cluster := sampleCluster, ListenerStatuses := [("arn:listener/1", noActionStatus)] }
        defaultOpts 100 startWorld) = some (.ok (), [])) ∧
    (nilRuleStatus.Rule = none ∧
      writtenWeights (graduallyShiftTraffic acceptAll
        { Cluster := sampleCluster, ListenerStatuses := [("arn:listener/1", nilRuleStatus)] }
        defaultOpts 100 startWorld) = some (.panic .nilDereference, [])) := by
  decide

/-- C6 as amended: once the listeners visited before it have been shifted, a
listener status whose rule is non-nil with at least one action (and an ARN when
it has several) and whose desired or current target group is nil makes
`graduallyShiftTraffic` return an error without any rewrite for that listener;
when its rule has no action the listener is skipped and the run goes on. -/
theorem C6_nil_target_group_rejected {σ : Type} (svc : Elbv2 σ) (opts : CanaryOpts)
    (fuel : Nat) (cluster : Cluster) (pre rest : ListenerStatuses) (key : String)
    (l : ListenerStatus) (rule : Rule) (w w1 : World σ) (hfuel : 0 < fuel)
    (hpre : graduallyShiftTraffic svc { Cluster := cluster, ListenerStatuses := pre } opts fuel w =
      some (.ok (), w1))
    (hr : l.Rule = some rule) (hnil : l.DesiredTG = none ∨ l.CurrentTG = none) :
    (0 < rule.Actions.length → (rule.Actions.length = 1 ∨ rule.RuleArn ≠ none) →
      ∃ e, graduallyShiftTraffic svc
          { Cluster := cluster, ListenerStatuses := pre ++ (key, l) :: rest } opts fuel w =
        some (.error e, w1)) ∧
    (rule.Actions.length = 0 →
      graduallyShiftTraffic svc
          { Cluster := cluster, ListenerStatuses := pre ++ (key, l) :: rest } opts fuel w =
        graduallyShiftTraffic svc { Cluster := cluster, ListenerStatuses := rest } opts fuel w1) := by
  unfold graduallyShiftTraffic at hpre ⊢
  simp only at hpre ⊢
  rw [shiftAll_append svc opts fuel pre _ w w1 hpre]
  constructor
  · intro hpos harn
    by_cases h1 : rule.Actions.length = 1
    · obtain ⟨e, he⟩ := shiftListener_nilTargetGroup svc opts fuel hfuel l rule hr h1 hnil w1
      exact ⟨e, by simp only [shiftAll, he]⟩
    · have harn2 : rule.RuleArn ≠ none := by
        rcases harn with h | h
        · exact absurd h h1
        · exact h
      obtain ⟨arn, harn3⟩ := Option.ne_none_iff_exists'.mp harn2
      have := shiftListener_manyActions svc opts fuel l rule arn hr harn3 (by omega) w1
      exact ⟨.unexpectedNumberOfActions arn rule.Actions.length, by simp only [shiftAll, this]⟩
  · intro h0
    have := shiftListener_noActions svc opts fuel l rule hr (List.length_eq_zero.mp h0) w1
    simp only [shiftAll, this]

theorem C6_nil_target_group_rejected_witness :
    ∃ e, graduallyShiftTraffic acceptAll
        { Cluster := sampleCluster,
          ListenerStatuses := [("arn:listener/1", readyStatus), ("arn:listener/2", nilDesiredStatus)] }
        quarterOpts 100 startWorld =
      some (.error e,
        { st := (),
          trace := [1, 26, 51, 76, 100].map
            (fun p => Call.ModifyRule (shiftInput desiredV2 currentV1 (ruleWith [forwardToCurrent]) p)) }) :=
  (C6_nil_target_group_rejected acceptAll quarterOpts 100 sampleCluster
    [("arn:listener/1", readyStatus)] [] "arn:listener/2" nilDesiredStatus
    (ruleWith [forwardToCurrent]) startWorld _ (by decide) rfl rfl (Or.inl rfl)).1
    (by decide) (Or.inl rfl)

/-- C7 fails as stated: a ready status whose rule has no action is not
rejected, the run ends without an error; and a rule with two actions is
rejected only when its listener is reached, after the five rewrites already
issued for the listener visited before it. -/
theorem C7_counterexample :
    (emptyRuleStatus.Rule = some (ruleWith []) ∧
      writtenWeights (graduallyShiftTraffic acceptAll
        { Cluster := sampleCluster, ListenerStatuses := [("arn:listener/1", emptyRuleStatus)] }
        defaultOpts 100 startWorld) = some (.ok (), [])) ∧
    writtenWeights (graduallyShiftTraffic acceptAll
        { Cluster := sampleCluster,
          ListenerStatuses := [("arn:listener/1", readyStatus), ("arn:listener/2", twoActionStatus)] }
        quarterOpts 100 startWorld) =
      some (.error (.unexpectedNumberOfActions "arn:rule/1" 2),
        [some 1, some 26, some 51, some 76, some 100]) := by
  decide

/-- C7 as amended: once the listeners visited before it have been shifted, a
listener status whose rule has more than one action makes
`graduallyShiftTraffic` return the error on the number of actions before any
rewrite for that listener (the rewrites of the listeners visited before stay
issued); a rule with no action is not rejected, its listener is skipped without
a rewrite and the run goes on with the next one. -/
theorem C7_action_count_check {σ : Type} (svc : Elbv2 σ) (opts : CanaryOpts)
    (fuel : Nat) (cluster : Cluster) (pre rest : ListenerStatuses) (key : String)
    (l : ListenerStatus) (rule : Rule) (arn : String) (w w1 : World σ)
    (hpre : graduallyShiftTraffic svc { Cluster := cluster, ListenerStatuses := pre } opts fuel w =
      some (.ok (), w1))
    (hr : l.Rule = some rule) (harn : rule.RuleArn = some arn) :
    (2 ≤ rule.Actions.length →
      graduallyShiftTraffic svc
          { Cluster := cluster, ListenerStatuses := pre ++ (key, l) :: rest } opts fuel w =
        some (.error (.unexpectedNumberOfActions arn rule.Actions.length), w1)) ∧
    (rule.Actions.length = 0 →
      graduallyShiftTraffic svc
          { Cluster := cluster, ListenerStatuses := pre ++ (key, l) :: rest } opts fuel w =
        graduallyShiftTraffic svc { Cluster := cluster, ListenerStatuses := rest } opts fuel w1) := by
  unfold graduallyShiftTraffic at hpre ⊢
  simp only at hpre ⊢
  rw [shiftAll_append svc opts fuel pre _ w w1 hpre]
  constructor
  · intro h2
    have := shiftListener_manyActions svc opts fuel l rule arn hr harn h2 w1
    simp only [shiftAll, this]
  · intro h0
    have := shiftListener_noActions svc opts fuel l rule hr (List.length_eq_zero.mp h0) w1
    simp only [shiftAll, this]

theorem C7_action_count_check_witness :
    graduallyShiftTraffic acceptAll
        { Cluster := sampleCluster,
          ListenerStatuses := [("arn:listener/1", twoActionStatus), ("arn:listener/2", readyStatus)] }
        quarterOpts 100 startWorld =
      some (.error (.unexpectedNumberOfActions "arn:rule/1" 2), startWorld) :=
  (C7_action_count_check acceptAll quarterOpts 100 sampleCluster [] [("arn:listener/2", readyStatus)]
    "arn:listener/1" twoActionStatus (ruleWith [forwardToCurrent, forwardToCurrent]) "arn:rule/1"
    startWorld startWorld rfl rfl rfl).1 (by decide)

/-! ### The validation loop -/

theorem sliceEqLoop_eq_none (i : Nat) (a b : List String) (h : a.length = b.length) :
    sliceEqLoop i a b = none ↔ a = b := by
  induction a generalizing b i with
  | nil =>
    cases b with
    | nil => simp [sliceEqLoop]
    | cons y ys => simp at h
  | cons x xs ih =>
    cases b with
    | nil => simp at h
    | cons y ys =>
      simp only [List.length_cons, Nat.add_right_cancel_iff] at h
      by_cases hxy : x = y
      · subst hxy
        simp [sliceEqLoop, ih (i + 1) ys h]
      · simp [sliceEqLoop, hxy]

theorem sliceEq_eq_none (a b : List String) : sliceEq a b = none ↔ a = b := by
  unfold sliceEq
  by_cases h : a.length = b.length
  · simp [h, sliceEqLoop_eq_none 0 a b h]
  · simp only [ne_eq, h, not_false_eq_true, if_true]
    constructor
    · intro hc
      cases hc
    · intro hab
      exact absurd (by rw [hab]) h

theorem differ_symm {a b : ALBAttachment} (h : Differ a b) : Differ b a := by
  unfold Differ at h ⊢
  rcases h with h | h | h | h
  · exact Or.inl (Ne.symm h)
  · exact Or.inr (Or.inl (Ne.symm h))
  · exact Or.inr (Or.inr (Or.inl (Ne.symm h)))
  · exact Or.inr (Or.inr (Or.inr (Ne.symm h)))

/-- Attachments that both agree with a third one agree with each other. -/
theorem not_differ_trans {a b c : ALBAttachment} (hab : ¬ Differ a c) (hbc : ¬ Differ b c) :
    ¬ Differ a b := by
  unfold Differ at hab hbc ⊢
  simp only [not_or, ne_eq, not_not] at hab hbc ⊢
  obtain ⟨h1, h2, h3, h4⟩ := hab
  obtain ⟨g1, g2, g3, g4⟩ := hbc
  exact ⟨h1.trans g1.symm, h2.trans g2.symm, h3.trans g3.symm, h4.trans g4.symm⟩

theorem not_differ_self (a : ALBAttachment) : ¬ Differ a a := by
  unfold Differ
  simp

/-- The comparison loop with the listener present: it ends normally when every
remaining attachment agrees with the base one, and with an error otherwise. -/
theorem checkAttachments_spec (l : ListenerStatus) (info : Listener)
    (hl : l.Listener = some info) (base : ALBAttachment) (rest : List ALBAttachment) :
    ∀ i : Nat,
      (checkAttachments l base (copySortSlice base.Hosts) (copySortSlice base.PathPatterns) i rest
          = .ok () ∧ ∀ l2 ∈ rest, ¬ Differ l2 base) ∨
      ((∃ e, checkAttachments l base (copySortSlice base.Hosts)
          (copySortSlice base.PathPatterns) i rest = .error e) ∧ ∃ l2 ∈ rest, Differ l2 base) := by
  induction rest with
  | nil =>
    intro i
    left
    exact ⟨rfl, by simp⟩
  | cons l2 rest ih =>
    intro i
    have hve : ∀ e, validationError l e = .error e := by
      intro e
      simp [validationError, hl]
    by_cases h1 : l2.Protocol = base.Protocol
    · by_cases h2 : l2.Priority = base.Priority
      · by_cases h3 : copySortSlice l2.Hosts = copySortSlice base.Hosts
        · by_cases h4 : copySortSlice l2.PathPatterns = copySortSlice base.PathPatterns
          · have hnd : ¬ Differ l2 base := by
              unfold Differ
              simp [h1, h2, h3, h4]
            have hstep : checkAttachments l base (copySortSlice base.Hosts)
                (copySortSlice base.PathPatterns) i (l2 :: rest) =
                checkAttachments l base (copySortSlice base.Hosts)
                  (copySortSlice base.PathPatterns) (i + 1) rest := by
              simp [checkAttachments, h1, h2, (sliceEq_eq_none _ _).mpr h3,
                (sliceEq_eq_none _ _).mpr h4]
            rcases ih (i + 1) with ⟨hok, hall⟩ | ⟨herr, hex⟩
            · left
              refine ⟨by rw [hstep, hok], ?_⟩
              intro x hx
              rcases List.mem_cons.mp hx with rfl | hx
              · exact hnd
              · exact hall x hx
            · right
              refine ⟨by rw [hstep]; exact herr, ?_⟩
              obtain ⟨x, hx, hd⟩ := hex
              exact ⟨x, List.mem_cons_of_mem _ hx, hd⟩
          · right
            have hs : ∃ d, sliceEq (copySortSlice l2.PathPatterns)
                (copySortSlice base.PathPatterns) = some d := by
              cases hq : sliceEq (copySortSlice l2.PathPatterns) (copySortSlice base.PathPatterns) with
              | none => exact absurd ((sliceEq_eq_none _ _).mp hq) h4
              | some d => exact ⟨d, rfl⟩
            obtain ⟨d, hd⟩ := hs
            refine ⟨⟨.mismatchingPathPatterns i, ?_⟩, l2, List.mem_cons_self _ _, ?_⟩
            · simp [checkAttachments, h1, h2, (sliceEq_eq_none _ _).mpr h3, hd, hve]
            · exact Or.inr (Or.inr (Or.inr h4))
        · right
          have hs : ∃ d, sliceEq (copySortSlice l2.Hosts) (copySortSlice base.Hosts) = some d := by
            cases hq : sliceEq (copySortSlice l2.Hosts) (copySortSlice base.Hosts) with
            | none => exact absurd ((sliceEq_eq_none _ _).mp hq) h3
            | some d => exact ⟨d, rfl⟩
          obtain ⟨d, hd⟩ := hs
          refine ⟨⟨.mismatchingHosts i, ?_⟩, l2, List.mem_cons_self _ _, ?_⟩
          · simp [checkAttachments, h1, h2, hd, hve]
          · exact Or.inr (Or.inr (Or.inl h3))
      · right
        refine ⟨⟨.mismatchingPriority i, ?_⟩, l2, List.mem_cons_self _ _, ?_⟩
        · simp [checkAttachments, h1, h2, hve]
        · exact Or.inr (Or.inl h2)
    · right
      refine ⟨⟨.mismatchingProtocol i, ?_⟩, l2, List.mem_cons_self _ _, ?_⟩
      · simp [checkAttachments, h1, hve]
      · exact Or.inl h1

/-- The validation of one listener with the listener present: an error exactly
when two of its attachments differ, and otherwise the status with the settings
of the first attachment. -/
theorem validateListener_spec (l : ListenerStatus) (info : Listener)
    (hl : l.Listener = some info) (base : ALBAttachment) (rest : List ALBAttachment)
    (hatt : l.ALBAttachments = base :: rest) :
    ((∃ e, validateListener l = .error e) ∧
        ∃ a ∈ l.ALBAttachments, ∃ b ∈ l.ALBAttachments, Differ a b) ∨
      (validateListener l =
          .ok { l with RulePriority := base.Priority, Hosts := base.Hosts,
                       PathPatterns := base.PathPatterns } ∧
        ∀ a ∈ l.ALBAttachments, ∀ b ∈ l.ALBAttachments, ¬ Differ a b) := by
  rcases checkAttachments_spec l info hl base rest 1 with ⟨hok, hall⟩ | ⟨⟨e, he⟩, x, hx, hd⟩
  · right
    constructor
    · simp only [validateListener, hatt, hok]
    · have hb : ∀ a ∈ l.ALBAttachments, ¬ Differ a base := by
        intro a ha
        rw [hatt] at ha
        rcases List.mem_cons.mp ha with rfl | ha
        · exact not_differ_self a
        · exact hall a ha
      intro a ha b hb2
      exact not_differ_trans (hb a ha) (hb b hb2)
  · left
    constructor
    · exact ⟨e, by simp only [validateListener, hatt, he]⟩
    · refine ⟨x, ?_, base, ?_, hd⟩
      · rw [hatt]
        exact List.mem_cons_of_mem _ hx
      · rw [hatt]
        exact List.mem_cons_self _ _

/-! ### The map of listener statuses -/

theorem statusKeys_updateStatus (m : ListenerStatuses) (k : String)
    (f : ListenerStatus → ListenerStatus) : statusKeys (updateStatus m k f) = statusKeys m := by
  unfold statusKeys updateStatus
  rw [List.map_map]
  apply List.map_congr_left
  intro kv _
  by_cases h : kv.1 = k <;> simp [h]

theorem lookupStatus_updateStatus (m : ListenerStatuses) (k k2 : String)
    (f : ListenerStatus → ListenerStatus) :
    lookupStatus (updateStatus m k f) k2 =
      (lookupStatus m k2).map (fun l => if k2 = k then f l else l) := by
  induction m with
  | nil => rfl
  | cons kv m ih =>
    obtain ⟨k1, v⟩ := kv
    unfold lookupStatus updateStatus at ih ⊢
    simp only [List.map_cons, List.find?_cons]
    by_cases h1 : k1 = k
    · by_cases h2 : k1 = k2
      · subst h1
        subst h2
        simp
      · have h3 : ¬ k2 = k := fun h => h2 (h1.trans h.symm)
        simp only [h1, if_true] at ih ⊢
        rw [h1] at h2
        simp only [h2, decide_False, h3, if_false] at ih ⊢
        exact ih
    · by_cases h2 : k1 = k2
      · subst h2
        simp [h1]
      · simp only [h1, if_false, h2, decide_False]
        exact ih

theorem lookupStatus_append_single (m : ListenerStatuses) (k k2 : String) (v : ListenerStatus) :
    lookupStatus (m ++ [(k, v)]) k2 =
      match lookupStatus m k2 with
      | some l => some l
      | none => if k = k2 then some v else none := by
  induction m with
  | nil =>
    unfold lookupStatus
    by_cases h : k = k2 <;> simp [h]
  | cons kv m ih =>
    obtain ⟨k1, v1⟩ := kv
    unfold lookupStatus at ih ⊢
    simp only [List.cons_append, List.find?_cons]
    by_cases h1 : k1 = k2
    · simp [h1]
    · simp only [h1, decide_False]
      exact ih

theorem lookupStatus_isSome_iff (m : ListenerStatuses) (k : String) :
    (∃ l, lookupStatus m k = some l) ↔ k ∈ statusKeys m := by
  induction m with
  | nil => simp [lookupStatus, statusKeys]
  | cons kv m ih =>
    obtain ⟨k1, v1⟩ := kv
    unfold lookupStatus statusKeys at ih ⊢
    simp only [List.find?_cons, List.map_cons, List.mem_cons]
    by_cases h1 : k1 = k
    · simp [h1]
    · simp only [h1, decide_False]
      rw [ih]
      constructor
      · intro h
        exact Or.inr h
      · intro h
        rcases h with h | h
        · exact absurd h.symm h1
        · exact h

theorem lookupStatus_addAttachment (m : ListenerStatuses) (a : ALBAttachment) (k : String) :
    lookupStatus (addAttachment m a) k =
      if k = a.ListenerARN then
        some { (lookupStatus m k).getD emptyStatus with
          ALBAttachments := ((lookupStatus m k).getD emptyStatus).ALBAttachments ++ [a] }
      else lookupStatus m k := by
  unfold addAttachment
  simp only
  rw [lookupStatus_updateStatus]
  by_cases hk : k = a.ListenerARN
  · subst hk
    simp only [if_true]
    cases hl : lookupStatus m a.ListenerARN with
    | some l => simp [hl]
    | none => simp [hl, lookupStatus_append_single]
  · simp only [hk, if_false, Option.map_id_fun, id_eq]
    cases hl : lookupStatus m a.ListenerARN with
    | some l => simp
    | none =>
      simp only [lookupStatus_append_single]
      cases hl2 : lookupStatus m k with
      | some l2 => rfl
      | none =>
        have : ¬ a.ListenerARN = k := fun h => hk h.symm
        simp [this]

/-- What the grouping loop has built after the attachments `pre`. -/
theorem groupInv_foldl (as : List ALBAttachment) :
    ∀ (pre : List ALBAttachment) (m : ListenerStatuses),
      (∀ k, lookupStatus m k =
        if attachmentsOf pre k = [] then none
        else some { emptyStatus with ALBAttachments := attachmentsOf pre k }) →
      ∀ k, lookupStatus (as.foldl addAttachment m) k =
        if attachmentsOf (pre ++ as) k = [] then none
        else some { emptyStatus with ALBAttachments := attachmentsOf (pre ++ as) k } := by
  induction as with
  | nil =>
    intro pre m h k
    simpa using h k
  | cons a as ih =>
    intro pre m h k
    have hstep : ∀ k, lookupStatus (addAttachment m a) k =
        if attachmentsOf (pre ++ [a]) k = [] then none
        else some { emptyStatus with ALBAttachments := attachmentsOf (pre ++ [a]) k } := by
      intro k
      rw [lookupStatus_addAttachment, h k]
      unfold attachmentsOf
      rw [List.filter_append]
      by_cases hk : k = a.ListenerARN
      · subst hk
        by_cases he : List.filter (fun b => decide (b.ListenerARN = a.ListenerARN)) pre = []
        · simp [he, emptyStatus]
        · simp [he]
      · have hk2 : ¬ a.ListenerARN = k := fun h => hk h.symm
        simp [hk, hk2]
    have := ih (pre ++ [a]) (addAttachment m a) hstep k
    simpa [List.foldl_cons, List.append_assoc] using this

theorem lookupStatus_groupAttachments (as : List ALBAttachment) (k : String) :
    lookupStatus (groupAttachments as) k =
      if attachmentsOf as k = [] then none
      else some { emptyStatus with ALBAttachments := attachmentsOf as k } := by
  have := groupInv_foldl as [] [] (by intro k; simp [lookupStatus, attachmentsOf]) k
  simpa [groupAttachments] using this

theorem grouped_groupAttachments (as : List ALBAttachment) : Grouped as (groupAttachments as) := by
  constructor
  · intro k l hl
    rw [lookupStatus_groupAttachments] at hl
    by_cases he : attachmentsOf as k = []
    · simp [he] at hl
    · simp only [he, if_false, Option.some.injEq] at hl
      subst hl
      exact ⟨rfl, he⟩
  · intro a ha
    rw [lookupStatus_groupAttachments]
    have he : attachmentsOf as a.ListenerARN ≠ [] := by
      intro h
      have : a ∈ attachmentsOf as a.ListenerARN := by
        unfold attachmentsOf
        simp [ha]
      rw [h] at this
      simp at this
    simp [he]

/-- Writing a status with the same attachments keeps the map grouped. -/
theorem grouped_updateStatus (as : List ALBAttachment) (m : ListenerStatuses) (k : String)
    (f : ListenerStatus → ListenerStatus)
    (hf : ∀ l, lookupStatus m k = some l → (f l).ALBAttachments = l.ALBAttachments)
    (h : Grouped as m) : Grouped as (updateStatus m k f) := by
  obtain ⟨h1, h2⟩ := h
  constructor
  · intro k2 l hl
    rw [lookupStatus_updateStatus] at hl
    cases hm : lookupStatus m k2 with
    | none => simp [hm] at hl
    | some l0 =>
      simp only [hm, Option.map_some', Option.some.injEq] at hl
      obtain ⟨e1, e2⟩ := h1 k2 l0 hm
      by_cases hk : k2 = k
      · simp only [hk, if_true] at hl
        subst hl
        rw [hf l0 (hk ▸ hm)]
        exact ⟨e1, e2⟩
      · simp only [hk, if_false] at hl
        subst hl
        exact ⟨e1, e2⟩
  · intro a ha
    obtain ⟨l, hl⟩ := h2 a ha
    rw [lookupStatus_updateStatus, hl]
    simp

/-- Storing the described listeners: when every listener of the answer is one
of the map, the loop ends normally, the attachments stay as they are, and every
status whose listener is in the answer (or was set before) has its listener set. -/
theorem attachListeners_ok (as : List ALBAttachment) (ls : List Listener) :
    ∀ m : ListenerStatuses,
      (∀ info ∈ ls, ∃ k ∈ statusKeys m, info.ListenerArn = some k) → Grouped as m →
      ∃ m', attachListeners ls m = .ok m' ∧ Grouped as m' ∧ statusKeys m' = statusKeys m ∧
        ∀ k l', lookupStatus m' k = some l' → ∀ l, lookupStatus m k = some l →
          (l.Listener ≠ none ∨ ∃ info ∈ ls, info.ListenerArn = some k) → l'.Listener ≠ none := by
  induction ls with
  | nil =>
    intro m _ hg
    refine ⟨m, rfl, hg, rfl, ?_⟩
    intro k l' hl' l hl hor
    rw [hl] at hl'
    cases hl'
    rcases hor with h | ⟨info, hi, _⟩
    · exact h
    · simp at hi
  | cons info rest ih =>
    intro m hin hg
    obtain ⟨k0, hk0, harn⟩ := hin info (List.mem_cons_self _ _)
    obtain ⟨l0, hl0⟩ := (lookupStatus_isSome_iff m k0).mpr hk0
    have hg2 : Grouped as (updateStatus m k0 (fun l => { l with Listener := some info })) :=
      grouped_updateStatus as m k0 _ (fun _ _ => rfl) hg
    have hin2 : ∀ info2 ∈ rest, ∃ k ∈ statusKeys
        (updateStatus m k0 (fun l => { l with Listener := some info })),
        info2.ListenerArn = some k := by
      intro info2 h2
      rw [statusKeys_updateStatus]
      exact hin info2 (List.mem_cons_of_mem _ h2)
    obtain ⟨m', hrun, hg', hkeys, hset⟩ := ih _ hin2 hg2
    refine ⟨m', ?_, hg', ?_, ?_⟩
    · simp only [attachListeners, harn, hl0, hrun]
    · rw [hkeys, statusKeys_updateStatus]
    · intro k l' hl' l hl hor
      have hl2 : lookupStatus (updateStatus m k0 (fun l => { l with Listener := some info })) k =
          some (if k = k0 then { l with Listener := some info } else l) := by
        rw [lookupStatus_updateStatus, hl]
        rfl
      apply hset k l' hl' _ hl2
      by_cases hk : k = k0
      · left
        simp [hk]
      · simp only [hk, if_false]
        rcases hor with h | ⟨info2, hi2, harn2⟩
        · exact Or.inl h
        · rcases List.mem_cons.mp hi2 with rfl | hi2
          · rw [harn] at harn2
            cases harn2
            exact absurd rfl hk
          · exact Or.inr ⟨info2, hi2, harn2⟩

/-- The validation loop fails with an error as soon as a listener it visits has
two attachments that differ. -/
theorem validateAll_error (as : List ALBAttachment) (k0 : String)
    (hdiff : ∃ a ∈ attachmentsOf as k0, ∃ b ∈ attachmentsOf as k0, Differ a b) :
    ∀ (ord : List String) (m : ListenerStatuses), k0 ∈ ord → Grouped as m →
      (∀ k l, lookupStatus m k = some l → l.Listener ≠ none) → k0 ∈ statusKeys m →
      ∃ e, validateAll ord m = .error e := by
  intro ord
  induction ord with
  | nil =>
    intro m h
    simp at h
  | cons k rest ih =>
    intro m hmem hg hls hkey
    cases hl : lookupStatus m k with
    | none =>
      have hne : k0 ≠ k := by
        intro h
        subst h
        obtain ⟨l, hl2⟩ := (lookupStatus_isSome_iff m k0).mpr hkey
        rw [hl] at hl2
        cases hl2
      have hmem2 : k0 ∈ rest := by
        rcases List.mem_cons.mp hmem with h | h
        · exact absurd h hne
        · exact h
      obtain ⟨e, he⟩ := ih m hmem2 hg hls hkey
      exact ⟨e, by simp only [validateAll, hl, he]⟩
    | some l =>
      obtain ⟨info, hinfo⟩ := Option.ne_none_iff_exists'.mp (hls k l hl)
      obtain ⟨hatt, hne⟩ := hg.1 k l hl
      obtain ⟨base, tail, hbt⟩ : ∃ base tail, l.ALBAttachments = base :: tail := by
        cases hq : l.ALBAttachments with
        | nil => exact absurd hq hne
        | cons b t => exact ⟨b, t, rfl⟩
      rcases validateListener_spec l info hinfo base tail hbt with ⟨⟨e, he⟩, _⟩ | ⟨hok, hnd⟩
      · exact ⟨e, by simp only [validateAll, hl, he]⟩
      · have hne2 : k0 ≠ k := by
          intro h
          subst h
          obtain ⟨a, ha, b, hb, hd⟩ := hdiff
          rw [← hatt] at ha hb
          exact hnd a ha b hb hd
        have hmem2 : k0 ∈ rest := by
          rcases List.mem_cons.mp hmem with h | h
          · exact absurd h hne2
          · exact h
        have hg2 := grouped_updateStatus as m k
          (fun _ => { l with RulePriority := base.Priority, Hosts := base.Hosts,
                             PathPatterns := base.PathPatterns })
          (by intro l2 hl2; rw [hl] at hl2; cases hl2; rfl) hg
        have hls2 : ∀ k2 l2, lookupStatus (updateStatus m k
            (fun _ => { l with RulePriority := base.Priority, Hosts := base.Hosts,
                               PathPatterns := base.PathPatterns })) k2 = some l2 →
            l2.Listener ≠ none := by
          intro k2 l2 h2
          rw [lookupStatus_updateStatus] at h2
          cases hm : lookupStatus m k2 with
          | none => simp [hm] at h2
          | some l3 =>
            simp only [hm, Option.map_some', Option.some.injEq] at h2
            by_cases hk : k2 = k
            · simp only [hk, if_true] at h2
              subst h2
              simp [hinfo]
            · simp only [hk, if_false] at h2
              subst h2
              exact hls k2 l3 hm
        obtain ⟨e, he⟩ := ih _ hmem2 hg2 hls2 (by rw [statusKeys_updateStatus]; exact hkey)
        exact ⟨e, by simp only [validateAll, hl, hok, he]⟩

/-- C3: when two attachments of one listener differ in protocol, priority,
sorted hosts or sorted path patterns, and the describe call answers with the
listeners asked for, `planListenerChanges` returns an error and the remote
state and the trace of state-changing calls are as before the call; and the
validation of one listener, which compares every attachment with the first one
only, reports an error exactly when some pair of its attachments differs. -/
theorem C3_differing_attachments_rejected {σ : Type} (svc : Elbv2 σ) (cluster : Cluster)
    (oldId newId : String) (ordA ordV ordR : List String) (w : World σ)
    (a b : ALBAttachment) (ha : a ∈ cluster.ALBAttachments) (hb : b ∈ cluster.ALBAttachments)
    (hsame : a.ListenerARN = b.ListenerARN) (hdiff : Differ a b)
    (hord : a.ListenerARN ∈ ordV)
    (hdesc : ∀ ls, svc.DescribeListeners w.st ordA = .ok ls →
      DescribesRequested ls (statusKeys (groupAttachments cluster.ALBAttachments))) :
    (∃ e, planListenerChanges svc cluster oldId newId ordA ordV ordR w = (.error e, w)) ∧
      ∀ (l : ListenerStatus) (info : Listener), l.Listener = some info → l.ALBAttachments ≠ [] →
        ((∃ e, validateListener l = .error e) ↔
          ∃ x ∈ l.ALBAttachments, ∃ y ∈ l.ALBAttachments, Differ x y) := by
  constructor
  · unfold planListenerChanges
    by_cases hv : cluster.VPCID = ""
    · exact ⟨_, by rw [if_pos hv]⟩
    · rw [if_neg hv]
      cases hd : svc.DescribeListeners w.st ordA with
      | error e => exact ⟨_, rfl⟩
      | ok ls =>
        obtain ⟨hreq1, hreq2⟩ := hdesc ls hd
        have hg := grouped_groupAttachments cluster.ALBAttachments
        obtain ⟨m1, hrun, hg1, hkeys, hset⟩ :=
          attachListeners_ok cluster.ALBAttachments ls _ hreq1 hg
        have hls : ∀ k l, lookupStatus m1 k = some l → l.Listener ≠ none := by
          intro k l hl
          have hk : k ∈ statusKeys (groupAttachments cluster.ALBAttachments) := by
            rw [← hkeys]
            exact (lookupStatus_isSome_iff m1 k).mp ⟨l, hl⟩
          obtain ⟨l0, hl0⟩ := (lookupStatus_isSome_iff _ k).mpr hk
          exact hset k l hl l0 hl0 (Or.inr (hreq2 k hk))
        have hkey : a.ListenerARN ∈ statusKeys m1 := by
          obtain ⟨l, hl⟩ := hg1.2 a ha
          exact (lookupStatus_isSome_iff m1 _).mp ⟨l, hl⟩
        have hpair : ∃ x ∈ attachmentsOf cluster.ALBAttachments a.ListenerARN,
            ∃ y ∈ attachmentsOf cluster.ALBAttachments a.ListenerARN, Differ x y := by
          refine ⟨a, ?_, b, ?_, hdiff⟩
          · simp [attachmentsOf, ha]
          · simp [attachmentsOf, hb, hsame]
        obtain ⟨e, he⟩ := validateAll_error cluster.ALBAttachments a.ListenerARN hpair ordV m1
          hord hg1 hls hkey
        exact ⟨e, by simp only [hrun, he]⟩
  · intro l info hl hne
    obtain ⟨base, tail, hbt⟩ : ∃ base tail, l.ALBAttachments = base :: tail := by
      cases hq : l.ALBAttachments with
      | nil => exact absurd hq hne
      | cons b t => exact ⟨b, t, rfl⟩
    rcases validateListener_spec l info hl base tail hbt with ⟨herr, hex⟩ | ⟨hok, hnd⟩
    · exact ⟨fun _ => hex, fun _ => herr⟩
    · constructor
      · rintro ⟨e, he⟩
        rw [hok] at he
        cases he
      · rintro ⟨x, hx, y, hy, hd⟩
        exact absurd hd (hnd x hx y hy)

theorem C3_differing_attachments_rejected_witness :
    ∃ e, planListenerChanges simpleAlb (clusterOf [webAttachment, webAttachmentOtherPath]) "v1" "v2"
        ["arn:listener/1"] ["arn:listener/1"] ["arn:listener/1"] remoteWorld =
      (.error e, remoteWorld) :=
  (C3_differing_attachments_rejected simpleAlb (clusterOf [webAttachment, webAttachmentOtherPath])
    "v1" "v2" ["arn:listener/1"] ["arn:listener/1"] ["arn:listener/1"] remoteWorld
    webAttachment webAttachmentOtherPath (by decide) (by decide) rfl (by decide) (by decide)
    (by
      intro ls h
      have : ls = [{ ListenerArn := some "arn:listener/1" }] := by
        have h2 : simpleAlb.DescribeListeners remoteWorld.st ["arn:listener/1"] =
            .ok [{ ListenerArn := some "arn:listener/1" }] := rfl
        rw [h2] at h
        cases h
        rfl
      subst this
      unfold DescribesRequested
      decide)).1

/-! ### The reconciliation loop -/

theorem reconcileAll_append {σ : Type} (svc : Elbv2 σ) (cluster : Cluster) (oldId newId : String)
    (pre rest : List String) :
    ∀ (m m' : ListenerStatuses) (w w' : World σ),
      reconcileAll svc cluster oldId newId pre m w = (.ok m', w') →
      reconcileAll svc cluster oldId newId (pre ++ rest) m w =
        reconcileAll svc cluster oldId newId rest m' w' := by
  induction pre with
  | nil =>
    intro m m' w w' h
    simp only [reconcileAll, Prod.mk.injEq, Outcome.ok.injEq] at h
    obtain ⟨h1, h2⟩ := h
    subst h1
    subst h2
    rfl
  | cons k pre ih =>
    intro m m' w w' h
    simp only [List.cons_append, reconcileAll] at h ⊢
    cases hl : lookupStatus m k with
    | none =>
      simp only [hl] at h ⊢
      exact ih m m' w w' h
    | some l =>
      simp only [hl] at h ⊢
      rcases hr : reconcileListener svc cluster oldId newId k l w with ⟨o, w1⟩
      cases o with
      | ok l' =>
        simp only [hr, andThen] at h ⊢
        exact ih _ m' w1 w' h
      | error e => simp [hr, andThen] at h
      | panic q => simp [hr, andThen] at h

/-- The number of characters of a string is at most its number of bytes. -/
theorem length_le_utf8ByteSize (s : String) : s.length ≤ s.utf8ByteSize := by
  obtain ⟨cs⟩ := s
  show cs.length ≤ String.utf8ByteSize.go cs
  induction cs with
  | nil => simp [String.utf8ByteSize.go]
  | cons c cs ih =>
    have := Char.utf8Size_pos c
    simp only [List.length_cons, String.utf8ByteSize.go]
    omega

/-- The name guard in the loop body: with a single attachment whose derived
name is longer than 32 bytes, the body returns an error and has issued no
state-changing call, unless the lookup of the current group answers with an
empty list. -/
theorem reconcileListener_nameTooLong {σ : Type} (svc : Elbv2 σ) (cluster : Cluster)
    (oldId newId arn : String) (l : ListenerStatus) (a : ALBAttachment) (w : World σ)
    (hatt : l.ALBAttachments = [a]) (hnew : newId ≠ "")
    (hlen : 32 < (targetGroupName a newId).utf8ByteSize)
    (hcur : oldId = "" ∨ svc.DescribeTargetGroups w.st [targetGroupName a oldId] ≠ .ok []) :
    ∃ e, reconcileListener svc cluster oldId newId arn l w = (.error e, w) := by
  have hcreate : ∀ l1, createDesiredTG svc cluster a newId l1 w =
      (.error (.nameTooLong (targetGroupName a newId).utf8ByteSize), w) := by
    intro l1
    unfold createDesiredTG
    rw [if_pos hnew, if_pos hlen]
  unfold reconcileListener
  simp only [hatt, List.length_singleton, gt_iff_lt, lt_self_iff_false, if_false]
  unfold resolveCurrentTG
  by_cases hold : oldId = ""
  · simp only [hold, ne_eq, not_true_eq_false, if_false, andThen, hcreate]
    exact ⟨_, rfl⟩
  · simp only [ne_eq, hold, not_false_eq_true, if_true]
    have hne : svc.DescribeTargetGroups w.st [targetGroupName a oldId] ≠ .ok [] := by
      rcases hcur with h | h
      · exact absurd h hold
      · exact h
    cases hd : svc.DescribeTargetGroups w.st [targetGroupName a oldId] with
    | error e => exact ⟨_, rfl⟩
    | ok tgs =>
      cases tgs with
      | nil => exact absurd hd hne
      | cons tg tgs =>
        simp only [andThen, hcreate]
        exact ⟨_, rfl⟩

/-- C4 fails as stated with two listeners: the name derived for the second
listener has 40 characters and the planner returns the name-length error, but
only after it has created the target group and the rule of the first listener. -/
theorem C4_counterexample :
    (targetGroupName longNameAttachment "v2").length = 40 ∧
      planSummary (planListenerChanges simpleAlb (clusterOf [webAttachment, longNameAttachment])
          "" "v2" bothListeners bothListeners bothListeners remoteWorld) =
        (.error (.nameTooLong 40), ["CreateTargetGroup", "CreateTags", "CreateRule"]) := by
  decide

/-- C4 as amended: the name sent for the desired target group is
`{NodeGroupName}-{NodePort}-{versionID}`, and when the planner, having
reconciled the listeners `pre`, reaches a listener whose single attachment
derives a name longer than 32 bytes, it returns an error and the state and
trace are those left by the listeners `pre`: no call has been issued for that
listener, and none at all when it is the first one reconciled. -/
theorem C4_name_too_long_rejected {σ : Type} (svc : Elbv2 σ) (cluster : Cluster)
    (oldId newId : String) (ordA ordV pre rest : List String) (arn : String)
    (w w' : World σ) (mpre : ListenerStatuses) (l : ListenerStatus) (a : ALBAttachment)
    (hpre : planListenerChanges svc cluster oldId newId ordA ordV pre w = (.ok mpre, w'))
    (hl : lookupStatus mpre arn = some l) (hatt : l.ALBAttachments = [a])
    (hnew : newId ≠ "") (hlen : 32 < (targetGroupName a newId).utf8ByteSize)
    (hcur : oldId = "" ∨ svc.DescribeTargetGroups w'.st [targetGroupName a oldId] ≠ .ok []) :
    (createTgInput cluster a newId).Name =
        some (a.NodeGroupName ++ "-" ++ toString a.NodePort ++ "-" ++ newId) ∧
      ∃ e, planListenerChanges svc cluster oldId newId ordA ordV (pre ++ arn :: rest) w =
        (.error e, w') := by
  refine ⟨rfl, ?_⟩
  unfold planListenerChanges at hpre ⊢
  by_cases hv : cluster.VPCID = ""
  · rw [if_pos hv] at hpre
    cases hpre
  · rw [if_neg hv] at hpre ⊢
    cases hd : svc.DescribeListeners w.st ordA with
    | error e => simp [hd] at hpre
    | ok ls =>
      simp only [hd] at hpre ⊢
      cases ha : attachListeners ls (groupAttachments cluster.ALBAttachments) with
      | error e => simp [ha] at hpre
      | panic q => simp [ha] at hpre
      | ok m1 =>
        simp only [ha] at hpre ⊢
        cases hval : validateAll ordV m1 with
        | error e => simp [hval] at hpre
        | panic q => simp [hval] at hpre
        | ok m2 =>
          simp only [hval] at hpre ⊢
          rw [reconcileAll_append svc cluster oldId newId pre (arn :: rest) m2 mpre w w' hpre]
          obtain ⟨e, he⟩ := reconcileListener_nameTooLong svc cluster oldId newId arn l a w'
            hatt hnew hlen hcur
          exact ⟨e, by simp only [reconcileAll, hl, he, andThen]⟩

theorem C4_name_too_long_rejected_witness :
    ∃ e, planListenerChanges simpleAlb (clusterOf [webAttachment, longNameAttachment]) "" "v2"
        bothListeners bothListeners ["arn:listener/2", "arn:listener/1"] remoteWorld =
      (.error e, remoteWorld) :=
  (C4_name_too_long_rejected simpleAlb (clusterOf [webAttachment, longNameAttachment]) "" "v2"
    bothListeners bothListeners [] ["arn:listener/1"] "arn:listener/2" remoteWorld remoteWorld
    _ _ longNameAttachment rfl rfl rfl (by decide) (by decide) (Or.inl rfl)).2

/-! ### The stages of the loop body -/

theorem resolveCurrentTG_ok {σ : Type} (svc : Elbv2 σ) (a : ALBAttachment) (oldId : String)
    (l l1 : ListenerStatus) (w w1 : World σ)
    (h : resolveCurrentTG svc a oldId l w = (.ok l1, w1)) :
    w1 = w ∧ l1.DesiredTG = l.DesiredTG ∧ l1.RulePriority = l.RulePriority ∧
      l1.Hosts = l.Hosts ∧ l1.PathPatterns = l.PathPatterns ∧
      l1.ALBAttachments = l.ALBAttachments ∧ l1.Listener = l.Listener := by
  unfold resolveCurrentTG at h
  by_cases hold : oldId = ""
  · simp only [hold, ne_eq, not_true_eq_false, if_false, Prod.mk.injEq, Outcome.ok.injEq] at h
    obtain ⟨h1, h2⟩ := h
    subst h1
    subst h2
    simp
  · simp only [ne_eq, hold, not_false_eq_true, if_true] at h
    cases hd : svc.DescribeTargetGroups w.st [targetGroupName a oldId] with
    | error e => simp [hd] at h
    | ok tgs =>
      cases tgs with
      | nil => simp [hd] at h
      | cons tg tgs =>
        simp only [hd, Prod.mk.injEq, Outcome.ok.injEq] at h
        obtain ⟨h1, h2⟩ := h
        subst h1
        subst h2
        simp

theorem createDesiredTG_ok {σ : Type} (svc : Elbv2 σ) (cluster : Cluster) (a : ALBAttachment)
    (newId : String) (l1 l2 : ListenerStatus) (w1 w2 : World σ)
    (h : createDesiredTG svc cluster a newId l1 w1 = (.ok l2, w2)) :
    ruleCalls w2.trace = ruleCalls w1.trace ∧ l2.CurrentTG = l1.CurrentTG ∧
      l2.RulePriority = l1.RulePriority ∧ l2.Hosts = l1.Hosts ∧
      l2.PathPatterns = l1.PathPatterns ∧ l2.ALBAttachments = l1.ALBAttachments ∧
      l2.Listener = l1.Listener := by
  unfold createDesiredTG at h
  by_cases hnew : newId = ""
  · simp only [hnew, ne_eq, not_true_eq_false, if_false, Prod.mk.injEq, Outcome.ok.injEq] at h
    obtain ⟨h1, h2⟩ := h
    subst h1
    subst h2
    simp
  · simp only [ne_eq, hnew, not_false_eq_true, if_true] at h
    by_cases hlen : (targetGroupName a newId).utf8ByteSize > 32
    · simp [hlen] at h
    · simp only [hlen, if_false] at h
      by_cases hport : a.NodePort = 0
      · simp [hport] at h
      · simp only [hport, not_false_eq_true, if_true] at h
        cases hc : (svc.CreateTargetGroup w1.st (createTgInput cluster a newId)).1 with
        | error e => simp [hc] at h
        | ok created =>
          cases created with
          | nil => simp [hc] at h
          | cons tg tgs =>
            simp only [hc, Prod.mk.injEq, Outcome.ok.injEq] at h
            obtain ⟨h1, h2⟩ := h
            subst h1
            subst h2
            simp [ruleCalls, List.filter_append]

theorem chooseRule_world {σ : Type} (svc : Elbv2 σ) (arn : String) (l : ListenerStatus)
    (w : World σ) : (chooseRule svc arn l w).2 = w := by
  unfold chooseRule
  cases svc.DescribeRules w.st arn <;> rfl

/-- C8: in the loop body of `planListenerChanges`, when the lookup of the
current group and the creation of the desired group have succeeded and the
search has found an existing rule, the body issues exactly one rule call, a
`ModifyRule` on the ARN of the rule found with a single forward action over the
desired group at weight 0 and the current group at weight 100, and no
`CreateRule`; and the first rule that `ModifyRule` returns is the rule stored
in the status. -/
theorem C8_modify_matched_rule {σ : Type} (svc : Elbv2 σ) (cluster : Cluster)
    (oldId newId arn : String) (l l1 l2 : ListenerStatus) (a : ALBAttachment)
    (w w1 w2 w3 : World σ) (before : Rule) (d c : TargetGroup)
    (hatt : l.ALBAttachments = [a])
    (hres : resolveCurrentTG svc a oldId l w = (.ok l1, w1))
    (hcre : createDesiredTG svc cluster a newId l1 w1 = (.ok l2, w2))
    (hch : chooseRule svc arn l2 w2 = (.ok (some before), w3))
    (hd : l2.DesiredTG = some d) (hc : l2.CurrentTG = some c) :
    ruleCalls (reconcileListener svc cluster oldId newId arn l w).2.trace =
        ruleCalls w.trace ++
          [Call.ModifyRule
            { Actions :=
                [{ ForwardConfig := some
                     { TargetGroups :=
                         [ { TargetGroupArn := d.TargetGroupArn, Weight := some 0 },
                           { TargetGroupArn := c.TargetGroupArn, Weight := some 100 } ] },
                   TargetGroupArn := none, Order := none, ActionType := some "forward" }],
              RuleArn := before.RuleArn }] ∧
      ∀ r rs, (svc.ModifyRule w2.st (modifyRuleInput before d c)).1 = .ok (r :: rs) →
        (reconcileListener svc cluster oldId newId arn l w).1 = .ok { l2 with Rule := some r } := by
  have hw1 := (resolveCurrentTG_ok svc a oldId l l1 w w1 hres).1
  have hrc := (createDesiredTG_ok svc cluster a newId l1 l2 w1 w2 hcre).1
  have hw3 : w3 = w2 := by
    have := chooseRule_world svc arn l2 w2
    rw [hch] at this
    exact this
  subst hw3
  subst hw1
  have hbody : reconcileListener svc cluster oldId newId arn l w1 =
      applyRule svc arn l2 (some before) w3 := by
    unfold reconcileListener
    simp only [hatt, List.length_singleton, gt_iff_lt, lt_self_iff_false, if_false, hres, hcre,
      hch, andThen]
  rw [hbody]
  unfold applyRule
  simp only [hd, hc]
  constructor
  · cases hm : (svc.ModifyRule w3.st (modifyRuleInput before d c)).1 with
    | error e => simp [ruleCalls, List.filter_append, modifyRuleInput] at hrc ⊢; exact hrc
    | ok rs =>
      cases rs with
      | nil => simp [ruleCalls, List.filter_append, modifyRuleInput] at hrc ⊢; exact hrc
      | cons r rs => simp [ruleCalls, List.filter_append, modifyRuleInput] at hrc ⊢; exact hrc
  · intro r rs hm
    simp only [hm]

theorem C8_modify_matched_rule_witness :
    ruleCalls (reconcileListener simpleAlb (clusterOf [webAttachment]) "v1" "v2" "arn:listener/1"
        plannedStatus remoteWorld).2.trace =
      ruleCalls remoteWorld.trace ++
        [Call.ModifyRule
          { Actions :=
              [{ ForwardConfig := some
                   { TargetGroups :=
                       [ { TargetGroupArn := some "arn:targetgroup/web-80-v2/2", Weight := some 0 },
                         { TargetGroupArn := some "arn:tg/web-80-v1", Weight := some 100 } ] },
                 TargetGroupArn := none, Order := none, ActionType := some "forward" }],
            RuleArn := some "arn:rule/1" }] :=
  (C8_modify_matched_rule simpleAlb (clusterOf [webAttachment]) "v1" "v2" "arn:listener/1"
    plannedStatus { plannedStatus with CurrentTG := some currentV1 }
    { plannedStatus with CurrentTG := some currentV1, DesiredTG := some createdV2 }
    webAttachment remoteWorld remoteWorld worldAfterCreate worldAfterCreate
    (ruleWith [forwardToCurrent]) createdV2 currentV1 rfl (by decide) (by decide) (by decide) rfl
    rfl).1

theorem validateListener_single (l0 l : ListenerStatus) (a : ALBAttachment)
    (hatt : l0.ALBAttachments = [a]) (hval : validateListener l0 = .ok l) :
    l = { l0 with RulePriority := a.Priority, Hosts := a.Hosts, PathPatterns := a.PathPatterns } := by
  unfold validateListener at hval
  simp only [hatt, checkAttachments, Outcome.ok.injEq] at hval
  rw [← hval, hatt]

/-- C9: in the loop body of `planListenerChanges`, for a validated status with
the attachment `a`, when the lookup of the current group and the creation of
the desired group have succeeded and the search has found no rule, the body
issues exactly one rule call, a `CreateRule` for the listener with a single
forward action whose only target group is the desired one at weight 100, with
the priority of the attachment, a host-header condition exactly when the hosts
are not empty and a path-pattern condition exactly when the path patterns are
not empty, and no `ModifyRule`; the first rule returned is stored in the status. -/
theorem C9_create_rule_for_desired {σ : Type} (svc : Elbv2 σ) (cluster : Cluster)
    (oldId newId arn : String) (l0 l l1 l2 : ListenerStatus) (a : ALBAttachment)
    (w w1 w2 w3 : World σ) (d : TargetGroup)
    (hatt : l0.ALBAttachments = [a]) (hval : validateListener l0 = .ok l)
    (hres : resolveCurrentTG svc a oldId l w = (.ok l1, w1))
    (hcre : createDesiredTG svc cluster a newId l1 w1 = (.ok l2, w2))
    (hch : chooseRule svc arn l2 w2 = (.ok none, w3))
    (hd : l2.DesiredTG = some d) :
    ruleCalls (reconcileListener svc cluster oldId newId arn l w).2.trace =
        ruleCalls w.trace ++
          [Call.CreateRule
            { Actions :=
                [{ ForwardConfig := some
                     { TargetGroups := [{ TargetGroupArn := d.TargetGroupArn, Weight := some 100 }] },
                   TargetGroupArn := d.TargetGroupArn, Order := none,
                   ActionType := some "forward" }],
              Priority := some a.Priority,
              Conditions :=
                (if a.Hosts ≠ [] then
                    [{ Field := some "host-header", HostHeaderValues := some a.Hosts,
                       PathPatternValues := none }]
                  else []) ++
                (if a.PathPatterns ≠ [] then
                    [{ Field := some "path-pattern", HostHeaderValues := none,
                       PathPatternValues := some a.PathPatterns }]
                  else []),
              ListenerArn := some arn }] ∧
      ∀ r rs, (svc.CreateRule w2.st (createRuleInput arn l2 d)).1 = .ok (r :: rs) →
        (reconcileListener svc cluster oldId newId arn l w).1 = .ok { l2 with Rule := some r } := by
  have hl := validateListener_single l0 l a hatt hval
  have hlatt : l.ALBAttachments = [a] := by rw [hl]; exact hatt
  obtain ⟨hw1, _, hp1, hh1, hpp1, _, _⟩ := resolveCurrentTG_ok svc a oldId l l1 w w1 hres
  obtain ⟨hrc, _, hp2, hh2, hpp2, _, _⟩ := createDesiredTG_ok svc cluster a newId l1 l2 w1 w2 hcre
  have hw3 : w3 = w2 := by
    have := chooseRule_world svc arn l2 w2
    rw [hch] at this
    exact this
  subst hw3
  subst hw1
  have hprio : l2.RulePriority = a.Priority := by rw [hp2, hp1, hl]
  have hhosts : l2.Hosts = a.Hosts := by rw [hh2, hh1, hl]
  have hpaths : l2.PathPatterns = a.PathPatterns := by rw [hpp2, hpp1, hl]
  have hinput : createRuleInput arn l2 d =
      { Actions :=
          [{ ForwardConfig := some
               { TargetGroups := [{ TargetGroupArn := d.TargetGroupArn, Weight := some 100 }] },
             TargetGroupArn := d.TargetGroupArn, Order := none,
             ActionType := some "forward" }],
        Priority := some a.Priority,
        Conditions :=
          (if a.Hosts ≠ [] then
              [{ Field := some "host-header", HostHeaderValues := some a.Hosts,
                 PathPatternValues := none }]
            else []) ++
          (if a.PathPatterns ≠ [] then
              [{ Field := some "path-pattern", HostHeaderValues := none,
                 PathPatternValues := some a.PathPatterns }]
            else []),
        ListenerArn := some arn } := by
    unfold createRuleInput ruleConditions
    rw [hprio, hhosts, hpaths]
    have e1 : (a.Hosts.length > 0) = (a.Hosts ≠ []) := by
      simp [List.length_pos]
    have e2 : (a.PathPatterns.length > 0) = (a.PathPatterns ≠ []) := by
      simp [List.length_pos]
    simp only [e1, e2]
  have hbody : reconcileListener svc cluster oldId newId arn l w1 =
      applyRule svc arn l2 none w3 := by
    unfold reconcileListener
    simp only [hlatt, List.length_singleton, gt_iff_lt, lt_self_iff_false, if_false, hres, hcre,
      hch, andThen]
  rw [hbody, ← hinput]
  unfold applyRule
  simp only [hd]
  constructor
  · cases hm : (svc.CreateRule w3.st (createRuleInput arn l2 d)).1 with
    | error e => simp [ruleCalls, List.filter_append] at hrc ⊢; exact hrc
    | ok rs =>
      cases rs with
      | nil => simp [ruleCalls, List.filter_append] at hrc ⊢; exact hrc
      | cons r rs => simp [ruleCalls, List.filter_append] at hrc ⊢; exact hrc
  · intro r rs hm
    simp only [hm]

theorem C9_create_rule_for_desired_witness :
    ruleCalls (reconcileListener simpleAlb (clusterOf [webAttachment]) "v1" "v2" "arn:listener/1"
        plannedStatus noMatchWorld).2.trace =
      ruleCalls noMatchWorld.trace ++
        [Call.CreateRule
          { Actions :=
              [{ ForwardConfig := some
                   { TargetGroups :=
                       [{ TargetGroupArn := createdV2.TargetGroupArn, Weight := some 100 }] },
                 TargetGroupArn := createdV2.TargetGroupArn, Order := none,
                 ActionType := some "forward" }],
            Priority := some webAttachment.Priority,
            Conditions :=
              (if webAttachment.Hosts ≠ [] then
                  [{ Field := some "host-header", HostHeaderValues := some webAttachment.Hosts,
                     PathPatternValues := none }]
                else []) ++
              (if webAttachment.PathPatterns ≠ [] then
                  [{ Field := some "path-pattern", HostHeaderValues := none,
                     PathPatternValues := some webAttachment.PathPatterns }]
                else []),
            ListenerArn := some "arn:listener/1" }] :=
  (C9_create_rule_for_desired simpleAlb (clusterOf [webAttachment]) "v1" "v2" "arn:listener/1"
    groupedStatus plannedStatus { plannedStatus with CurrentTG := some currentV1 }
    { plannedStatus with CurrentTG := some currentV1, DesiredTG := some createdV2 }
    webAttachment noMatchWorld noMatchWorld noMatchAfterCreate noMatchAfterCreate createdV2
    rfl (by decide) (by decide) (by decide) (by decide) rfl).1

/-! ### The search of the rule to evolve -/

theorem tupleLoop_spec (current : TargetGroup) (carn : String)
    (harn : current.TargetGroupArn = some carn) (tgs : List TargetGroupTuple)
    (hnn : ∀ tg ∈ tgs, tg.TargetGroupArn ≠ none) :
    tupleLoop current tgs = .ok (tgs.any (fun tg => tg.TargetGroupArn = some carn)) := by
  induction tgs with
  | nil => rfl
  | cons tg rest ih =>
    obtain ⟨x, hx⟩ := Option.ne_none_iff_exists'.mp (hnn tg (List.mem_cons_self _ _))
    have ih2 := ih (fun t ht => hnn t (List.mem_cons_of_mem _ ht))
    by_cases hxc : x = carn
    · subst hxc
      simp [tupleLoop, hx, harn]
    · simp [tupleLoop, hx, harn, hxc, ih2]

theorem rulesLoop_spec (current : TargetGroup) (carn : String)
    (harn : current.TargetGroupArn = some carn) (rules : List Rule)
    (hnn : ∀ r ∈ rules, ∀ tg ∈ inspectedTargetGroups r, tg.TargetGroupArn ≠ none) :
    rulesLoop current rules = .ok (rules.find? (matchesCurrent carn)) := by
  induction rules with
  | nil => rfl
  | cons r rest ih =>
    have h1 := tupleLoop_spec current carn harn (inspectedTargetGroups r)
      (hnn r (List.mem_cons_self _ _))
    have ih2 := ih (fun r2 h2 => hnn r2 (List.mem_cons_of_mem _ h2))
    by_cases hm : matchesCurrent carn r = true
    · have hm2 : (inspectedTargetGroups r).any (fun tg => tg.TargetGroupArn = some carn) = true := hm
      simp only [rulesLoop, h1, hm2, List.find?_cons, hm]
    · have hm3 : matchesCurrent carn r = false := by simpa using hm
      have hm2 : (inspectedTargetGroups r).any (fun tg => tg.TargetGroupArn = some carn) = false := hm3
      simp only [rulesLoop, h1, hm2, List.find?_cons, hm3, ih2]

theorem findTargetRule_spec (l : ListenerStatus) (d c : TargetGroup) (carn : String)
    (hd : l.DesiredTG = some d) (hc : l.CurrentTG = some c) (harn : c.TargetGroupArn = some carn)
    (rules : List Rule)
    (hnn : ∀ r ∈ rules, ∀ tg ∈ inspectedTargetGroups r, tg.TargetGroupArn ≠ none) :
    findTargetRule l rules = .ok (rules.find? (matchesCurrent carn)) := by
  unfold findTargetRule
  cases rules with
  | nil => simp [hd]
  | cons r rest =>
    simp only [List.length_cons, Nat.add_one_ne_zero, if_false, hd, hc]
    exact rulesLoop_spec c carn harn (r :: rest) hnn

theorem matchesCurrent_firstAction (carn : String) (r : Rule) (h : matchesCurrent carn r = true) :
    0 < r.Actions.length ∧
      ∃ act fc tg, r.Actions.head? = some act ∧ act.ForwardConfig = some fc ∧
        tg ∈ fc.TargetGroups ∧ tg.TargetGroupArn = some carn := by
  unfold matchesCurrent inspectedTargetGroups at h
  cases hact : r.Actions with
  | nil => simp [hact] at h
  | cons act rest =>
    cases hfc : act.ForwardConfig with
    | none => simp [hact, hfc] at h
    | some fc =>
      simp only [hact, hfc, List.any_eq_true, decide_eq_true_eq] at h
      obtain ⟨tg, htg, harn⟩ := h
      exact ⟨by simp, act, fc, tg, rfl, hfc, htg, harn⟩

/-- C10 fails as stated: a rule with two actions whose first action forwards
to the current target group is the rule chosen, although it does not have
exactly one action and the listener has no rule whose sole action references
the current group. -/
theorem C10_counterexample :
    findTargetRule searchingStatus [ruleWith [forwardToCurrent, otherAction]] =
        .ok (some (ruleWith [forwardToCurrent, otherAction])) ∧
      (ruleWith [forwardToCurrent, otherAction]).Actions.length = 2 ∧
      soleActionReferences "arn:tg/web-80-v1" (ruleWith [forwardToCurrent, otherAction]) = false := by
  decide

/-- C10 as amended: with a desired and a current target group (whose ARNs are
set, as are those of the rules' target groups), the rule chosen is the first
rule of the listener whose first action has a forward configuration listing the
current group's ARN; every rule chosen has at least one action and its first
action forwards to the current ARN; a rule is chosen if some rule passes that
test; and if none does, none is chosen, no error is returned, and the next
block creates a new rule. -/
theorem C10_rule_chosen_by_first_action (l : ListenerStatus) (d c : TargetGroup)
    (carn : String) (rules : List Rule)
    (hd : l.DesiredTG = some d) (hc : l.CurrentTG = some c) (harn : c.TargetGroupArn = some carn)
    (hnn : ∀ r ∈ rules, ∀ tg ∈ inspectedTargetGroups r, tg.TargetGroupArn ≠ none) :
    findTargetRule l rules = .ok (rules.find? (matchesCurrent carn)) ∧
      (∀ r, findTargetRule l rules = .ok (some r) →
        r ∈ rules ∧ 0 < r.Actions.length ∧
          ∃ act fc tg, r.Actions.head? = some act ∧ act.ForwardConfig = some fc ∧
            tg ∈ fc.TargetGroups ∧ tg.TargetGroupArn = some carn) ∧
      ((∃ r ∈ rules, matchesCurrent carn r = true) →
        ∃ r, findTargetRule l rules = .ok (some r)) ∧
      ((∀ r ∈ rules, matchesCurrent carn r = false) →
        findTargetRule l rules = .ok none ∧
          ∀ (σ : Type) (svc : Elbv2 σ) (arn : String) (w : World σ),
            (applyRule svc arn l none w).2.trace =
              w.trace ++ [Call.CreateRule (createRuleInput arn l d)]) := by
  have hspec := findTargetRule_spec l d c carn hd hc harn rules hnn
  refine ⟨hspec, ?_, ?_, ?_⟩
  · intro r hr
    rw [hspec] at hr
    simp only [Outcome.ok.injEq] at hr
    have hmem := List.mem_of_find?_eq_some hr
    have hm := List.find?_some hr
    exact ⟨hmem, matchesCurrent_firstAction carn r hm⟩
  · rintro ⟨r, hr, hm⟩
    rw [hspec]
    cases hf : rules.find? (matchesCurrent carn) with
    | some r2 => exact ⟨r2, rfl⟩
    | none =>
      have := List.find?_eq_none.mp hf r hr
      exact absurd hm this
  · intro hnone
    constructor
    · rw [hspec]
      have : rules.find? (matchesCurrent carn) = none := by
        apply List.find?_eq_none.mpr
        intro r hr
        simp [hnone r hr]
      rw [this]
    · intro σ svc arn w
      unfold applyRule
      simp only [hd]
      cases (svc.CreateRule w.st (createRuleInput arn l d)).1 with
      | error e => rfl
      | ok rs =>
        cases rs with
        | nil => rfl
        | cons r rs => rfl

theorem C10_rule_chosen_by_first_action_witness :
    findTargetRule searchingStatus
        [ruleWith [otherAction, forwardToCurrent], ruleWith [forwardToCurrent]] =
      .ok ([ruleWith [otherAction, forwardToCurrent], ruleWith [forwardToCurrent]].find?
        (matchesCurrent "arn:tg/web-80-v1")) :=
  (C10_rule_chosen_by_first_action searchingStatus desiredV2 currentV1 "arn:tg/web-80-v1"
    [ruleWith [otherAction, forwardToCurrent], ruleWith [forwardToCurrent]] rfl rfl rfl
    (by decide)).1

/-! ### The control-plane model -/

theorem describeTargetGroups_single (s : AlbState) (n : String) :
    describeTargetGroups s [n] =
      match tgFirst s n with
      | none => .error "TargetGroupNotFound"
      | some tg =>
        .ok (tg :: (s.targetGroups.dropWhile (fun x => !decide (x.TargetGroupName = some n))).tail.filter
          (fun x => decide (x.TargetGroupName = some n))) := by
  have hpred : (fun tg : TargetGroup =>
      match tg.TargetGroupName with
      | some x => decide (x ∈ [n])
      | none => false) = fun tg => decide (tg.TargetGroupName = some n) := by
    funext tg
    cases h : tg.TargetGroupName with
    | none => simp
    | some x => simp
  unfold describeTargetGroups tgFirst
  rw [hpred]
  simp only [List.all_cons, List.all_nil, Bool.and_true]
  induction s.targetGroups with
  | nil => simp
  | cons tg rest ih =>
    by_cases hn : tg.TargetGroupName = some n
    · simp [hn, List.filter_cons, List.dropWhile_cons]
    · simp only [List.any_cons, hn, decide_False, Bool.false_or, List.filter_cons,
        Bool.false_eq_true, if_false, List.find?_cons, List.dropWhile_cons, Bool.not_false,
        if_true]
      exact ih

theorem describeTargetGroups_ok (s : AlbState) (n : String) (tg : TargetGroup) (rest : List TargetGroup)
    (h : describeTargetGroups s [n] = .ok (tg :: rest)) : tgFirst s n = some tg := by
  rw [describeTargetGroups_single] at h
  cases hf : tgFirst s n with
  | none => simp [hf] at h
  | some x =>
    simp only [hf, Except.ok.injEq, List.cons.injEq] at h
    rw [h.1]

theorem describeTargetGroups_ne_nil (s : AlbState) (n : String) :
    describeTargetGroups s [n] ≠ .ok [] := by
  rw [describeTargetGroups_single]
  cases tgFirst s n <;> simp

theorem describeTargetGroups_of_first (s : AlbState) (n : String) (tg : TargetGroup)
    (h : tgFirst s n = some tg) : ∃ rest, describeTargetGroups s [n] = .ok (tg :: rest) := by
  rw [describeTargetGroups_single, h]
  exact ⟨_, rfl⟩

theorem tgFirst_append (s : AlbState) (extra : List TargetGroup) (n : String) (tg : TargetGroup)
    (h : tgFirst s n = some tg) :
    tgFirst { s with targetGroups := s.targetGroups ++ extra } n = some tg := by
  unfold tgFirst at h ⊢
  simp [List.find?_append, h]

theorem tgFirst_mem (s : AlbState) (n : String) (tg : TargetGroup) (h : tgFirst s n = some tg) :
    tg ∈ s.targetGroups :=
  List.mem_of_find?_eq_some h

theorem createTargetGroup_spec (s : AlbState) (cluster : Cluster) (a : ALBAttachment)
    (newId : String) :
    ∃ d s', createTargetGroup s (createTgInput cluster a newId) = (.ok [d], s') ∧
      tgFirst s' (targetGroupName a newId) = some d ∧ s'.rules = s.rules ∧
      s'.listeners = s.listeners ∧
      (∀ n x, tgFirst s n = some x → tgFirst s' n = some x) ∧
      (TargetGroupsHaveArns s → TargetGroupsHaveArns s') ∧
      (∀ d0, tgFirst s (targetGroupName a newId) = some d0 → s' = s ∧ d = d0) := by
  cases hf : tgFirst s (targetGroupName a newId) with
  | some d0 =>
    refine ⟨d0, s, ?_, hf, rfl, rfl, fun _ _ h => h, fun h => h, ?_⟩
    · unfold tgFirst at hf
      simp only [createTargetGroup, createTgInput, hf]
    · intro d1 h1
      cases h1
      exact ⟨rfl, rfl⟩
  | none =>
    refine ⟨{ TargetGroupArn := some ("arn:targetgroup/" ++ targetGroupName a newId ++ "/" ++
                toString s.nextId),
              TargetGroupName := some (targetGroupName a newId), Port := some a.NodePort,
              Protocol := some (toUpper a.Protocol), TargetType := some "instance",
              VpcId := some cluster.VPCID },
      { s with targetGroups := s.targetGroups ++
                 [{ TargetGroupArn := some ("arn:targetgroup/" ++ targetGroupName a newId ++ "/" ++
                      toString s.nextId),
                    TargetGroupName := some (targetGroupName a newId), Port := some a.NodePort,
                    Protocol := some (toUpper a.Protocol), TargetType := some "instance",
                    VpcId := some cluster.VPCID }],
               nextId := s.nextId + 1 }, ?_, ?_, ?_, ?_, ?_, ?_, ?_⟩
    · unfold tgFirst at hf
      simp only [createTargetGroup, createTgInput, hf]
    · unfold tgFirst at hf ⊢
      simp [List.find?_append, hf, createTgInput]
    · rfl
    · rfl
    · intro n x h
      exact tgFirst_append s _ n x h
    · intro h tg htg
      simp only [List.mem_append, List.mem_singleton] at htg
      rcases htg with htg | htg
      · exact h tg htg
      · subst htg
        simp
    · intro d0 h0
      cases h0

theorem mem_rulesOf (s : AlbState) (k : String) (r : Rule) :
    r ∈ rulesOf s k ↔ (k, r) ∈ s.rules := by
  unfold rulesOf
  simp only [List.mem_map, List.mem_filter, decide_eq_true_eq]
  constructor
  · rintro ⟨lr, ⟨hmem, hk⟩, hr⟩
    obtain ⟨k1, r1⟩ := lr
    simp only at hk hr
    subst hk
    subst hr
    exact hmem
  · intro h
    exact ⟨(k, r), ⟨h, rfl⟩, rfl⟩

theorem rulesOf_setActions (s : AlbState) (ra : String) (actions : List Action) (k : String) :
    rulesOf { s with rules := s.rules.map (setActions ra actions) } k =
      (rulesOf s k).map (withActions ra actions) := by
  unfold rulesOf
  simp only
  induction s.rules with
  | nil => rfl
  | cons lr rest ih =>
    obtain ⟨k1, r1⟩ := lr
    by_cases hk : k1 = k
    · by_cases hr : r1.RuleArn = some ra
      · simp [setActions, withActions, hk, hr, List.filter_cons] at ih ⊢
        exact ih
      · simp [setActions, withActions, hk, hr, List.filter_cons] at ih ⊢
        exact ih
    · by_cases hr : r1.RuleArn = some ra
      · simp [setActions, withActions, hk, hr, List.filter_cons] at ih ⊢
        exact ih
      · simp [setActions, withActions, hk, hr, List.filter_cons] at ih ⊢
        exact ih

theorem tupleLoop_true_arn (c : TargetGroup) (tgs : List TargetGroupTuple)
    (h : tupleLoop c tgs = .ok true) : c.TargetGroupArn ≠ none := by
  induction tgs with
  | nil => simp [tupleLoop] at h
  | cons tg rest ih =>
    unfold tupleLoop at h
    cases ht : tg.TargetGroupArn with
    | none => simp [ht] at h
    | some x =>
      cases hc : c.TargetGroupArn with
      | none => simp [ht, hc] at h
      | some y => simp

theorem tupleLoop_evolved (c d : TargetGroup) (hc : c.TargetGroupArn ≠ none)
    (hd : d.TargetGroupArn ≠ none) (r : Rule) :
    tupleLoop c (inspectedTargetGroups { r with Actions := evolvedActions d c }) = .ok true := by
  obtain ⟨x, hx⟩ := Option.ne_none_iff_exists'.mp hd
  obtain ⟨y, hy⟩ := Option.ne_none_iff_exists'.mp hc
  by_cases hxy : x = y
  · simp [inspectedTargetGroups, evolvedActions, tupleLoop, hx, hy, hxy]
  · simp [inspectedTargetGroups, evolvedActions, tupleLoop, hx, hy, hxy]

theorem rulesLoop_found (c : TargetGroup) (rs : List Rule) (R : Rule)
    (h : rulesLoop c rs = .ok (some R)) :
    R ∈ rs ∧ tupleLoop c (inspectedTargetGroups R) = .ok true := by
  induction rs with
  | nil => simp [rulesLoop] at h
  | cons r rest ih =>
    unfold rulesLoop at h
    cases ht : tupleLoop c (inspectedTargetGroups r) with
    | ok b =>
      cases b with
      | true =>
        simp only [ht, Outcome.ok.injEq, Option.some.injEq] at h
        subst h
        exact ⟨List.mem_cons_self _ _, ht⟩
      | false =>
        simp only [ht] at h
        obtain ⟨h1, h2⟩ := ih h
        exact ⟨List.mem_cons_of_mem _ h1, h2⟩
    | error e => simp [ht] at h
    | panic q => simp [ht] at h

/-- After its actions have been replaced by actions that still match, the rule
found by the search is found again. -/
theorem rulesLoop_withActions (c : TargetGroup) (ra : String) (actions : List Action)
    (R : Rule) (harn : R.RuleArn = some ra)
    (hmatch : tupleLoop c (inspectedTargetGroups { R with Actions := actions }) = .ok true)
    (rs : List Rule) (huniq : ∀ r ∈ rs, r.RuleArn = some ra → r = R)
    (h : rulesLoop c rs = .ok (some R)) :
    rulesLoop c (rs.map (withActions ra actions)) = .ok (some { R with Actions := actions }) := by
  induction rs with
  | nil => simp [rulesLoop] at h
  | cons r rest ih =>
    have h0 := h
    unfold rulesLoop at h
    cases ht : tupleLoop c (inspectedTargetGroups r) with
    | ok b =>
      cases b with
      | true =>
        simp only [ht, Outcome.ok.injEq, Option.some.injEq] at h
        subst h
        have hw : withActions ra actions r = { r with Actions := actions } := by
          unfold withActions
          rw [if_pos harn]
        rw [List.map_cons, hw]
        simp only [rulesLoop, hmatch]
      | false =>
        simp only [ht] at h
        have hne : r.RuleArn ≠ some ra := by
          intro hr
          have := huniq r (List.mem_cons_self _ _) hr
          subst this
          have := (rulesLoop_found c rest r h).2
          rw [ht] at this
          cases this
        have ih2 := ih (fun r2 h2 => huniq r2 (List.mem_cons_of_mem _ h2)) h
        simp only [List.map_cons, withActions, hne, if_false, rulesLoop, ht]
        exact ih2
    | error e => simp [ht] at h
    | panic q => simp [ht] at h

/-! ### One round of the loop on the model -/

theorem resolveCurrentTG_model (a : ALBAttachment) (oldId : String) (l l1 : ListenerStatus)
    (s : AlbState) (t : List Call) (w1 : World AlbState)
    (h : resolveCurrentTG simpleAlb a oldId l { st := s, trace := t } = (.ok l1, w1)) :
    w1 = { st := s, trace := t } ∧
      ((oldId ≠ "" ∧ ∃ c, tgFirst s (targetGroupName a oldId) = some c ∧
          l1 = { l with CurrentTG := some c }) ∨
        (oldId = "" ∧ l1 = l)) := by
  unfold resolveCurrentTG at h
  by_cases hold : oldId = ""
  · simp only [hold, ne_eq, not_true_eq_false, if_false, Prod.mk.injEq, Outcome.ok.injEq] at h
    exact ⟨h.2.symm, Or.inr ⟨hold, h.1.symm⟩⟩
  · simp only [ne_eq, hold, not_false_eq_true, if_true] at h
    have hsvc : simpleAlb.DescribeTargetGroups s [targetGroupName a oldId] =
        describeTargetGroups s [targetGroupName a oldId] := rfl
    simp only [hsvc] at h
    cases hd : describeTargetGroups s [targetGroupName a oldId] with
    | error e => simp [hd] at h
    | ok tgs =>
      cases tgs with
      | nil => simp [hd] at h
      | cons tg rest =>
        simp only [hd, Prod.mk.injEq, Outcome.ok.injEq] at h
        exact ⟨h.2.symm, Or.inl ⟨hold, tg, describeTargetGroups_ok s _ tg rest hd, h.1.symm⟩⟩

theorem createDesiredTG_model (cluster : Cluster) (a : ALBAttachment) (newId : String)
    (hnew : newId ≠ "") (l1 l2 : ListenerStatus) (s : AlbState) (t : List Call)
    (w2 : World AlbState)
    (h : createDesiredTG simpleAlb cluster a newId l1 { st := s, trace := t } = (.ok l2, w2)) :
    ¬ (targetGroupName a newId).utf8ByteSize > 32 ∧ a.NodePort ≠ 0 ∧
      ∃ d s2, createTargetGroup s (createTgInput cluster a newId) = (.ok [d], s2) ∧
        l2 = { l1 with DesiredTG := some d } ∧
        w2 = { st := s2,
               trace := t ++ [Call.CreateTargetGroup (createTgInput cluster a newId)] ++
                 [Call.CreateTags (createTagsInput cluster a)] } := by
  unfold createDesiredTG at h
  simp only [ne_eq, hnew, not_false_eq_true, if_true] at h
  by_cases hlen : (targetGroupName a newId).utf8ByteSize > 32
  · simp [hlen] at h
  · simp only [hlen, if_false] at h
    by_cases hport : a.NodePort = 0
    · simp [hport] at h
    · simp only [hport, not_false_eq_true, if_true] at h
      obtain ⟨d, s2, hc, _⟩ := createTargetGroup_spec s cluster a newId
      have hsvc : simpleAlb.CreateTargetGroup s (createTgInput cluster a newId) =
          (.ok [d], s2) := hc
      simp only [hsvc, Prod.mk.injEq, Outcome.ok.injEq] at h
      refine ⟨hlen, hport, d, s2, hc, h.1.symm, ?_⟩
      rw [← h.2]
      rfl

theorem createDesiredTG_model_run (cluster : Cluster) (a : ALBAttachment) (newId : String)
    (hnew : newId ≠ "") (hlen : ¬ (targetGroupName a newId).utf8ByteSize > 32)
    (hport : a.NodePort ≠ 0) (l1 : ListenerStatus) (s s2 : AlbState) (d : TargetGroup)
    (t : List Call)
    (hc : createTargetGroup s (createTgInput cluster a newId) = (.ok [d], s2)) :
    createDesiredTG simpleAlb cluster a newId l1 { st := s, trace := t } =
      (.ok { l1 with DesiredTG := some d },
        { st := s2,
          trace := t ++ [Call.CreateTargetGroup (createTgInput cluster a newId)] ++
            [Call.CreateTags (createTagsInput cluster a)] }) := by
  unfold createDesiredTG
  simp only [ne_eq, hnew, not_false_eq_true, if_true, hlen, if_false, hport]
  have hsvc : simpleAlb.CreateTargetGroup s (createTgInput cluster a newId) =
      (.ok [d], s2) := hc
  simp only [hsvc]
  rfl

theorem chooseRule_model (k : String) (l : ListenerStatus) (w : World AlbState) :
    chooseRule simpleAlb k l w = (findTargetRule l (rulesOf w.st k), w) := rfl

theorem find_rule_of_distinct (s : AlbState) (hU : DistinctRuleArns s) (k : String) (R : Rule)
    (ra : String) (hmem : (k, R) ∈ s.rules) (harn : R.RuleArn = some ra) :
    s.rules.find? (fun lr => lr.2.RuleArn = some ra) = some (k, R) := by
  cases hf : s.rules.find? (fun lr => lr.2.RuleArn = some ra) with
  | none =>
    have := List.find?_eq_none.mp hf (k, R) hmem
    simp [harn] at this
  | some lr =>
    have h1 := List.mem_of_find?_eq_some hf
    have h2 := List.find?_some hf
    simp only [decide_eq_true_eq] at h2
    have := hU lr h1 (k, R) hmem (by rw [h2, harn]) (by rw [h2]; simp)
    rw [this]

theorem modifyRule_model (s : AlbState) (hU : DistinctRuleArns s) (k : String) (R : Rule)
    (ra : String) (hmem : (k, R) ∈ s.rules) (harn : R.RuleArn = some ra) (d c : TargetGroup) :
    modifyRule s (modifyRuleInput R d c) =
      (.ok [{ R with Actions := evolvedActions d c }],
        { s with rules := s.rules.map (setActions ra (evolvedActions d c)) }) := by
  have hf := find_rule_of_distinct s hU k R ra hmem harn
  simp only [modifyRule, modifyRuleInput, harn, hf]
  rfl

theorem distinctRuleArns_setActions (s : AlbState) (ra : String) (actions : List Action)
    (hU : DistinctRuleArns s) :
    DistinctRuleArns { s with rules := s.rules.map (setActions ra actions) } := by
  intro lr1 h1 lr2 h2 heq hne
  simp only [List.mem_map] at h1 h2
  obtain ⟨x1, hx1, rfl⟩ := h1
  obtain ⟨x2, hx2, rfl⟩ := h2
  have harn : ∀ x : String × Rule, (setActions ra actions x).2.RuleArn = x.2.RuleArn := by
    intro x
    unfold setActions
    split <;> rfl
  rw [harn, harn] at heq
  rw [harn] at hne
  rw [hU x1 hx1 x2 hx2 heq hne]

theorem setActions_mem (s : AlbState) (ra : String) (actions : List Action) (k : String)
    (R : Rule) (hmem : (k, R) ∈ s.rules) (harn : R.RuleArn = some ra) :
    (k, { R with Actions := actions }) ∈ s.rules.map (setActions ra actions) := by
  apply List.mem_map.mpr
  refine ⟨(k, R), hmem, ?_⟩
  unfold setActions
  rw [if_pos harn]

/-- One round along the modify path: when the round for listener `k` ends
normally without a `CreateRule` in the trace, the status it returns is settled
in the state it leaves. -/
theorem reconcileListener_settles (cluster : Cluster) (oldId newId k : String)
    (hnew : newId ≠ "") (l l' : ListenerStatus) (s s' : AlbState) (t t' : List Call)
    (hU : DistinctRuleArns s) (hT : TargetGroupsHaveArns s)
    (hrun : reconcileListener simpleAlb cluster oldId newId k l { st := s, trace := t } =
      (.ok l', { st := s', trace := t' }))
    (hnc : ∀ c ∈ t', isCreateRule c = false) :
    Settled s' oldId newId k l l' ∧ Effect s s' k ∧ DistinctRuleArns s' ∧
      TargetGroupsHaveArns s' ∧ ∃ δ, t' = t ++ δ := by
  unfold reconcileListener at hrun
  by_cases hlen1 : l.ALBAttachments.length > 1
  · simp [hlen1] at hrun
  · simp only [hlen1, if_false] at hrun
    cases hatt : l.ALBAttachments with
    | nil => simp [hatt] at hrun
    | cons a rest =>
      have hrest : rest = [] := by
        rw [hatt] at hlen1
        simp only [List.length_cons, gt_iff_lt, Nat.lt_add_left_iff_pos, not_lt,
          Nat.le_zero_eq, List.length_eq_zero] at hlen1
        exact hlen1
      subst hrest
      simp only [hatt] at hrun
      rcases h1 : resolveCurrentTG simpleAlb a oldId l { st := s, trace := t } with ⟨o1, w1⟩
      cases o1 with
      | error e => simp [h1, andThen] at hrun
      | panic q => simp [h1, andThen] at hrun
      | ok l1 =>
        obtain ⟨hw1, hcur⟩ := resolveCurrentTG_model a oldId l l1 s t w1 h1
        subst hw1
        simp only [h1, andThen] at hrun
        rcases h2 : createDesiredTG simpleAlb cluster a newId l1 { st := s, trace := t } with ⟨o2, w2⟩
        cases o2 with
        | error e => simp [h2] at hrun
        | panic q => simp [h2] at hrun
        | ok l2 =>
          obtain ⟨hlen, hport, d, s2, hc, hl2, hw2⟩ :=
            createDesiredTG_model cluster a newId hnew l1 l2 s t w2 h2
          subst hw2
          obtain ⟨d', s2', hc', hdes, hrules2, hlis2, hmono, hT2, _⟩ :=
            createTargetGroup_spec s cluster a newId
          rw [hc] at hc'
          simp only [Prod.mk.injEq, Except.ok.injEq, List.cons.injEq, and_true] at hc'
          obtain ⟨hdd, hss⟩ := hc'
          subst hdd
          subst hss
          simp only [h2, chooseRule_model] at hrun
          have hd2 : l2.DesiredTG = some d := by rw [hl2]
          have hU2 : DistinctRuleArns s2 := by
            intro x1 h1 x2 h2
            rw [hrules2] at h1 h2
            exact hU x1 h1 x2 h2
          cases hfind : findTargetRule l2 (rulesOf s2 k) with
          | error e => simp [hfind] at hrun
          | panic q => simp [hfind] at hrun
          | ok before =>
            simp only [hfind] at hrun
            cases before with
            | none =>
              exfalso
              unfold applyRule at hrun
              simp only [hd2] at hrun
              cases hcr : (simpleAlb.CreateRule s2 (createRuleInput k l2 d)).1 with
              | error e => simp [hcr] at hrun
              | ok rs =>
                cases rs with
                | nil => simp [hcr] at hrun
                | cons r rs =>
                  simp only [hcr, Prod.mk.injEq, Outcome.ok.injEq, World.mk.injEq] at hrun
                  have := hnc (Call.CreateRule (createRuleInput k l2 d))
                    (by rw [← hrun.2.2]; simp)
                  simp [isCreateRule] at this
            | some R =>
              have hcurr : ∃ c, l2.CurrentTG = some c ∧ rulesLoop c (rulesOf s2 k) = .ok (some R) := by
                unfold findTargetRule at hfind
                by_cases h0 : (rulesOf s2 k).length = 0
                · simp [h0, hd2] at hfind
                · simp only [h0, if_false, hd2] at hfind
                  cases hc2 : l2.CurrentTG with
                  | none => simp [hc2] at hfind
                  | some c =>
                    simp only [hc2] at hfind
                    exact ⟨c, rfl, hfind⟩
              obtain ⟨c, hc2, hloop⟩ := hcurr
              obtain ⟨hRmem, hmatch⟩ := rulesLoop_found c (rulesOf s2 k) R hloop
              have hRmem2 : (k, R) ∈ s2.rules := (mem_rulesOf s2 k R).mp hRmem
              unfold applyRule at hrun
              simp only [hd2, hc2] at hrun
              cases harn : R.RuleArn with
              | none =>
                have : (simpleAlb.ModifyRule s2 (modifyRuleInput R d c)).1 =
                    .error "ValidationError" := by
                  show (modifyRule s2 (modifyRuleInput R d c)).1 = _
                  simp [modifyRule, modifyRuleInput, harn]
                simp [this] at hrun
              | some ra =>
                have hmod := modifyRule_model s2 hU2 k R ra hRmem2 harn d c
                have hmod2 : simpleAlb.ModifyRule s2 (modifyRuleInput R d c) =
                    (.ok [{ R with Actions := evolvedActions d c }],
                      { s2 with rules := s2.rules.map (setActions ra (evolvedActions d c)) }) :=
                  hmod
                simp only [hmod2, Prod.mk.injEq, Outcome.ok.injEq, World.mk.injEq] at hrun
                obtain ⟨hl', hs', ht'⟩ := hrun
                have hcne : c.TargetGroupArn ≠ none := tupleLoop_true_arn c _ hmatch
                have hdne : d.TargetGroupArn ≠ none := hT2 hT d (tgFirst_mem s2 _ d hdes)
                have hl2c : l2.CurrentTG = l1.CurrentTG := by rw [hl2]
                refine ⟨⟨a, c, d, { R with Actions := evolvedActions d c }, ra, hatt, ?_, ?_,
                  ?_, ?_, ?_, harn, rfl, hlen, hport⟩, ⟨?_, ?_, ?_⟩, ?_, ?_, ?_⟩
                · rw [← hl', hl2]
                  rcases hcur with ⟨_, c0, _, hl1⟩ | ⟨_, hl1⟩
                  · rw [hl1]
                  · rw [hl1]
                · rcases hcur with ⟨hold, c0, hc0, hl1⟩ | ⟨hold, hl1⟩
                  · left
                    refine ⟨hold, ?_⟩
                    rw [hl2, hl1] at hc2
                    simp only [Option.some.injEq] at hc2
                    subst hc2
                    rw [← hs']
                    exact hmono _ _ hc0
                  · right
                    refine ⟨hold, ?_⟩
                    rw [hl2, hl1] at hc2
                    exact hc2
                · rw [← hs']
                  exact hdes
                · rw [← hs']
                  exact setActions_mem s2 ra _ k R hRmem2 harn
                · rw [← hs', rulesOf_setActions]
                  apply rulesLoop_withActions c ra _ R harn
                    (tupleLoop_evolved c d hcne hdne R) _ _ hloop
                  intro r hr hra
                  have hrm : (k, r) ∈ s2.rules := (mem_rulesOf s2 k r).mp hr
                  have := hU2 (k, r) hrm (k, R) hRmem2 (by simp [hra, harn]) (by simp [hra])
                  exact (Prod.mk.injEq _ _ _ _ ▸ this).2
                · intro n x hx
                  rw [← hs']
                  exact hmono n x hx
                · refine ⟨R, ra, evolvedActions d c, ?_, harn, ?_⟩
                  · rw [← hrules2]
                    exact hRmem2
                  · rw [← hs', ← hrules2]
                · rw [← hs']
                  exact hlis2
                · rw [← hs']
                  exact distinctRuleArns_setActions s2 ra _ hU2
                · rw [← hs']
                  exact hT2 hT
                · exact ⟨[Call.CreateTargetGroup (createTgInput cluster a newId),
                    Call.CreateTags (createTagsInput cluster a),
                    Call.ModifyRule (modifyRuleInput R d c)], by rw [← ht']; simp⟩

theorem rulesOf_of_rules_eq (s s' : AlbState) (ra : String) (actions : List Action)
    (h : s'.rules = s.rules.map (setActions ra actions)) (k : String) :
    rulesOf s' k = (rulesOf s k).map (withActions ra actions) := by
  have := rulesOf_setActions s ra actions k
  unfold rulesOf at this ⊢
  rw [h]
  exact this

theorem setActions_id_of_distinct (s : AlbState) (hU : DistinctRuleArns s) (k : String)
    (R : Rule) (ra : String) (hmem : (k, R) ∈ s.rules) (harn : R.RuleArn = some ra) :
    s.rules.map (setActions ra R.Actions) = s.rules := by
  have : ∀ lr ∈ s.rules, setActions ra R.Actions lr = lr := by
    intro lr hlr
    unfold setActions
    by_cases h : lr.2.RuleArn = some ra
    · have := hU lr hlr (k, R) hmem (by rw [h, harn]) (by rw [h]; simp)
      subst this
      rw [if_pos h]
    · rw [if_neg h]
  calc s.rules.map (setActions ra R.Actions) = s.rules.map id :=
        List.map_congr_left (fun lr hlr => this lr hlr)
    _ = s.rules := List.map_id _

/-- A settled status is a fixed point of the round: reconciling the listener
again returns the same status and leaves the remote state as it is. -/
theorem reconcileListener_of_settled (cluster : Cluster) (oldId newId k : String)
    (hnew : newId ≠ "") (l l' : ListenerStatus) (s : AlbState) (hU : DistinctRuleArns s)
    (hset : Settled s oldId newId k l l') (t : List Call) :
    ∃ t', reconcileListener simpleAlb cluster oldId newId k l { st := s, trace := t } =
      (.ok l', { st := s, trace := t' }) := by
  obtain ⟨a, c, d, R, ra, hatt, hl', hcur, hdes, hmem, hfound, harn, hacts, hlen, hport⟩ := hset
  have hres : ∃ l1, resolveCurrentTG simpleAlb a oldId l { st := s, trace := t } =
      (.ok l1, { st := s, trace := t }) ∧ l1.CurrentTG = some c ∧
      { l1 with DesiredTG := some d, Rule := some R } = l' := by
    unfold resolveCurrentTG
    rcases hcur with ⟨hold, hc⟩ | ⟨hold, hc⟩
    · obtain ⟨rest, hd⟩ := describeTargetGroups_of_first s _ c hc
      have hsvc : simpleAlb.DescribeTargetGroups s [targetGroupName a oldId] = .ok (c :: rest) := hd
      refine ⟨{ l with CurrentTG := some c }, ?_, rfl, ?_⟩
      · simp only [ne_eq, hold, not_false_eq_true, if_true, hsvc]
      · rw [hl']
    · refine ⟨l, ?_, hc, ?_⟩
      · simp only [hold, ne_eq, not_true_eq_false, if_false]
      · rw [hl']
        cases l
        simp only at hc
        subst hc
        rfl
  obtain ⟨l1, hres1, hc1, hl1⟩ := hres
  obtain ⟨d', s2, hcreate, _, _, _, _, _, hsame⟩ := createTargetGroup_spec s cluster a newId
  obtain ⟨hs2, hd2⟩ := hsame d hdes
  subst hs2
  subst hd2
  have hcre := createDesiredTG_model_run cluster a newId hnew hlen hport l1 s2 s2 d' t hcreate
  have hRmem : R ∈ rulesOf s2 k := (mem_rulesOf s2 k R).mpr hmem
  have hfind : findTargetRule { l1 with DesiredTG := some d' } (rulesOf s2 k) = .ok (some R) := by
    unfold findTargetRule
    have hne : (rulesOf s2 k).length ≠ 0 := by
      intro h0
      rw [List.length_eq_zero.mp h0] at hRmem
      simp at hRmem
    simp only [hne, if_false, hc1]
    exact hfound
  have hmod := modifyRule_model s2 hU k R ra hmem harn d' c
  have hmod2 : simpleAlb.ModifyRule s2 (modifyRuleInput R d' c) =
      (.ok [{ R with Actions := evolvedActions d' c }],
        { s2 with rules := s2.rules.map (setActions ra (evolvedActions d' c)) }) := hmod
  have hR : ({ R with Actions := evolvedActions d' c } : Rule) = R := by
    rw [← hacts]
  have hs : ({ s2 with rules := s2.rules.map (setActions ra (evolvedActions d' c)) } : AlbState) =
      s2 := by
    rw [← hacts, setActions_id_of_distinct s2 hU k R ra hmem harn]
  rw [hR, hs] at hmod2
  refine ⟨t ++ [Call.CreateTargetGroup (createTgInput cluster a newId)] ++
    [Call.CreateTags (createTagsInput cluster a)] ++ [Call.ModifyRule (modifyRuleInput R d' c)], ?_⟩
  unfold reconcileListener
  simp only [hatt, List.length_singleton, gt_iff_lt, lt_self_iff_false, if_false, hres1, andThen,
    hcre, chooseRule_model, hfind]
  unfold applyRule
  simp only [hc1, hmod2]
  rw [← hl1, hc1]

/-- Reconciling another listener keeps a settled status settled. -/
theorem settled_of_effect (oldId newId k j : String) (hjk : j ≠ k) (l l' : ListenerStatus)
    (s s' : AlbState) (hU : DistinctRuleArns s) (heff : Effect s s' j)
    (hset : Settled s oldId newId k l l') : Settled s' oldId newId k l l' := by
  obtain ⟨a, c, d, R, ra, hatt, hl', hcur, hdes, hmem, hfound, harn, hacts, hlen, hport⟩ := hset
  obtain ⟨hmono, ⟨R0, ra0, actions, hmem0, harn0, hrules⟩, _⟩ := heff
  have hkeep : ∀ r, (k, r) ∈ s.rules → setActions ra0 actions (k, r) = (k, r) := by
    intro r hr
    unfold setActions
    by_cases h : r.RuleArn = some ra0
    · have := hU (k, r) hr (j, R0) hmem0 (by simp [h, harn0]) (by simp [h])
      simp only [Prod.mk.injEq] at this
      exact absurd this.1.symm hjk
    · simp [h]
  have hkeep2 : ∀ r ∈ rulesOf s k, withActions ra0 actions r = r := by
    intro r hr
    have := hkeep r ((mem_rulesOf s k r).mp hr)
    unfold setActions at this
    unfold withActions
    by_cases h : r.RuleArn = some ra0
    · simp only [h, if_true, Prod.mk.injEq, true_and] at this
      simp only [h, if_true]
      exact this
    · simp [h]
  have hrulesOf : rulesOf s' k = rulesOf s k := by
    rw [rulesOf_of_rules_eq s s' ra0 actions hrules k]
    calc (rulesOf s k).map (withActions ra0 actions) = (rulesOf s k).map id :=
          List.map_congr_left hkeep2
      _ = rulesOf s k := List.map_id _
  refine ⟨a, c, d, R, ra, hatt, hl', ?_, hmono _ _ hdes, ?_, ?_, harn, hacts, hlen, hport⟩
  · rcases hcur with ⟨hold, hc⟩ | ⟨hold, hc⟩
    · exact Or.inl ⟨hold, hmono _ _ hc⟩
    · exact Or.inr ⟨hold, hc⟩
  · rw [hrules]
    apply List.mem_map.mpr
    exact ⟨(k, R), hmem, hkeep R hmem⟩
  · rw [hrulesOf]
    exact hfound

/-! ### Maps of results -/

theorem applyResults_none (m : ListenerStatuses) : applyResults (fun _ => none) m = m := by
  unfold applyResults
  simp

theorem applyResults_congr (F G : String → Option ListenerStatus) (m : ListenerStatuses)
    (h : ∀ k, F k = G k) : applyResults F m = applyResults G m := by
  have : F = G := funext h
  rw [this]

theorem updateStatus_applyResults (F : String → Option ListenerStatus) (m : ListenerStatuses)
    (k : String) (l' : ListenerStatus) :
    updateStatus (applyResults F m) k (fun _ => l') =
      applyResults (Function.update F k (some l')) m := by
  unfold updateStatus applyResults
  rw [List.map_map]
  apply List.map_congr_left
  intro kv _
  obtain ⟨k1, v⟩ := kv
  by_cases hk : k1 = k
  · subst hk
    cases hF : F k1 <;> simp [hF]
  · cases hF : F k1 <;> simp [hF, hk, Function.update]

theorem lookupStatus_applyResults (F : String → Option ListenerStatus) (m : ListenerStatuses)
    (k : String) (hF : F k = none) : lookupStatus (applyResults F m) k = lookupStatus m k := by
  induction m with
  | nil => rfl
  | cons kv m ih =>
    obtain ⟨k1, v⟩ := kv
    unfold lookupStatus applyResults at ih ⊢
    by_cases hk : k1 = k
    · subst hk
      simp [List.find?_cons, hF]
    · cases hF1 : F k1 with
      | none =>
        simp only [List.map_cons, hF1, List.find?_cons, hk, decide_False]
        exact ih
      | some l1 =>
        simp only [List.map_cons, hF1, List.find?_cons, hk, decide_False]
        exact ih

/-! ### The trace only grows -/

theorem reconcileListener_trace {σ : Type} (svc : Elbv2 σ) (cluster : Cluster)
    (oldId newId k : String) (l : ListenerStatus) (w : World σ) :
    ∃ δ, (reconcileListener svc cluster oldId newId k l w).2.trace = w.trace ++ δ := by
  have hres : ∀ a, (resolveCurrentTG svc a oldId l w).2 = w := by
    intro a
    unfold resolveCurrentTG
    split
    · split <;> rfl
    · rfl
  have hcre : ∀ a l1, ∃ δ, (createDesiredTG svc cluster a newId l1 w).2.trace = w.trace ++ δ := by
    intro a l1
    unfold createDesiredTG
    split
    · split
      · exact ⟨[], by simp⟩
      · split
        · simp only
          split
          · exact ⟨[_], rfl⟩
          · split
            · exact ⟨[Call.CreateTargetGroup (createTgInput cluster a newId),
                Call.CreateTags (createTagsInput cluster a)], by simp⟩
            · exact ⟨[Call.CreateTargetGroup (createTgInput cluster a newId),
                Call.CreateTags (createTagsInput cluster a)], by simp⟩
        · exact ⟨[], by simp⟩
    · exact ⟨[], by simp⟩
  have happ : ∀ l2 before (w2 : World σ), ∃ δ, (applyRule svc k l2 before w2).2.trace =
      w2.trace ++ δ := by
    intro l2 before w2
    unfold applyRule
    split
    · simp only
      split
      · exact ⟨[_], rfl⟩
      · exact ⟨[_], rfl⟩
      · exact ⟨[_], rfl⟩
    · simp only
      split
      · exact ⟨[_], rfl⟩
      · exact ⟨[_], rfl⟩
      · exact ⟨[_], rfl⟩
    · exact ⟨[], by simp⟩
  unfold reconcileListener
  split
  · exact ⟨[], by simp⟩
  · split
    · exact ⟨[], by simp⟩
    · rename_i a rest _
      rcases h1 : resolveCurrentTG svc a oldId l w with ⟨o1, w1⟩
      have hw1 : w1 = w := by
        have := hres a
        rw [h1] at this
        exact this
      subst hw1
      cases o1 with
      | error e => exact ⟨[], by simp [andThen]⟩
      | panic q => exact ⟨[], by simp [andThen]⟩
      | ok l1 =>
        simp only [andThen]
        obtain ⟨δ1, hδ1⟩ := hcre a l1
        rcases h2 : createDesiredTG svc cluster a newId l1 w1 with ⟨o2, w2⟩
        rw [h2] at hδ1
        simp only at hδ1
        cases o2 with
        | error e => exact ⟨δ1, hδ1⟩
        | panic q => exact ⟨δ1, hδ1⟩
        | ok l2 =>
          simp only
          have hw3 := chooseRule_world svc k l2 w2
          rcases h3 : chooseRule svc k l2 w2 with ⟨o3, w3⟩
          rw [h3] at hw3
          simp only at hw3
          subst hw3
          cases o3 with
          | error e => exact ⟨δ1, hδ1⟩
          | panic q => exact ⟨δ1, hδ1⟩
          | ok before =>
            simp only
            obtain ⟨δ2, hδ2⟩ := happ l2 before w3
            exact ⟨δ1 ++ δ2, by rw [hδ2, hδ1, List.append_assoc]⟩

theorem reconcileAll_trace {σ : Type} (svc : Elbv2 σ) (cluster : Cluster) (oldId newId : String)
    (ord : List String) :
    ∀ (m : ListenerStatuses) (w : World σ),
      ∃ δ, (reconcileAll svc cluster oldId newId ord m w).2.trace = w.trace ++ δ := by
  induction ord with
  | nil =>
    intro m w
    exact ⟨[], by simp [reconcileAll]⟩
  | cons k rest ih =>
    intro m w
    unfold reconcileAll
    cases hl : lookupStatus m k with
    | none => exact ih m w
    | some l =>
      simp only
      obtain ⟨δ1, hδ1⟩ := reconcileListener_trace svc cluster oldId newId k l w
      rcases h1 : reconcileListener svc cluster oldId newId k l w with ⟨o1, w1⟩
      rw [h1] at hδ1
      simp only at hδ1
      cases o1 with
      | error e => exact ⟨δ1, hδ1⟩
      | panic q => exact ⟨δ1, hδ1⟩
      | ok l1 =>
        simp only [andThen]
        obtain ⟨δ2, hδ2⟩ := ih (updateStatus m k (fun _ => l1)) w1
        exact ⟨δ1 ++ δ2, by rw [hδ2, hδ1, List.append_assoc]⟩

/-! ### The first and the second run of the loop on the model -/

/-- The first run: when the loop ends normally and has issued no `CreateRule`,
the map it returns holds a settled status for every listener it visited. -/
theorem reconcileAll_settles (cluster : Cluster) (oldId newId : String) (hnew : newId ≠ "")
    (mv : ListenerStatuses) :
    ∀ (ord : List String), ord.Nodup →
      ∀ (F : String → Option ListenerStatus) (s : AlbState) (t : List Call)
        (m : ListenerStatuses) (s' : AlbState) (t' : List Call),
        (∀ k ∈ ord, F k = none) → DistinctRuleArns s → TargetGroupsHaveArns s →
        (∀ k l', F k = some l' →
          ∃ l, lookupStatus mv k = some l ∧ Settled s oldId newId k l l') →
        reconcileAll simpleAlb cluster oldId newId ord (applyResults F mv)
            { st := s, trace := t } = (.ok m, { st := s', trace := t' }) →
        (∀ c ∈ t', isCreateRule c = false) →
        ∃ F', m = applyResults F' mv ∧ DistinctRuleArns s' ∧
          (∀ k l', F' k = some l' →
            ∃ l, lookupStatus mv k = some l ∧ Settled s' oldId newId k l l') ∧
          (∀ k, k ∉ ord → F' k = F k) ∧
          (∀ k ∈ ord, F' k = none → lookupStatus mv k = none) ∧
          s'.listeners = s.listeners := by
  intro ord
  induction ord with
  | nil =>
    intro _ F s t m s' t' _ hU _ hF hrun _
    simp only [reconcileAll, Prod.mk.injEq, Outcome.ok.injEq, World.mk.injEq] at hrun
    obtain ⟨hm, hs, _⟩ := hrun
    subst hs
    exact ⟨F, hm.symm, hU, hF, fun _ _ => rfl, fun k hk => absurd hk (List.not_mem_nil k), rfl⟩
  | cons k rest ih =>
    intro hnd F s t m s' t' hnone hU hT hF hrun hnc
    have hndr : rest.Nodup := (List.nodup_cons.mp hnd).2
    have hknr : k ∉ rest := (List.nodup_cons.mp hnd).1
    have hFk : F k = none := hnone k (List.mem_cons_self _ _)
    unfold reconcileAll at hrun
    rw [lookupStatus_applyResults F mv k hFk] at hrun
    cases hl : lookupStatus mv k with
    | none =>
      simp only [hl] at hrun
      obtain ⟨F', hm, hU', hF', hout, hin, hlis⟩ := ih hndr F s t m s' t'
        (fun x hx => hnone x (List.mem_cons_of_mem _ hx)) hU hT hF hrun hnc
      refine ⟨F', hm, hU', hF', ?_, ?_, hlis⟩
      · intro x hx
        exact hout x (fun h => hx (List.mem_cons_of_mem _ h))
      · intro x hx hx2
        rcases List.mem_cons.mp hx with rfl | hx
        · exact hl
        · exact hin x hx hx2
    | some l =>
      simp only [hl] at hrun
      rcases h1 : reconcileListener simpleAlb cluster oldId newId k l { st := s, trace := t }
        with ⟨o1, w1⟩
      cases o1 with
      | error e => simp [h1, andThen] at hrun
      | panic q => simp [h1, andThen] at hrun
      | ok l1 =>
        obtain ⟨s1, t1⟩ := w1
        simp only [h1, andThen] at hrun
        rw [updateStatus_applyResults] at hrun
        obtain ⟨δ, hδ⟩ := reconcileAll_trace simpleAlb cluster oldId newId rest
          (applyResults (Function.update F k (some l1)) mv) { st := s1, trace := t1 }
        rw [hrun] at hδ
        simp only at hδ
        have hnc1 : ∀ c ∈ t1, isCreateRule c = false := by
          intro c hc
          exact hnc c (by rw [hδ]; exact List.mem_append_left _ hc)
        obtain ⟨hset1, heff, hU1, hT1, _⟩ :=
          reconcileListener_settles cluster oldId newId k hnew l l1 s s1 t t1 hU hT h1 hnc1
        have hF1 : ∀ x l', Function.update F k (some l1) x = some l' →
            ∃ l0, lookupStatus mv x = some l0 ∧ Settled s1 oldId newId x l0 l' := by
          intro x l' hx
          by_cases hxk : x = k
          · subst hxk
            simp only [Function.update_same, Option.some.injEq] at hx
            subst hx
            exact ⟨l, hl, hset1⟩
          · rw [Function.update_noteq hxk] at hx
            obtain ⟨l0, hl0, hs0⟩ := hF x l' hx
            exact ⟨l0, hl0, settled_of_effect oldId newId x k (fun h => hxk h.symm) l0 l' s s1
              hU heff hs0⟩
        have hnone1 : ∀ x ∈ rest, Function.update F k (some l1) x = none := by
          intro x hx
          have hxk : x ≠ k := fun h => hknr (h ▸ hx)
          rw [Function.update_noteq hxk]
          exact hnone x (List.mem_cons_of_mem _ hx)
        obtain ⟨F', hm, hU', hF', hout, hin, hlis⟩ := ih hndr _ s1 t1 m s' t' hnone1 hU1 hT1
          hF1 hrun hnc
        refine ⟨F', hm, hU', hF', ?_, ?_, ?_⟩
        · intro x hx
          have hxr : x ∉ rest := fun h => hx (List.mem_cons_of_mem _ h)
          have hxk : x ≠ k := fun h => hx (h ▸ List.mem_cons_self _ _)
          rw [hout x hxr, Function.update_noteq hxk]
        · intro x hx hx2
          rcases List.mem_cons.mp hx with rfl | hx
          · have := hout x hknr
            rw [Function.update_same] at this
            rw [this] at hx2
            cases hx2
          · exact hin x hx hx2
        · rw [hlis]
          exact heff.2.2

/-- The second run: in a state in which the statuses `F'` are settled, the loop
over any order returns these statuses and leaves the state as it is. -/
theorem reconcileAll_again (cluster : Cluster) (oldId newId : String) (hnew : newId ≠ "")
    (mv : ListenerStatuses) (s : AlbState) (hU : DistinctRuleArns s)
    (F' : String → Option ListenerStatus)
    (hF' : ∀ k l', F' k = some l' →
      ∃ l, lookupStatus mv k = some l ∧ Settled s oldId newId k l l') :
    ∀ (ord : List String), ord.Nodup →
      ∀ (G : String → Option ListenerStatus) (t : List Call),
        (∀ k ∈ ord, G k = none) → (∀ k ∈ ord, F' k = none → lookupStatus mv k = none) →
        ∃ t', reconcileAll simpleAlb cluster oldId newId ord (applyResults G mv)
            { st := s, trace := t } =
          (.ok (applyResults (fun k => if k ∈ ord then F' k else G k) mv),
            { st := s, trace := t' }) := by
  intro ord
  induction ord with
  | nil =>
    intro _ G t _ _
    exact ⟨t, by simp [reconcileAll]⟩
  | cons k rest ih =>
    intro hnd G t hnone hdom
    have hndr : rest.Nodup := (List.nodup_cons.mp hnd).2
    have hknr : k ∉ rest := (List.nodup_cons.mp hnd).1
    have hGk : G k = none := hnone k (List.mem_cons_self _ _)
    unfold reconcileAll
    rw [lookupStatus_applyResults G mv k hGk]
    cases hl : lookupStatus mv k with
    | none =>
      simp only
      obtain ⟨t', ht'⟩ := ih hndr G t (fun x hx => hnone x (List.mem_cons_of_mem _ hx))
        (fun x hx => hdom x (List.mem_cons_of_mem _ hx))
      refine ⟨t', ?_⟩
      rw [ht']
      have hFk : F' k = none := by
        cases hq : F' k with
        | none => rfl
        | some l' =>
          obtain ⟨l0, hl0, _⟩ := hF' k l' hq
          rw [hl] at hl0
          cases hl0
      rw [applyResults_congr (fun x => if x ∈ rest then F' x else G x)
        (fun x => if x ∈ k :: rest then F' x else G x) mv]
      intro x
      by_cases hxk : x = k
      · subst hxk
        simp [hknr, hFk, hGk]
      · simp [hxk]
    | some l =>
      simp only
      cases hq : F' k with
      | none =>
        have := hdom k (List.mem_cons_self _ _) hq
        rw [hl] at this
        cases this
      | some l' =>
        obtain ⟨l0, hl0, hs0⟩ := hF' k l' hq
        rw [hl] at hl0
        cases hl0
        obtain ⟨t1, ht1⟩ := reconcileListener_of_settled cluster oldId newId k hnew l l' s hU hs0 t
        simp only [ht1, andThen]
        rw [updateStatus_applyResults]
        have hnone1 : ∀ x ∈ rest, Function.update G k (some l') x = none := by
          intro x hx
          have hxk : x ≠ k := fun h => hknr (h ▸ hx)
          rw [Function.update_noteq hxk]
          exact hnone x (List.mem_cons_of_mem _ hx)
        obtain ⟨t', ht'⟩ := ih hndr _ t1 hnone1 (fun x hx => hdom x (List.mem_cons_of_mem _ hx))
        refine ⟨t', ?_⟩
        rw [ht']
        rw [applyResults_congr (fun x => if x ∈ rest then F' x else Function.update G k (some l') x)
          (fun x => if x ∈ k :: rest then F' x else G x) mv]
        intro x
        by_cases hxk : x = k
        · subst hxk
          simp [hknr, hq]
        · simp [hxk, Function.update_noteq hxk]

/-! ### The order of the validation loop and of the listener ARNs -/

theorem validateAll_of_valid (m : ListenerStatuses) :
    ∀ (ord : List String), ord.Nodup →
      ∀ (F : String → Option ListenerStatus), (∀ k ∈ ord, F k = none) →
        (∀ k ∈ ord, ∀ l, lookupStatus m k = some l → ∃ l', validateListener l = .ok l') →
        validateAll ord (applyResults F m) =
          .ok (applyResults (fun k => if k ∈ ord then validatedStatus m k else F k) m) := by
  intro ord
  induction ord with
  | nil =>
    intro _ F _ _
    simp [validateAll]
  | cons k rest ih =>
    intro hnd F hnone hval
    have hndr : rest.Nodup := (List.nodup_cons.mp hnd).2
    have hknr : k ∉ rest := (List.nodup_cons.mp hnd).1
    have hFk : F k = none := hnone k (List.mem_cons_self _ _)
    unfold validateAll
    rw [lookupStatus_applyResults F m k hFk]
    cases hl : lookupStatus m k with
    | none =>
      simp only
      rw [ih hndr F (fun x hx => hnone x (List.mem_cons_of_mem _ hx))
        (fun x hx => hval x (List.mem_cons_of_mem _ hx))]
      rw [applyResults_congr (fun x => if x ∈ rest then validatedStatus m x else F x)
        (fun x => if x ∈ k :: rest then validatedStatus m x else F x) m]
      intro x
      by_cases hxk : x = k
      · subst hxk
        simp [hknr, hFk, validatedStatus, hl]
      · simp [hxk]
    | some l =>
      obtain ⟨l', hl'⟩ := hval k (List.mem_cons_self _ _) l hl
      simp only [hl']
      rw [updateStatus_applyResults]
      have hnone1 : ∀ x ∈ rest, Function.update F k (some l') x = none := by
        intro x hx
        have hxk : x ≠ k := fun h => hknr (h ▸ hx)
        rw [Function.update_noteq hxk]
        exact hnone x (List.mem_cons_of_mem _ hx)
      rw [ih hndr _ hnone1 (fun x hx => hval x (List.mem_cons_of_mem _ hx))]
      rw [applyResults_congr (fun x => if x ∈ rest then validatedStatus m x
          else Function.update F k (some l') x)
        (fun x => if x ∈ k :: rest then validatedStatus m x else F x) m]
      intro x
      by_cases hxk : x = k
      · subst hxk
        simp [hknr, validatedStatus, hl, hl']
      · simp [hxk, Function.update_noteq hxk]

theorem validateAll_valid (m : ListenerStatuses) :
    ∀ (ord : List String), ord.Nodup →
      ∀ (F : String → Option ListenerStatus) (m' : ListenerStatuses), (∀ k ∈ ord, F k = none) →
        validateAll ord (applyResults F m) = .ok m' →
        ∀ k ∈ ord, ∀ l, lookupStatus m k = some l → ∃ l', validateListener l = .ok l' := by
  intro ord
  induction ord with
  | nil =>
    intro _ F m' _ _ k hk
    exact absurd hk (List.not_mem_nil k)
  | cons k rest ih =>
    intro hnd F m' hnone hrun x hx l hl
    have hndr : rest.Nodup := (List.nodup_cons.mp hnd).2
    have hknr : k ∉ rest := (List.nodup_cons.mp hnd).1
    have hFk : F k = none := hnone k (List.mem_cons_self _ _)
    unfold validateAll at hrun
    rw [lookupStatus_applyResults F m k hFk] at hrun
    cases hlk : lookupStatus m k with
    | none =>
      simp only [hlk] at hrun
      rcases List.mem_cons.mp hx with rfl | hx
      · rw [hlk] at hl
        cases hl
      · exact ih hndr F m' (fun y hy => hnone y (List.mem_cons_of_mem _ hy)) hrun x hx l hl
    | some lk =>
      simp only [hlk] at hrun
      cases hv : validateListener lk with
      | error e => simp [hv] at hrun
      | panic q => simp [hv] at hrun
      | ok lk' =>
        simp only [hv] at hrun
        rcases List.mem_cons.mp hx with rfl | hx
        · rw [hlk] at hl
          cases hl
          exact ⟨lk', hv⟩
        · rw [updateStatus_applyResults] at hrun
          have hnone1 : ∀ y ∈ rest, Function.update F k (some lk') y = none := by
            intro y hy
            have hyk : y ≠ k := fun h => hknr (h ▸ hy)
            rw [Function.update_noteq hyk]
            exact hnone y (List.mem_cons_of_mem _ hy)
          exact ih hndr _ m' hnone1 hrun x hx l hl

/-- The validation loop gives the same map in any order over the same keys. -/
theorem validateAll_order (m mv : ListenerStatuses) (ord ord2 : List String) (hnd : ord.Nodup)
    (hnd2 : ord2.Nodup) (hmem : ∀ k, k ∈ ord2 ↔ k ∈ ord) (h : validateAll ord m = .ok mv) :
    validateAll ord2 m = .ok mv := by
  have h0 : applyResults (fun _ => none) m = m := applyResults_none m
  have hval := validateAll_valid m ord hnd (fun _ => none) mv (fun _ _ => rfl) (by rw [h0]; exact h)
  have h1 := validateAll_of_valid m ord hnd (fun _ => none) (fun _ _ => rfl) hval
  have h2 := validateAll_of_valid m ord2 hnd2 (fun _ => none) (fun _ _ => rfl)
    (fun k hk => hval k ((hmem k).mp hk))
  rw [h0] at h1 h2
  rw [h] at h1
  rw [h2, h1]
  congr 1
  apply applyResults_congr
  intro k
  by_cases hk : k ∈ ord
  · simp [hk, (hmem k).mpr hk]
  · have : k ∉ ord2 := fun h => hk ((hmem k).mp h)
    simp [hk, this]

theorem describeListeners_congr (s s' : AlbState) (arns arns' : List String)
    (hl : s'.listeners = s.listeners) (hmem : ∀ k, k ∈ arns' ↔ k ∈ arns) :
    describeListeners s' arns' = describeListeners s arns := by
  unfold describeListeners
  rw [hl]
  have h1 : arns'.all (fun a => s.listeners.any (fun l => l.ListenerArn = some a)) =
      arns.all (fun a => s.listeners.any (fun l => l.ListenerArn = some a)) := by
    rw [Bool.eq_iff_iff]
    simp only [List.all_eq_true]
    constructor
    · intro h x hx
      exact h x ((hmem x).mpr hx)
    · intro h x hx
      exact h x ((hmem x).mp hx)
  have h2 : (fun l : Listener =>
      match l.ListenerArn with
      | some a => decide (a ∈ arns')
      | none => false) = fun l =>
      match l.ListenerArn with
      | some a => decide (a ∈ arns)
      | none => false := by
    funext l
    cases l.ListenerArn with
    | none => rfl
    | some a => simp [hmem a]
  rw [h1, h2]

/-! ### Runs without a desired version -/

theorem lookupStatus_mem (m : ListenerStatuses) (k : String) (l : ListenerStatus)
    (h : lookupStatus m k = some l) : (k, l) ∈ m := by
  unfold lookupStatus at h
  cases hf : m.find? (fun kv => kv.1 = k) with
  | none => simp [hf] at h
  | some kv =>
    simp only [hf, Option.map_some', Option.some.injEq] at h
    have h1 := List.mem_of_find?_eq_some hf
    have h2 := List.find?_some hf
    simp only [decide_eq_true_eq] at h2
    obtain ⟨k1, v⟩ := kv
    simp only at h h2
    subst h
    subst h2
    exact h1

theorem desiredTG_groupAttachments (as : List ALBAttachment) (k : String) (l : ListenerStatus)
    (h : lookupStatus (groupAttachments as) k = some l) : l.DesiredTG = none := by
  rw [lookupStatus_groupAttachments] at h
  by_cases he : attachmentsOf as k = []
  · simp [he] at h
  · simp only [he, if_false, Option.some.injEq] at h
    rw [← h]
    rfl

theorem desiredTG_attachListeners (ls : List Listener) :
    ∀ (m m' : ListenerStatuses), attachListeners ls m = .ok m' →
      (∀ k l, lookupStatus m k = some l → l.DesiredTG = none) →
      ∀ k l, lookupStatus m' k = some l → l.DesiredTG = none := by
  induction ls with
  | nil =>
    intro m m' h hm
    simp only [attachListeners, Outcome.ok.injEq] at h
    subst h
    exact hm
  | cons info rest ih =>
    intro m m' h hm
    unfold attachListeners at h
    cases harn : info.ListenerArn with
    | none => simp [harn] at h
    | some arn =>
      cases hl : lookupStatus m arn with
      | none => simp [harn, hl] at h
      | some l0 =>
        simp only [harn, hl] at h
        apply ih _ m' h
        intro k l hk
        rw [lookupStatus_updateStatus] at hk
        cases hq : lookupStatus m k with
        | none => simp [hq] at hk
        | some l1 =>
          simp only [hq, Option.map_some', Option.some.injEq] at hk
          have := hm k l1 hq
          by_cases hka : k = arn
          · simp only [hka, if_true] at hk
            rw [← hk]
            exact this
          · simp only [hka, if_false] at hk
            rw [← hk]
            exact this

theorem desiredTG_validateListener (l l' : ListenerStatus) (h : validateListener l = .ok l') :
    l'.DesiredTG = l.DesiredTG := by
  unfold validateListener at h
  cases hatt : l.ALBAttachments with
  | nil => simp [hatt] at h
  | cons base rest =>
    simp only [hatt] at h
    cases hc : checkAttachments l base (copySortSlice base.Hosts)
        (copySortSlice base.PathPatterns) 1 rest with
    | ok u =>
      simp only [hc, Outcome.ok.injEq] at h
      rw [← h]
    | error e => simp [hc] at h
    | panic q => simp [hc] at h

theorem desiredTG_validateAll :
    ∀ (ord : List String) (m m' : ListenerStatuses), validateAll ord m = .ok m' →
      (∀ k l, lookupStatus m k = some l → l.DesiredTG = none) →
      ∀ k l, lookupStatus m' k = some l → l.DesiredTG = none := by
  intro ord
  induction ord with
  | nil =>
    intro m m' h hm
    simp only [validateAll, Outcome.ok.injEq] at h
    subst h
    exact hm
  | cons x rest ih =>
    intro m m' h hm
    unfold validateAll at h
    cases hl : lookupStatus m x with
    | none =>
      simp only [hl] at h
      exact ih m m' h hm
    | some lx =>
      simp only [hl] at h
      cases hv : validateListener lx with
      | error e => simp [hv] at h
      | panic q => simp [hv] at h
      | ok lx' =>
        simp only [hv] at h
        apply ih _ m' h
        intro k l hk
        rw [lookupStatus_updateStatus] at hk
        cases hq : lookupStatus m k with
        | none => simp [hq] at hk
        | some l1 =>
          simp only [hq, Option.map_some', Option.some.injEq] at hk
          by_cases hkx : k = x
          · simp only [hkx, if_true] at hk
            rw [← hk, desiredTG_validateListener lx lx' hv]
            exact hm x lx hl
          · simp only [hkx, if_false] at hk
            rw [← hk]
            exact hm k l1 hq

/-- Without a desired version, a round on a status without a desired group
issues no call and leaves the world as it is; its outcome depends on the remote
state only. -/
theorem reconcileListener_readOnly (cluster : Cluster) (oldId k : String) (l : ListenerStatus)
    (hd : l.DesiredTG = none) (s : AlbState) (t : List Call) :
    reconcileListener simpleAlb cluster oldId "" k l { st := s, trace := t } =
      (roundOutcome cluster oldId "" s k l, { st := s, trace := t }) := by
  have hres : ∀ (a : ALBAttachment) (t0 : List Call),
      resolveCurrentTG simpleAlb a oldId l { st := s, trace := t0 } =
        ((resolveCurrentTG simpleAlb a oldId l { st := s, trace := [] }).1,
          { st := s, trace := t0 }) := by
    intro a t0
    unfold resolveCurrentTG
    split
    · simp only
      split <;> rfl
    · rfl
  have hres2 : ∀ (a : ALBAttachment) l1,
      (resolveCurrentTG simpleAlb a oldId l { st := s, trace := [] }).1 = .ok l1 →
        l1.DesiredTG = none := by
    intro a l1 h
    have := resolveCurrentTG_ok simpleAlb a oldId l l1 { st := s, trace := [] } _
      (Prod.ext h rfl)
    rw [this.2.1, hd]
  have hcre : ∀ (a : ALBAttachment) l1 (w : World AlbState),
      createDesiredTG simpleAlb cluster a "" l1 w = (.ok l1, w) := by
    intro a l1 w
    unfold createDesiredTG
    simp
  have happ : ∀ l2 before (w : World AlbState), l2.DesiredTG = none →
      applyRule simpleAlb k l2 before w = (.ok { l2 with Rule := none }, w) := by
    intro l2 before w h2
    unfold applyRule
    cases before <;> simp [h2]
  unfold roundOutcome reconcileListener
  split
  · rfl
  · split
    · rfl
    · rename_i a rest _
      rw [hres a t, hres a []]
      cases h1 : (resolveCurrentTG simpleAlb a oldId l { st := s, trace := [] }).1 with
      | error e => rfl
      | panic q => rfl
      | ok l1 =>
        have hd1 := hres2 a l1 h1
        simp only [andThen, hcre, chooseRule_model]
        cases hf : findTargetRule l1 (rulesOf s k) with
        | error e => rfl
        | panic q => rfl
        | ok before =>
          simp only [happ l1 before _ hd1]

theorem reconcileAll_readOnly_of_valid (cluster : Cluster) (oldId : String) (s : AlbState)
    (mv : ListenerStatuses) (hfresh : ∀ k l, lookupStatus mv k = some l → l.DesiredTG = none) :
    ∀ (ord : List String), ord.Nodup →
      ∀ (F : String → Option ListenerStatus) (t : List Call), (∀ k ∈ ord, F k = none) →
        (∀ k ∈ ord, ∀ l, lookupStatus mv k = some l →
          ∃ l', roundOutcome cluster oldId "" s k l = .ok l') →
        reconcileAll simpleAlb cluster oldId "" ord (applyResults F mv) { st := s, trace := t } =
          (.ok (applyResults
              (fun k => if k ∈ ord then roundStatus cluster oldId "" s mv k else F k) mv),
            { st := s, trace := t }) := by
  intro ord
  induction ord with
  | nil =>
    intro _ F t _ _
    simp [reconcileAll]
  | cons k rest ih =>
    intro hnd F t hnone hval
    have hndr : rest.Nodup := (List.nodup_cons.mp hnd).2
    have hknr : k ∉ rest := (List.nodup_cons.mp hnd).1
    have hFk : F k = none := hnone k (List.mem_cons_self _ _)
    unfold reconcileAll
    rw [lookupStatus_applyResults F mv k hFk]
    cases hl : lookupStatus mv k with
    | none =>
      simp only
      rw [ih hndr F t (fun x hx => hnone x (List.mem_cons_of_mem _ hx))
        (fun x hx => hval x (List.mem_cons_of_mem _ hx))]
      rw [applyResults_congr (fun x => if x ∈ rest then roundStatus cluster oldId "" s mv x else F x)
        (fun x => if x ∈ k :: rest then roundStatus cluster oldId "" s mv x else F x) mv]
      intro x
      by_cases hxk : x = k
      · subst hxk
        simp [hknr, hFk, roundStatus, hl]
      · simp [hxk]
    | some l =>
      obtain ⟨l', hl'⟩ := hval k (List.mem_cons_self _ _) l hl
      simp only
      rw [reconcileListener_readOnly cluster oldId k l (hfresh k l hl) s t, hl']
      simp only [andThen]
      rw [updateStatus_applyResults]
      have hnone1 : ∀ x ∈ rest, Function.update F k (some l') x = none := by
        intro x hx
        have hxk : x ≠ k := fun h => hknr (h ▸ hx)
        rw [Function.update_noteq hxk]
        exact hnone x (List.mem_cons_of_mem _ hx)
      rw [ih hndr _ t hnone1 (fun x hx => hval x (List.mem_cons_of_mem _ hx))]
      rw [applyResults_congr (fun x => if x ∈ rest then roundStatus cluster oldId "" s mv x
          else Function.update F k (some l') x)
        (fun x => if x ∈ k :: rest then roundStatus cluster oldId "" s mv x else F x) mv]
      intro x
      by_cases hxk : x = k
      · subst hxk
        simp [hknr, roundStatus, hl, hl']
      · simp [hxk, Function.update_noteq hxk]

theorem reconcileAll_readOnly_valid (cluster : Cluster) (oldId : String) (s : AlbState)
    (mv : ListenerStatuses) (hfresh : ∀ k l, lookupStatus mv k = some l → l.DesiredTG = none) :
    ∀ (ord : List String), ord.Nodup →
      ∀ (F : String → Option ListenerStatus) (t : List Call) (m : ListenerStatuses)
        (w' : World AlbState), (∀ k ∈ ord, F k = none) →
        reconcileAll simpleAlb cluster oldId "" ord (applyResults F mv) { st := s, trace := t } =
          (.ok m, w') →
        ∀ k ∈ ord, ∀ l, lookupStatus mv k = some l →
          ∃ l', roundOutcome cluster oldId "" s k l = .ok l' := by
  intro ord
  induction ord with
  | nil =>
    intro _ F t m w' _ _ k hk
    exact absurd hk (List.not_mem_nil k)
  | cons k rest ih =>
    intro hnd F t m w' hnone hrun x hx l hl
    have hndr : rest.Nodup := (List.nodup_cons.mp hnd).2
    have hknr : k ∉ rest := (List.nodup_cons.mp hnd).1
    have hFk : F k = none := hnone k (List.mem_cons_self _ _)
    unfold reconcileAll at hrun
    rw [lookupStatus_applyResults F mv k hFk] at hrun
    cases hlk : lookupStatus mv k with
    | none =>
      simp only [hlk] at hrun
      rcases List.mem_cons.mp hx with rfl | hx
      · rw [hlk] at hl
        cases hl
      · exact ih hndr F t m w' (fun y hy => hnone y (List.mem_cons_of_mem _ hy)) hrun x hx l hl
    | some lk =>
      simp only [hlk] at hrun
      rw [reconcileListener_readOnly cluster oldId k lk (hfresh k lk hlk) s t] at hrun
      cases hv : roundOutcome cluster oldId "" s k lk with
      | error e => simp [hv, andThen] at hrun
      | panic q => simp [hv, andThen] at hrun
      | ok lk' =>
        simp only [hv, andThen] at hrun
        rcases List.mem_cons.mp hx with rfl | hx
        · rw [hlk] at hl
          cases hl
          exact ⟨lk', hv⟩
        · rw [updateStatus_applyResults] at hrun
          have hnone1 : ∀ y ∈ rest, Function.update F k (some lk') y = none := by
            intro y hy
            have hyk : y ≠ k := fun h => hknr (h ▸ hy)
            rw [Function.update_noteq hyk]
            exact hnone y (List.mem_cons_of_mem _ hy)
          exact ih hndr _ t m w' hnone1 hrun x hx l hl

/-- Without a desired version the loop changes nothing remotely and gives the
same map in any order over the same keys. -/
theorem reconcileAll_readOnly_order (cluster : Cluster) (oldId : String) (s : AlbState)
    (mv : ListenerStatuses) (hfresh : ∀ k l, lookupStatus mv k = some l → l.DesiredTG = none)
    (ord ord2 : List String) (hnd : ord.Nodup) (hnd2 : ord2.Nodup)
    (hmem : ∀ k, k ∈ ord2 ↔ k ∈ ord) (m : ListenerStatuses) (w' : World AlbState)
    (h : reconcileAll simpleAlb cluster oldId "" ord mv { st := s, trace := [] } = (.ok m, w')) :
    w' = { st := s, trace := [] } ∧
      reconcileAll simpleAlb cluster oldId "" ord2 mv { st := s, trace := [] } =
        (.ok m, { st := s, trace := [] }) := by
  have h0 : applyResults (fun _ => none) mv = mv := applyResults_none mv
  have hval := reconcileAll_readOnly_valid cluster oldId s mv hfresh ord hnd (fun _ => none) []
    m w' (fun _ _ => rfl) (by rw [h0]; exact h)
  have h1 := reconcileAll_readOnly_of_valid cluster oldId s mv hfresh ord hnd (fun _ => none) []
    (fun _ _ => rfl) hval
  have h2 := reconcileAll_readOnly_of_valid cluster oldId s mv hfresh ord2 hnd2 (fun _ => none) []
    (fun _ _ => rfl) (fun k hk => hval k ((hmem k).mp hk))
  rw [h0] at h1 h2
  rw [h] at h1
  simp only [Prod.mk.injEq, Outcome.ok.injEq] at h1
  refine ⟨h1.2, ?_⟩
  rw [h2, h1.1]
  congr 2
  apply applyResults_congr
  intro k
  by_cases hk : k ∈ ord
  · simp [hk, (hmem k).mpr hk]
  · have : k ∉ ord2 := fun h => hk ((hmem k).mp h)
    simp [hk, this]

/-- C5 fails as stated on the create path: on a first creation (no current
version) the planner creates a rule; run again with the same inputs on the
state it left, it issues `CreateRule` again, the listener has one rule more,
and the status map differs from the first one (it holds the new rule). -/
theorem C5_counterexample :
    planSummary createdOnce =
        (createdOnce.1, ["CreateTargetGroup", "CreateTags", "CreateRule"]) ∧
      planSummary createdTwice =
        (createdTwice.1, ["CreateTargetGroup", "CreateTags", "CreateRule"]) ∧
      createdOnce.1 ≠ createdTwice.1 ∧
      createdOnce.2.st.targetGroups.length = createdTwice.2.st.targetGroups.length ∧
      createdOnce.2.st.rules.length = 2 ∧ createdTwice.2.st.rules.length = 3 := by
  decide

/-- C5 as amended: over the model of the control plane, when a first run of
`planListenerChanges` ends normally without any `CreateRule` (it evolved an
existing rule of every listener, or had no desired version), a second run with
the same cluster and version identifiers on the state left by the first one,
ranging over the same listeners in any order, returns the identical status map
and leaves the remote state unchanged: no target group and no rule is added. -/
theorem C5_second_run_identical (cluster : Cluster) (oldId newId : String)
    (ordA ordV ordR ordA2 ordV2 ordR2 : List String) (s0 s1 : AlbState)
    (m : ListenerStatuses) (t1 : List Call)
    (hU : DistinctRuleArns s0) (hT : TargetGroupsHaveArns s0)
    (hndV : ordV.Nodup) (hndV2 : ordV2.Nodup) (hndR : ordR.Nodup) (hndR2 : ordR2.Nodup)
    (hA : ∀ k, k ∈ ordA2 ↔ k ∈ ordA) (hV : ∀ k, k ∈ ordV2 ↔ k ∈ ordV)
    (hR : ∀ k, k ∈ ordR2 ↔ k ∈ ordR)
    (hrun : planListenerChanges simpleAlb cluster oldId newId ordA ordV ordR
      { st := s0, trace := [] } = (.ok m, { st := s1, trace := t1 }))
    (hnc : ∀ c ∈ t1, isCreateRule c = false) :
    ∃ t2, planListenerChanges simpleAlb cluster oldId newId ordA2 ordV2 ordR2
        { st := s1, trace := [] } = (.ok m, { st := s1, trace := t2 }) := by
  unfold planListenerChanges at hrun ⊢
  by_cases hv : cluster.VPCID = ""
  · rw [if_pos hv] at hrun
    cases hrun
  · rw [if_neg hv] at hrun ⊢
    have hsvc : ∀ s arns, simpleAlb.DescribeListeners s arns = describeListeners s arns :=
      fun _ _ => rfl
    simp only [hsvc] at hrun ⊢
    cases hd : describeListeners s0 ordA with
    | error e => simp [hd] at hrun
    | ok ls =>
      simp only [hd] at hrun
      cases ha : attachListeners ls (groupAttachments cluster.ALBAttachments) with
      | error e => simp [ha] at hrun
      | panic q => simp [ha] at hrun
      | ok m1 =>
        simp only [ha] at hrun
        cases hval : validateAll ordV m1 with
        | error e => simp [hval] at hrun
        | panic q => simp [hval] at hrun
        | ok mv =>
          simp only [hval] at hrun
          by_cases hnew : newId = ""
          · subst hnew
            have hfresh : ∀ k l, lookupStatus mv k = some l → l.DesiredTG = none :=
              desiredTG_validateAll ordV m1 mv hval
                (desiredTG_attachListeners ls _ m1 ha
                  (desiredTG_groupAttachments cluster.ALBAttachments))
            obtain ⟨hw, hrun2⟩ := reconcileAll_readOnly_order cluster oldId s0 mv hfresh ordR ordR2
              hndR hndR2 hR m _ hrun
            simp only [World.mk.injEq] at hw
            obtain ⟨hs, _⟩ := hw
            subst hs
            refine ⟨[], ?_⟩
            rw [describeListeners_congr s1 s1 ordA ordA2 rfl hA, hd]
            simp only [ha, validateAll_order m1 mv ordV ordV2 hndV hndV2 hV hval, hrun2]
          have hrun0 : reconcileAll simpleAlb cluster oldId newId ordR
              (applyResults (fun _ => none) mv) { st := s0, trace := [] } =
              (.ok m, { st := s1, trace := t1 }) := by
            rw [applyResults_none]
            exact hrun
          obtain ⟨F', hm, hU1, hF', hout, hin, hlis⟩ :=
            reconcileAll_settles cluster oldId newId hnew mv ordR hndR (fun _ => none) s0 [] m s1 t1
              (fun _ _ => rfl) hU hT (fun k l' h => by cases h) hrun0 hnc
          obtain ⟨t2, ht2⟩ := reconcileAll_again cluster oldId newId hnew mv s1 hU1 F' hF' ordR2
            hndR2 (fun _ => none) [] (fun _ _ => rfl)
            (fun k hk => hin k ((hR k).mp hk))
          rw [applyResults_none] at ht2
          refine ⟨t2, ?_⟩
          rw [describeListeners_congr s0 s1 ordA ordA2 hlis hA, hd]
          simp only [ha, validateAll_order m1 mv ordV ordV2 hndV hndV2 hV hval, ht2]
          rw [hm]
          congr 2
          apply applyResults_congr
          intro k
          by_cases hk : k ∈ ordR2
          · simp [hk]
          · have : k ∉ ordR := fun h => hk ((hR k).mpr h)
            simp [hk, hout k this]

theorem bothListeners_swapped (k : String) :
    k ∈ ["arn:listener/2", "arn:listener/1"] ↔ k ∈ bothListeners := by
  simp [bothListeners, or_comm]

theorem C5_second_run_identical_witness :
    ∃ t2, planListenerChanges simpleAlb (clusterOf [webAttachment, apiAttachment]) "v1" "v2"
        ["arn:listener/2", "arn:listener/1"] ["arn:listener/2", "arn:listener/1"]
        ["arn:listener/2", "arn:listener/1"] { st := evolvedOnce.2.st, trace := [] } =
      (.ok (statusesOf evolvedOnce.1), { st := evolvedOnce.2.st, trace := t2 }) :=
  C5_second_run_identical (clusterOf [webAttachment, apiAttachment]) "v1" "v2"
    bothListeners bothListeners bothListeners
    ["arn:listener/2", "arn:listener/1"] ["arn:listener/2", "arn:listener/1"]
    ["arn:listener/2", "arn:listener/1"] remoteTwo evolvedOnce.2.st (statusesOf evolvedOnce.1)
    evolvedOnce.2.trace (by unfold DistinctRuleArns; decide)
    (by unfold TargetGroupsHaveArns; decide) (by decide) (by decide) (by decide) (by decide)
    bothListeners_swapped bothListeners_swapped bothListeners_swapped (by decide) (by decide)

/-! ### The lookup of the current target group -/

/-- The lookup of the current group in the loop body, for a listener with one
attachment and a non-empty current version: an error of the describe call is
returned as it is, an empty list of groups ends the body with an index out of
range at `result.TargetGroups[0]`; in both cases no call was issued. -/
theorem reconcileListener_currentLookup {σ : Type} (svc : Elbv2 σ) (cluster : Cluster)
    (oldId newId arn : String) (l : ListenerStatus) (a : ALBAttachment) (w : World σ)
    (hatt : l.ALBAttachments = [a]) (hold : oldId ≠ "") :
    (∀ e, svc.DescribeTargetGroups w.st [targetGroupName a oldId] = .error e →
        reconcileListener svc cluster oldId newId arn l w = (.error (.remote e), w)) ∧
      (svc.DescribeTargetGroups w.st [targetGroupName a oldId] = .ok [] →
        reconcileListener svc cluster oldId newId arn l w = (.panic .indexOutOfRange, w)) := by
  constructor
  · intro e he
    unfold reconcileListener
    simp only [hatt, List.length_singleton, gt_iff_lt, lt_self_iff_false, if_false]
    unfold resolveCurrentTG
    simp only [ne_eq, hold, not_false_eq_true, if_true, he, andThen]
  · intro he
    unfold reconcileListener
    simp only [hatt, List.length_singleton, gt_iff_lt, lt_self_iff_false, if_false]
    unfold resolveCurrentTG
    simp only [ne_eq, hold, not_false_eq_true, if_true, he, andThen]

/-- C11: the remote state `remoteV1` has no target group `web-80-v0`. With a
control plane that reports the unknown name as an error the planner returns
that error; with one that answers the lookup with an empty list of groups the
planner does not return an error: `result.TargetGroups[0]` is out of range. In
both runs no state-changing call was issued. -/
theorem C11_empty_lookup_out_of_range :
    simpleAlb.DescribeTargetGroups remoteV1 [targetGroupName webAttachment "v0"] =
        .error "TargetGroupNotFound" ∧
      planSummary (planListenerChanges simpleAlb (clusterOf [webAttachment]) "v0" "v2"
          justFirst justFirst justFirst remoteWorld) =
        (.error (.remote "TargetGroupNotFound"), []) ∧
      filteringAlb.DescribeTargetGroups remoteV1 [targetGroupName webAttachment "v0"] = .ok [] ∧
      planSummary (planListenerChanges filteringAlb (clusterOf [webAttachment]) "v0" "v2"
          justFirst justFirst justFirst remoteWorld) =
        (.panic .indexOutOfRange, []) := by
  refine ⟨rfl, ?_, rfl, ?_⟩
  · decide
  · decide

/-! ### The attachments of a listener through the three loops -/

theorem attachmentsAt_updateStatus (m : ListenerStatuses) (k : String)
    (f : ListenerStatus → ListenerStatus)
    (hf : ∀ l, lookupStatus m k = some l → (f l).ALBAttachments = l.ALBAttachments)
    (k2 : String) : attachmentsAt (updateStatus m k f) k2 = attachmentsAt m k2 := by
  unfold attachmentsAt
  rw [lookupStatus_updateStatus]
  cases hm : lookupStatus m k2 with
  | none => rfl
  | some l =>
    simp only [Option.map_some', Option.some.injEq]
    by_cases hk : k2 = k
    · rw [if_pos hk]
      exact hf l (hk ▸ hm)
    · rw [if_neg hk]

theorem attachmentsAt_attachListeners (ls : List Listener) :
    ∀ (m m' : ListenerStatuses), attachListeners ls m = .ok m' →
      ∀ k, attachmentsAt m' k = attachmentsAt m k := by
  induction ls with
  | nil =>
    intro m m' h k
    simp only [attachListeners, Outcome.ok.injEq] at h
    subst h
    rfl
  | cons info rest ih =>
    intro m m' h k
    unfold attachListeners at h
    cases harn : info.ListenerArn with
    | none => simp [harn] at h
    | some arn =>
      simp only [harn] at h
      cases hl : lookupStatus m arn with
      | none => simp [hl] at h
      | some l0 =>
        simp only [hl] at h
        rw [ih _ m' h k]
        exact attachmentsAt_updateStatus m arn (fun l => { l with Listener := some info })
          (fun _ _ => rfl) k

theorem validateListener_attachments (l l' : ListenerStatus) (h : validateListener l = .ok l') :
    l'.ALBAttachments = l.ALBAttachments := by
  unfold validateListener at h
  cases hatt : l.ALBAttachments with
  | nil => simp [hatt] at h
  | cons base rest =>
    simp only [hatt] at h
    cases hc : checkAttachments l base (copySortSlice base.Hosts)
        (copySortSlice base.PathPatterns) 1 rest with
    | ok u =>
      simp only [hc, Outcome.ok.injEq] at h
      subst h
      rfl
    | error e => simp [hc] at h
    | panic q => simp [hc] at h

theorem attachmentsAt_validateAll :
    ∀ (ord : List String) (m m' : ListenerStatuses), validateAll ord m = .ok m' →
      ∀ k, attachmentsAt m' k = attachmentsAt m k := by
  intro ord
  induction ord with
  | nil =>
    intro m m' h k
    simp only [validateAll, Outcome.ok.injEq] at h
    subst h
    rfl
  | cons x rest ih =>
    intro m m' h k
    unfold validateAll at h
    cases hl : lookupStatus m x with
    | none =>
      simp only [hl] at h
      exact ih m m' h k
    | some l =>
      simp only [hl] at h
      cases hv : validateListener l with
      | ok l1 =>
        simp only [hv] at h
        rw [ih _ m' h k]
        apply attachmentsAt_updateStatus
        intro l0 h0
        rw [hl] at h0
        cases h0
        exact validateListener_attachments _ l1 hv
      | error e => simp [hv] at h
      | panic q => simp [hv] at h

theorem applyRule_attachments {σ : Type} (svc : Elbv2 σ) (arn : String) (l l' : ListenerStatus)
    (before : Option Rule) (w w' : World σ) (h : applyRule svc arn l before w = (.ok l', w')) :
    l'.ALBAttachments = l.ALBAttachments := by
  unfold applyRule at h
  split at h
  · dsimp only at h
    split at h
    · simp at h
    · simp at h
    · simp only [Prod.mk.injEq, Outcome.ok.injEq] at h
      rw [← h.1]
  · dsimp only at h
    split at h
    · simp at h
    · simp at h
    · simp only [Prod.mk.injEq, Outcome.ok.injEq] at h
      rw [← h.1]
  · simp only [Prod.mk.injEq, Outcome.ok.injEq] at h
    rw [← h.1]

theorem reconcileListener_attachments {σ : Type} (svc : Elbv2 σ) (cluster : Cluster)
    (oldId newId arn : String) (l l' : ListenerStatus) (w w' : World σ)
    (h : reconcileListener svc cluster oldId newId arn l w = (.ok l', w')) :
    l'.ALBAttachments = l.ALBAttachments := by
  unfold reconcileListener at h
  split at h
  · simp at h
  · cases hatt : l.ALBAttachments with
    | nil => simp [hatt] at h
    | cons a tl =>
      simp only [hatt] at h
      rcases h1 : resolveCurrentTG svc a oldId l w with ⟨o1, w1⟩
      cases o1 with
      | error e => simp [h1, andThen] at h
      | panic q => simp [h1, andThen] at h
      | ok l1 =>
        simp only [h1, andThen] at h
        rcases h2 : createDesiredTG svc cluster a newId l1 w1 with ⟨o2, w2⟩
        cases o2 with
        | error e => simp [h2] at h
        | panic q => simp [h2] at h
        | ok l2 =>
          simp only [h2] at h
          rcases h3 : chooseRule svc arn l2 w2 with ⟨o3, w3⟩
          cases o3 with
          | error e => simp [h3] at h
          | panic q => simp [h3] at h
          | ok before =>
            simp only [h3] at h
            rw [applyRule_attachments svc arn l2 l' before w3 w' h,
              (createDesiredTG_ok svc cluster a newId l1 l2 w1 w2 h2).2.2.2.2.2.1,
              (resolveCurrentTG_ok svc a oldId l l1 w w1 h1).2.2.2.2.2.1, hatt]

theorem attachmentsAt_reconcileAll {σ : Type} (svc : Elbv2 σ) (cluster : Cluster)
    (oldId newId : String) :
    ∀ (ord : List String) (m m' : ListenerStatuses) (w w' : World σ),
      reconcileAll svc cluster oldId newId ord m w = (.ok m', w') →
      ∀ k, attachmentsAt m' k = attachmentsAt m k := by
  intro ord
  induction ord with
  | nil =>
    intro m m' w w' h k
    simp only [reconcileAll, Prod.mk.injEq, Outcome.ok.injEq] at h
    rw [← h.1]
  | cons x rest ih =>
    intro m m' w w' h k
    unfold reconcileAll at h
    cases hl : lookupStatus m x with
    | none =>
      simp only [hl] at h
      exact ih m m' w w' h k
    | some l =>
      simp only [hl] at h
      rcases hr : reconcileListener svc cluster oldId newId x l w with ⟨o, w1⟩
      cases o with
      | ok l1 =>
        simp only [hr, andThen] at h
        rw [ih _ m' w1 w' h k]
        apply attachmentsAt_updateStatus
        intro l0 h0
        rw [hl] at h0
        cases h0
        exact reconcileListener_attachments svc cluster oldId newId x _ l1 w w1 hr
      | error e => simp [hr, andThen] at h
      | panic q => simp [hr, andThen] at h

theorem attachmentsAt_groupAttachments (as : List ALBAttachment) (k : String) :
    attachmentsAt (groupAttachments as) k =
      if attachmentsOf as k = [] then none else some (attachmentsOf as k) := by
  unfold attachmentsAt
  rw [lookupStatus_groupAttachments]
  split <;> rfl

/-- Where the planner ends normally, the status of each listener holds the
attachments of the cluster bound to that listener, in their order. -/
theorem planListenerChanges_attachments {σ : Type} (svc : Elbv2 σ) (cluster : Cluster)
    (oldId newId : String) (ordA ordV ordR : List String) (w w' : World σ)
    (m : ListenerStatuses)
    (h : planListenerChanges svc cluster oldId newId ordA ordV ordR w = (.ok m, w')) (k : String) :
    attachmentsAt m k =
      if attachmentsOf cluster.ALBAttachments k = [] then none
      else some (attachmentsOf cluster.ALBAttachments k) := by
  unfold planListenerChanges at h
  by_cases hv : cluster.VPCID = ""
  · rw [if_pos hv] at h
    cases h
  · rw [if_neg hv] at h
    cases hd : svc.DescribeListeners w.st ordA with
    | error e => simp [hd] at h
    | ok ls =>
      simp only [hd] at h
      cases ha : attachListeners ls (groupAttachments cluster.ALBAttachments) with
      | error e => simp [ha] at h
      | panic q => simp [ha] at h
      | ok m1 =>
        simp only [ha] at h
        cases hval : validateAll ordV m1 with
        | error e => simp [hval] at h
        | panic q => simp [hval] at h
        | ok m2 =>
          simp only [hval] at h
          rw [attachmentsAt_reconcileAll svc cluster oldId newId ordR m2 m w w' h k,
            attachmentsAt_validateAll ordV m1 m2 hval k,
            attachmentsAt_attachListeners ls _ m1 ha k, attachmentsAt_groupAttachments]

/-! ### More than one attachment on a listener -/

/-- C12 fails as stated with two listeners: the second listener has two
identical attachments, which pass the validation, and the planner returns the
error about the number of attachments only after it has created the target
group and the rule of the first listener. -/
theorem C12_counterexample :
    ¬ Differ apiAttachment apiAttachment ∧
      planSummary (planListenerChanges simpleAlb twiceBound "" "v2" bothListeners bothListeners
          bothListeners remoteWorld) =
        (.error .onlyOneAttachment, ["CreateTargetGroup", "CreateTags", "CreateRule"]) := by
  decide

/-- C12 as amended: when the planner, having validated every listener and
reconciled the listeners `pre`, reaches a listener to which the cluster binds
more than one attachment, it returns the error about the number of attachments
and the state and trace are those left by the listeners `pre`: no call has been
issued for that listener, and none at all when it is the first one reconciled. -/
theorem C12_multiple_attachments_rejected {σ : Type} (svc : Elbv2 σ) (cluster : Cluster)
    (oldId newId : String) (ordA ordV pre rest : List String) (arn : String)
    (w w' : World σ) (mpre : ListenerStatuses)
    (hpre : planListenerChanges svc cluster oldId newId ordA ordV pre w = (.ok mpre, w'))
    (hmany : 1 < (attachmentsOf cluster.ALBAttachments arn).length) :
    planListenerChanges svc cluster oldId newId ordA ordV (pre ++ arn :: rest) w =
        (.error .onlyOneAttachment, w') ∧
      (pre = [] → w' = w) := by
  have hat := planListenerChanges_attachments svc cluster oldId newId ordA ordV pre w w' mpre
    hpre arn
  have hne : attachmentsOf cluster.ALBAttachments arn ≠ [] := by
    intro h0
    rw [h0] at hmany
    simp at hmany
  rw [if_neg hne] at hat
  obtain ⟨l, hl, hatt⟩ : ∃ l, lookupStatus mpre arn = some l ∧
      l.ALBAttachments = attachmentsOf cluster.ALBAttachments arn := by
    unfold attachmentsAt at hat
    cases hl : lookupStatus mpre arn with
    | none => simp [hl] at hat
    | some l =>
      simp only [hl, Option.map_some', Option.some.injEq] at hat
      exact ⟨l, rfl, hat⟩
  have hbody : reconcileListener svc cluster oldId newId arn l w' =
      (.error .onlyOneAttachment, w') := by
    unfold reconcileListener
    rw [if_pos (by rw [hatt]; exact hmany)]
  unfold planListenerChanges at hpre ⊢
  by_cases hv : cluster.VPCID = ""
  · rw [if_pos hv] at hpre
    cases hpre
  · rw [if_neg hv] at hpre ⊢
    cases hd : svc.DescribeListeners w.st ordA with
    | error e => simp [hd] at hpre
    | ok ls =>
      simp only [hd] at hpre ⊢
      cases ha : attachListeners ls (groupAttachments cluster.ALBAttachments) with
      | error e => simp [ha] at hpre
      | panic q => simp [ha] at hpre
      | ok m1 =>
        simp only [ha] at hpre ⊢
        cases hval : validateAll ordV m1 with
        | error e => simp [hval] at hpre
        | panic q => simp [hval] at hpre
        | ok m2 =>
          simp only [hval] at hpre ⊢
          constructor
          · rw [reconcileAll_append svc cluster oldId newId pre (arn :: rest) m2 mpre w w' hpre]
            simp only [reconcileAll, hl, hbody, andThen]
          · intro hnil
            subst hnil
            simp only [reconcileAll, Prod.mk.injEq, Outcome.ok.injEq] at hpre
            exact hpre.2.symm

theorem C12_multiple_attachments_rejected_witness :
    planListenerChanges simpleAlb twiceBound "" "v2" bothListeners bothListeners
        ["arn:listener/2", "arn:listener/1"] remoteWorld =
      (.error .onlyOneAttachment, remoteWorld) :=
  (C12_multiple_attachments_rejected simpleAlb twiceBound "" "v2" bothListeners bothListeners
    [] ["arn:listener/1"] "arn:listener/2" remoteWorld remoteWorld _ rfl (by decide)).1

/-! ### The creation of the desired target group -/

/-- The planner on the order `pre ++ rest`, when it ends normally on `pre`:
the reconciliation loop goes on over `rest` from the statuses and the world
left by `pre`. -/
theorem planListenerChanges_append {σ : Type} (svc : Elbv2 σ) (cluster : Cluster)
    (oldId newId : String) (ordA ordV pre rest : List String) (w w' : World σ)
    (mpre : ListenerStatuses)
    (hpre : planListenerChanges svc cluster oldId newId ordA ordV pre w = (.ok mpre, w')) :
    planListenerChanges svc cluster oldId newId ordA ordV (pre ++ rest) w =
      reconcileAll svc cluster oldId newId rest mpre w' := by
  unfold planListenerChanges at hpre ⊢
  by_cases hv : cluster.VPCID = ""
  · rw [if_pos hv] at hpre
    cases hpre
  · rw [if_neg hv] at hpre ⊢
    cases hd : svc.DescribeListeners w.st ordA with
    | error e => simp [hd] at hpre
    | ok ls =>
      simp only [hd] at hpre ⊢
      cases ha : attachListeners ls (groupAttachments cluster.ALBAttachments) with
      | error e => simp [ha] at hpre
      | panic q => simp [ha] at hpre
      | ok m1 =>
        simp only [ha] at hpre ⊢
        cases hval : validateAll ordV m1 with
        | error e => simp [hval] at hpre
        | panic q => simp [hval] at hpre
        | ok m2 =>
          simp only [hval] at hpre ⊢
          exact reconcileAll_append svc cluster oldId newId pre rest m2 mpre w w' hpre

theorem applyRule_trace {σ : Type} (svc : Elbv2 σ) (arn : String) (l : ListenerStatus)
    (before : Option Rule) (w : World σ) :
    ∃ δ, (applyRule svc arn l before w).2.trace = w.trace ++ δ := by
  unfold applyRule
  split
  · simp only
    split
    · exact ⟨[_], rfl⟩
    · exact ⟨[_], rfl⟩
    · exact ⟨[_], rfl⟩
  · simp only
    split
    · exact ⟨[_], rfl⟩
    · exact ⟨[_], rfl⟩
    · exact ⟨[_], rfl⟩
  · exact ⟨[], by simp⟩

/-- The node-port guard in the loop body: with a single attachment without a
node port and a non-empty desired version, the body returns an error and has
issued no state-changing call, unless the lookup of the current group answers
with an empty list. -/
theorem reconcileListener_nodePortOmitted {σ : Type} (svc : Elbv2 σ) (cluster : Cluster)
    (oldId newId arn : String) (l : ListenerStatus) (a : ALBAttachment) (w : World σ)
    (hatt : l.ALBAttachments = [a]) (hnew : newId ≠ "") (hport : a.NodePort = 0)
    (hcur : oldId = "" ∨ svc.DescribeTargetGroups w.st [targetGroupName a oldId] ≠ .ok []) :
    ∃ e, reconcileListener svc cluster oldId newId arn l w = (.error e, w) := by
  have hcreate : ∀ l1, ∃ e, createDesiredTG svc cluster a newId l1 w = (.error e, w) := by
    intro l1
    unfold createDesiredTG
    rw [if_pos hnew]
    by_cases hlen : (targetGroupName a newId).utf8ByteSize > 32
    · rw [if_pos hlen]
      exact ⟨_, rfl⟩
    · rw [if_neg hlen, if_neg (by simp [hport])]
      exact ⟨_, rfl⟩
  unfold reconcileListener
  simp only [hatt, List.length_singleton, gt_iff_lt, lt_self_iff_false, if_false]
  unfold resolveCurrentTG
  by_cases hold : oldId = ""
  · obtain ⟨e, he⟩ := hcreate l
    simp only [hold, ne_eq, not_true_eq_false, if_false, andThen, he]
    exact ⟨_, rfl⟩
  · simp only [ne_eq, hold, not_false_eq_true, if_true]
    have hne : svc.DescribeTargetGroups w.st [targetGroupName a oldId] ≠ .ok [] := by
      rcases hcur with h | h
      · exact absurd h hold
      · exact h
    cases hd : svc.DescribeTargetGroups w.st [targetGroupName a oldId] with
    | error e => exact ⟨_, rfl⟩
    | ok tgs =>
      cases tgs with
      | nil => exact absurd hd hne
      | cons tg tgs =>
        obtain ⟨e, he⟩ := hcreate { l with CurrentTG := some tg }
        simp only [andThen, he]
        exact ⟨_, rfl⟩

theorem andThen_trace {σ α β : Type} (r : Outcome α × World σ)
    (k : α → World σ → Outcome β × World σ)
    (hk : ∀ v w1, ∃ δ, (k v w1).2.trace = w1.trace ++ δ) :
    ∃ δ, (andThen r k).2.trace = r.2.trace ++ δ := by
  obtain ⟨o, w⟩ := r
  cases o with
  | ok v => exact hk v w
  | error e => exact ⟨[], by simp [andThen]⟩
  | panic q => exact ⟨[], by simp [andThen]⟩

theorem createDesiredTG_createFirst {σ : Type} (svc : Elbv2 σ) (cluster : Cluster)
    (a : ALBAttachment) (newId : String) (l1 : ListenerStatus) (w : World σ)
    (hnew : newId ≠ "") (hlen : ¬ 32 < (targetGroupName a newId).utf8ByteSize)
    (hport : a.NodePort ≠ 0) :
    ∃ δ, (createDesiredTG svc cluster a newId l1 w).2.trace =
      w.trace ++ Call.CreateTargetGroup (createTgInput cluster a newId) :: δ := by
  unfold createDesiredTG
  simp only [ne_eq, hnew, not_false_eq_true, if_true, gt_iff_lt, hlen, if_false, hport]
  cases hc : (svc.CreateTargetGroup w.st (createTgInput cluster a newId)).1 with
  | error e => exact ⟨[], by simp⟩
  | ok created =>
    cases created with
    | nil => exact ⟨[Call.CreateTags (createTagsInput cluster a)], by simp⟩
    | cons tg tgs => exact ⟨[Call.CreateTags (createTagsInput cluster a)], by simp⟩

/-- The creation request in the loop body: with a single attachment that has a
node port, a desired version whose name fits in 32 bytes and a current group
that was found (or no current version), the first state-changing call of the
body is `CreateTargetGroup` with the request `createTgInput`. -/
theorem reconcileListener_createFirst {σ : Type} (svc : Elbv2 σ) (cluster : Cluster)
    (oldId newId arn : String) (l : ListenerStatus) (a : ALBAttachment) (w : World σ)
    (hatt : l.ALBAttachments = [a]) (hnew : newId ≠ "")
    (hlen : ¬ 32 < (targetGroupName a newId).utf8ByteSize) (hport : a.NodePort ≠ 0)
    (hcur : oldId = "" ∨
      ∃ tg tgs, svc.DescribeTargetGroups w.st [targetGroupName a oldId] = .ok (tg :: tgs)) :
    ∃ δ, (reconcileListener svc cluster oldId newId arn l w).2.trace =
      w.trace ++ Call.CreateTargetGroup (createTgInput cluster a newId) :: δ := by
  have hres : ∃ l1, resolveCurrentTG svc a oldId l w = (.ok l1, w) := by
    unfold resolveCurrentTG
    by_cases hold : oldId = ""
    · exact ⟨l, by simp [hold]⟩
    · rcases hcur with h | ⟨tg, tgs, h⟩
      · exact absurd h hold
      · exact ⟨{ l with CurrentTG := some tg }, by simp [hold, h]⟩
  obtain ⟨l1, hl1⟩ := hres
  obtain ⟨δ1, hδ1⟩ := createDesiredTG_createFirst svc cluster a newId l1 w hnew hlen hport
  obtain ⟨δ2, hδ2⟩ := andThen_trace (createDesiredTG svc cluster a newId l1 w)
    (fun l2 w2 => andThen (chooseRule svc arn l2 w2) fun before w3 =>
      applyRule svc arn l2 before w3)
    (by
      intro l2 w2
      obtain ⟨δ, hδ⟩ := andThen_trace (chooseRule svc arn l2 w2)
        (fun before w3 => applyRule svc arn l2 before w3)
        (fun before w3 => applyRule_trace svc arn l2 before w3)
      rw [chooseRule_world] at hδ
      exact ⟨δ, hδ⟩)
  refine ⟨δ1 ++ δ2, ?_⟩
  unfold reconcileListener
  simp only [hatt, List.length_singleton, gt_iff_lt, lt_self_iff_false, if_false, hl1]
  show (andThen (createDesiredTG svc cluster a newId l1 w) _).2.trace = _
  rw [hδ2, hδ1]
  simp

/-- C13: the planner has validated every listener and reconciled the listeners
`pre`, and reaches a listener to which the cluster binds the single attachment
`a`, with a non-empty desired version. When `a` has no node port (and the
lookup of the current group does not answer with an empty list) the planner
returns an error and the state and trace are those left by `pre`: no
`CreateTargetGroup` was issued for the listener. When `a` has a node port, its
derived name fits in 32 bytes and the current group was found (or there is no
current version), the first call issued for the listener is `CreateTargetGroup`
with the derived name, the port of `a`, the target type `instance`, the VPC id
of the cluster and the protocol of `a` in upper case. -/
theorem C13_node_port_guard {σ : Type} (svc : Elbv2 σ) (cluster : Cluster)
    (oldId newId : String) (ordA ordV pre rest : List String) (arn : String)
    (w w' : World σ) (mpre : ListenerStatuses) (a : ALBAttachment)
    (hpre : planListenerChanges svc cluster oldId newId ordA ordV pre w = (.ok mpre, w'))
    (hatt : attachmentsOf cluster.ALBAttachments arn = [a]) (hnew : newId ≠ "") :
    (a.NodePort = 0 →
        (oldId = "" ∨ svc.DescribeTargetGroups w'.st [targetGroupName a oldId] ≠ .ok []) →
        ∃ e, planListenerChanges svc cluster oldId newId ordA ordV (pre ++ arn :: rest) w =
          (.error e, w')) ∧
      (a.NodePort ≠ 0 → ¬ 32 < (targetGroupName a newId).utf8ByteSize →
        (oldId = "" ∨ ∃ tg tgs,
          svc.DescribeTargetGroups w'.st [targetGroupName a oldId] = .ok (tg :: tgs)) →
        ∃ δ,
          (planListenerChanges svc cluster oldId newId ordA ordV (pre ++ arn :: rest) w).2.trace =
            w'.trace ++ Call.CreateTargetGroup
              { Name := some (a.NodeGroupName ++ "-" ++ toString a.NodePort ++ "-" ++ newId),
                Port := some a.NodePort, TargetType := some "instance",
                VpcId := some cluster.VPCID, Protocol := some (toUpper a.Protocol) } :: δ) := by
  have hat := planListenerChanges_attachments svc cluster oldId newId ordA ordV pre w w' mpre
    hpre arn
  rw [hatt, if_neg (by simp)] at hat
  obtain ⟨l, hl, hla⟩ : ∃ l, lookupStatus mpre arn = some l ∧ l.ALBAttachments = [a] := by
    unfold attachmentsAt at hat
    cases hl : lookupStatus mpre arn with
    | none => simp [hl] at hat
    | some l =>
      simp only [hl, Option.map_some', Option.some.injEq] at hat
      exact ⟨l, rfl, hat⟩
  rw [planListenerChanges_append svc cluster oldId newId ordA ordV pre (arn :: rest) w w' mpre
    hpre]
  constructor
  · intro hport hcur
    obtain ⟨e, he⟩ := reconcileListener_nodePortOmitted svc cluster oldId newId arn l a w'
      hla hnew hport hcur
    exact ⟨e, by simp only [reconcileAll, hl, he, andThen]⟩
  · intro hport hlen hcur
    obtain ⟨δ1, hδ1⟩ := reconcileListener_createFirst svc cluster oldId newId arn l a w'
      hla hnew hlen hport hcur
    obtain ⟨δ2, hδ2⟩ := andThen_trace (reconcileListener svc cluster oldId newId arn l w')
      (fun l' w1 => reconcileAll svc cluster oldId newId rest
        (updateStatus mpre arn (fun _ => l')) w1)
      (fun l' w1 => reconcileAll_trace svc cluster oldId newId rest _ w1)
    refine ⟨δ1 ++ δ2, ?_⟩
    simp only [reconcileAll, hl]
    rw [hδ2, hδ1]
    simp [createTgInput, targetGroupName]

theorem C13_node_port_guard_witness :
    (∃ e, planListenerChanges simpleAlb (clusterOf [portlessAttachment]) "" "v2" justFirst
        justFirst justFirst remoteWorld = (.error e, remoteWorld)) ∧
      ∃ δ, (planListenerChanges simpleAlb (clusterOf [webAttachment]) "v1" "v2" justFirst
          justFirst justFirst remoteWorld).2.trace =
        remoteWorld.trace ++ Call.CreateTargetGroup
          { Name := some "web-80-v2", Port := some 80, TargetType := some "instance",
            VpcId := some "vpc-1", Protocol := some "HTTP" } :: δ :=
  ⟨(C13_node_port_guard simpleAlb (clusterOf [portlessAttachment]) "" "v2" justFirst justFirst
      [] [] "arn:listener/1" remoteWorld remoteWorld _ portlessAttachment rfl (by decide)
      (by decide)).1 rfl (Or.inl rfl),
    (C13_node_port_guard simpleAlb (clusterOf [webAttachment]) "v1" "v2" justFirst justFirst
      [] [] "arn:listener/1" remoteWorld remoteWorld _ webAttachment rfl (by decide)
      (by decide)).2 (by decide) (by decide) (Or.inr ⟨currentV1, [], rfl⟩)⟩

/-! ### The range of the weights written -/

/-- C17, at the step `math.MaxInt64`: the run ends normally after four rewrites
and never takes the branch `p > 100`, but `p += step` has wrapped: the second
and the third rewrite carry the desired weights -2^63 and -1 with the current
weights 100 - 2^63 and 101, outside the ranges 1..100 and 0..99. -/
theorem C17_maxInt_step_weights_out_of_range :
    ∃ w, graduallyShiftTraffic acceptAll oneListener maxStepOpts 100 startWorld =
        some (.ok (), w) ∧
      w.trace.length = 4 ∧
      w.trace.map desiredWeight = [some 1, some (-(2 ^ 63)), some (-1), some 100] ∧
      w.trace.map currentWeight = [some 99, some (100 - 2 ^ 63), some 101, some 0] ∧
      w.trace.map weightsInRange = [true, false, false, true] := by
  refine ⟨_, rfl, by decide, by decide, by decide, by decide⟩

/-! ### The router built for the DNS rollout -/

theorem destinationOf_configured (item : Value) (p : String × Int) (h : ConfiguredAs item p) :
    destinationOf item = .ok (destinationOfPair p) := by
  obtain ⟨m, rfl, h1, h2⟩ := h
  simp only [destinationOf, h1, h2, destinationOfPair]

theorem destinationsLoop_configured (items : List Value) (pairs : List (String × Int))
    (h : List.Forall₂ ConfiguredAs items pairs) :
    ∀ acc, destinationsLoop items acc = .ok (acc ++ pairs.map destinationOfPair) := by
  induction h with
  | nil =>
    intro acc
    simp [destinationsLoop]
  | cons hp _ ih =>
    intro acc
    simp only [destinationsLoop, destinationOf_configured _ _ hp, ih, List.map_cons,
      List.append_assoc, List.singleton_append]

/-- C16: for a record whose session, endpoint, zone, name, metrics and
destination items are well-formed. When `step_interval` is absent or parses and
`step_weight` is absent or an int, the two tasks are started with a router
whose interval is one second, respectively the parsed duration, whose step
weight is 50, respectively the configured int, and whose destinations are the
configured pairs in their order. When `step_interval` is a string that does not
parse, the function returns the parse error and has started no task. -/
theorem C16_router_configuration {μ : Type} (env : Route53Env μ) (d : Getter)
    (zone name : String) (endpoint : Option String) (metrics : μ) (pairs : List (String × Int))
    (hsess : AWSSessionFromResourceData env d = .ok ())
    (haddr : d "address" = endpoint.map Value.str)
    (hzone : d "zone_id" = some (.str zone))
    (hhz : env.GetHostedZone endpoint zone = none)
    (hname : d "name" = some (.str name))
    (hmet : env.ReadMetrics d = .ok metrics)
    (hdest : (d "destination" = none ∧ pairs = []) ∨
      ∃ items, d "destination" = some (.list items) ∧ List.Forall₂ ConfiguredAs items pairs) :
    (∀ interval step : Int,
        ((d "step_interval" = none ∧ interval = 1000000000) ∨
          ∃ v, d "step_interval" = some (.str v) ∧ env.ParseDuration v = .ok interval) →
        ((d "step_weight" = none ∧ step = 50) ∨ d "step_weight" = some (.int step)) →
        (CreateOrUpdateCourierRoute53Record env d).2 =
          [.shifter { RecordName := name, HostedZoneID := zone,
                      Destinations := pairs.map destinationOfPair,
                      CanaryAdvancementInterval := interval, CanaryAdvancementStep := step },
           .watchdog { region := (env.GetAWSRegionAndProfile d).1,
                       profile := (env.GetAWSRegionAndProfile d).2,
                       assumeRoleConfig := env.GetAssumeRoleConfig d, metrics := metrics }]) ∧
      (∀ v err, d "step_interval" = some (.str v) → env.ParseDuration v = .error err →
        CreateOrUpdateCourierRoute53Record env d = (.error (.parsingStepInterval v err), [])) := by
  have hend : getEndpoint d = .ok endpoint := by
    unfold getEndpoint
    cases endpoint with
    | none => simp only [Option.map_none'] at haddr; rw [haddr]
    | some s => simp only [Option.map_some'] at haddr; rw [haddr]
  have hz : getString d "zone_id" = .ok zone := by
    unfold getString
    rw [hzone]
  have hn : getString d "name" = .ok name := by
    unfold getString
    rw [hname]
  have hh : getHostedZone env endpoint zone = .ok () := by
    unfold getHostedZone
    rw [hhz]
  have hm : readMetrics env d = .ok metrics := by
    unfold readMetrics
    rw [hmet]
  have hds : getDestinations d = .ok (pairs.map destinationOfPair) := by
    unfold getDestinations
    rcases hdest with ⟨h1, h2⟩ | ⟨items, h1, h2⟩
    · rw [h1, h2]
      rfl
    · rw [h1]
      simp only [destinationsLoop_configured items pairs h2, List.nil_append]
  constructor
  · intro interval step hint hstep
    have hi : getStepInterval env d = .ok interval := by
      unfold getStepInterval
      rcases hint with ⟨h1, h2⟩ | ⟨v, h1, h2⟩
      · rw [h1, h2]
        rfl
      · rw [h1]
        simp only [h2]
    have hs : getStepWeight d = .ok step := by
      unfold getStepWeight
      rcases hstep with ⟨h1, h2⟩ | h1
      · rw [h1, h2]
      · rw [h1]
    simp only [CreateOrUpdateCourierRoute53Record, buildRouter, hsess, hend, hz, hh, hn, hm, hds,
      hi, hs, CourierOutcome.bind]
  · intro v err hv herr
    have hi : getStepInterval env d = .error (.parsingStepInterval v err) := by
      unfold getStepInterval
      rw [hv]
      simp only [herr]
    simp only [CreateOrUpdateCourierRoute53Record, buildRouter, hsess, hend, hz, hh, hn, hm, hds,
      hi, CourierOutcome.bind]

theorem sampleRecord_destinations :
    List.Forall₂ ConfiguredAs
      [.map [("set_identifier", .str "blue"), ("weight", .int 100)],
       .map [("weight", .int 0), ("set_identifier", .str "green")]]
      [("blue", 100), ("green", 0)] :=
  .cons ⟨_, rfl, rfl, rfl⟩ (.cons ⟨_, rfl, rfl, rfl⟩ .nil)

theorem C16_router_configuration_witness :
    (CreateOrUpdateCourierRoute53Record sampleEnv sampleRecord).2 =
        [.shifter { RecordName := "www.example.com", HostedZoneID := "Z1",
                    Destinations := [{ SetIdentifier := "blue", Weight := 100 },
                                     { SetIdentifier := "green", Weight := 0 }],
                    CanaryAdvancementInterval := 1000000000, CanaryAdvancementStep := 50 },
         .watchdog { region := "us-east-1", profile := "default", assumeRoleConfig := none,
                     metrics := [] }] ∧
      (CreateOrUpdateCourierRoute53Record sampleEnv steppedRecord).2 =
        [.shifter { RecordName := "www.example.com", HostedZoneID := "Z1",
                    Destinations := [{ SetIdentifier := "blue", Weight := 100 },
                                     { SetIdentifier := "green", Weight := 0 }],
                    CanaryAdvancementInterval := 5000000000, CanaryAdvancementStep := 20 },
         .watchdog { region := "us-east-1", profile := "default", assumeRoleConfig := none,
                     metrics := [] }] ∧
      CreateOrUpdateCourierRoute53Record sampleEnv badIntervalRecord =
        (.error (.parsingStepInterval "soon" "time: invalid duration"), []) :=
  ⟨(C16_router_configuration sampleEnv sampleRecord "Z1" "www.example.com" none []
      [("blue", 100), ("green", 0)] rfl rfl rfl rfl rfl rfl
      (Or.inr ⟨_, rfl, sampleRecord_destinations⟩)).1 1000000000 50 (Or.inl ⟨rfl, rfl⟩)
      (Or.inl ⟨rfl, rfl⟩),
    (C16_router_configuration sampleEnv steppedRecord "Z1" "www.example.com" none []
      [("blue", 100), ("green", 0)] rfl rfl rfl rfl rfl rfl
      (Or.inr ⟨_, rfl, sampleRecord_destinations⟩)).1 5000000000 20 (Or.inr ⟨"5s", rfl, rfl⟩)
      (Or.inr rfl),
    (C16_router_configuration sampleEnv badIntervalRecord "Z1" "www.example.com" none []
      [("blue", 100), ("green", 0)] rfl rfl rfl rfl rfl rfl
      (Or.inr ⟨_, rfl, sampleRecord_destinations⟩)).2 "soon" "time: invalid duration" rfl rfl⟩

/-! ### Cancellation and the load-balancer shifter -/

theorem suppressAfter_neverCancelled (ps : List Int) :
    ∀ k, suppressAfter neverCancelled k ps = ps := by
  induction ps with
  | nil => intro k; rfl
  | cons p rest ih =>
    intro k
    have hk : suppressAfter neverCancelled (k + 1) rest = rest := ih (k + 1)
    simp only [suppressAfter, neverCancelled] at hk ⊢
    simp [hk]

theorem specShiftWeights_neverCancelled (s : Int) :
    specShiftWeights neverCancelled s = stepWeights s ++ [100] :=
  suppressAfter_neverCancelled _ 0

/-- C15 fails for `graduallyShiftTraffic`: with a step of 25 and a wait of five
seconds, a shifter that honours a cancellation arriving once weight 1 is
applied writes the weight 1 only, whereas `graduallyShiftTraffic`, which takes
the cluster set and the options but no cancellation scope, sleeps and goes on:
it writes 1, 26, 51, 76 and 100. -/
theorem C15_counterexample :
    specShiftWeights cancelledAfterFirst (effectiveStep waitingOpts) = [1] ∧
      ∃ w, graduallyShiftTraffic acceptAll oneListener waitingOpts 100 startWorld =
          some (.ok (), w) ∧
        w.trace.filterMap desiredWeight = [1, 26, 51, 76, 100] := by
  refine ⟨by decide, _, rfl, by decide⟩

/-- C15 as amended, for the load-balancer shifter: `graduallyShiftTraffic` has
no cancellation scope among its inputs. Once the listeners visited before it
have been shifted, a ready listener receives, as long as every rewrite succeeds
and the step is below the largest `int`, the rewrites that the shifter of the
specification issues under a scope that is never cancelled: every stepped
weight and the final 100, none of them suppressed. -/
theorem C15_shift_runs_to_completion {σ : Type} (svc : Elbv2 σ)
    (hok : ModifyRuleSucceeds svc) (opts : CanaryOpts)
    (hstep : effectiveStep opts < 2 ^ 63 - 1) (fuel : Nat) (hfuel : 99 ≤ fuel)
    (cluster : Cluster) (pre : ListenerStatuses) (key : String) (l : ListenerStatus)
    (d c : TargetGroup) (r : Rule) (hd : l.DesiredTG = some d) (hc : l.CurrentTG = some c)
    (hr : l.Rule = some r) (hact : r.Actions.length = 1) (w w1 : World σ)
    (hpre : graduallyShiftTraffic svc { Cluster := cluster, ListenerStatuses := pre } opts fuel w =
      some (.ok (), w1)) :
    ∃ w2, graduallyShiftTraffic svc
          { Cluster := cluster, ListenerStatuses := pre ++ [(key, l)] } opts fuel w =
        some (.ok (), w2) ∧
      w2.trace = w1.trace ++
        (specShiftWeights neverCancelled (effectiveStep opts)).map
          (fun p => Call.ModifyRule (shiftInput d c r p)) := by
  obtain ⟨w2, hw2, ht2⟩ := shiftListener_noWrap svc hok opts hstep l d c r hd hc hr hact fuel
    hfuel w1
  refine ⟨w2, ?_, ?_⟩
  · unfold graduallyShiftTraffic at hpre ⊢
    simp only at hpre ⊢
    rw [shiftAll_append svc opts fuel pre _ w w1 hpre]
    simp only [shiftAll, hw2]
  · rw [ht2, specShiftWeights_neverCancelled]

theorem C15_shift_runs_to_completion_witness :
    ∃ w2, graduallyShiftTraffic acceptAll
          { Cluster := sampleCluster, ListenerStatuses := [] ++ [("arn:listener/1", readyStatus)] }
          waitingOpts 100 startWorld =
        some (.ok (), w2) ∧
      w2.trace = startWorld.trace ++
        (specShiftWeights neverCancelled (effectiveStep waitingOpts)).map
          (fun p => Call.ModifyRule
            (shiftInput desiredV2 currentV1 (ruleWith [forwardToCurrent]) p)) :=
  C15_shift_runs_to_completion acceptAll (fun _ _ => ⟨[], rfl⟩) waitingOpts (by decide) 100
    (by decide) sampleCluster [] "arn:listener/1" readyStatus desiredV2 currentV1
    (ruleWith [forwardToCurrent]) rfl rfl rfl rfl startWorld startWorld rfl

/-! ### Termination of the stepping loop and the weights it writes -/

theorem weightsInRange_shiftInput (d c : TargetGroup) (r : Rule) (p : Int) (h1 : 1 ≤ p)
    (h2 : p ≤ 100) : weightsInRange (Call.ModifyRule (shiftInput d c r p)) = true := by
  unfold weightsInRange
  rw [desiredWeight_shiftInput, currentWeight_shiftInput d c r p h1 h2]
  simp only [decide_eq_true_eq]
  omega

/-- One call of the closure with `p ≤ 100`: it does not panic, it does not take
the branch `p > 100`, and it issues at most one rewrite, with the weight `p`. -/
theorem setDesired_total {σ : Type} (svc : Elbv2 σ) (l : ListenerStatus) (p : Int)
    (hp : p ≤ 100) (w : World σ) :
    ∃ o w1 δ, setDesiredTGTrafficPercentage svc l p w = (o, w1) ∧ w1.trace = w.trace ++ δ ∧
      (δ = [] ∨ ∃ d c r, δ = [Call.ModifyRule (shiftInput d c r p)]) ∧
      (o = .ok () ∨ ∃ e, o = .error e ∧ ∀ q, e ≠ .invalidP q) := by
  unfold setDesiredTGTrafficPercentage
  rw [if_neg (by omega)]
  cases hd : l.DesiredTG with
  | none =>
    exact ⟨_, w, [], rfl, by simp, Or.inl rfl, Or.inr ⟨_, rfl, by intro q h; cases h⟩⟩
  | some d =>
    cases hc : l.CurrentTG with
    | none =>
      exact ⟨_, w, [], rfl, by simp, Or.inl rfl, Or.inr ⟨_, rfl, by intro q h; cases h⟩⟩
    | some c =>
      cases hr : l.Rule with
      | none =>
        exact ⟨_, w, [], rfl, by simp, Or.inl rfl, Or.inr ⟨_, rfl, by intro q h; cases h⟩⟩
      | some r =>
        simp only
        cases hm : (svc.ModifyRule w.st (shiftInput d c r p)).1 with
        | error e =>
          exact ⟨_, _, [Call.ModifyRule (shiftInput d c r p)], rfl, rfl, Or.inr ⟨d, c, r, rfl⟩,
            Or.inr ⟨_, rfl, by intro q h; cases h⟩⟩
        | ok out =>
          exact ⟨_, _, [Call.ModifyRule (shiftInput d c r p)], rfl, rfl, Or.inr ⟨d, c, r, rfl⟩,
            Or.inl rfl⟩

theorem shiftLoop_done {σ : Type} (svc : Elbv2 σ) (l : ListenerStatus) (s : Int) (fuel : Nat)
    (p : Int) (hp : ¬ p < 100) (w : World σ) : shiftLoop svc l s fuel p w = some (.ok (), w) := by
  cases fuel <;> simp only [shiftLoop, if_neg hp]

theorem shiftLoop_ok_step {σ : Type} (svc : Elbv2 σ) (l : ListenerStatus) (s : Int) (fuel : Nat)
    (p : Int) (hp : p < 100) (w w1 : World σ)
    (h : setDesiredTGTrafficPercentage svc l p w = (.ok (), w1)) :
    shiftLoop svc l s (fuel + 1) p w = shiftLoop svc l s fuel (wrapInt (p + s)) w1 := by
  simp only [shiftLoop, if_pos hp, h]

theorem shiftLoop_error_step {σ : Type} (svc : Elbv2 σ) (l : ListenerStatus) (s : Int)
    (fuel : Nat) (p : Int) (hp : p < 100) (w w1 : World σ) (e : GoError)
    (h : setDesiredTGTrafficPercentage svc l p w = (.error e, w1)) :
    shiftLoop svc l s (fuel + 1) p w = some (.error e, w1) := by
  simp only [shiftLoop, if_pos hp, h]

/-- The stepping loop for a step below the largest `int`, whatever the control
plane answers: entered at `1 + k * s` with enough fuel it ends, without a
panic and without the error of the branch `p > 100`, after at most `99 - k`
rewrites, each with weights in range. -/
theorem shiftLoop_total {σ : Type} (svc : Elbv2 σ) (l : ListenerStatus) (s : Int)
    (hs1 : 1 ≤ s) (hs2 : s < 2 ^ 63 - 1) :
    ∀ (fuel k : Nat) (w : World σ), k ≤ 99 → 99 - k ≤ fuel →
      ∃ o w1 δ, shiftLoop svc l s fuel (1 + (k : Int) * s) w = some (o, w1) ∧
        w1.trace = w.trace ++ δ ∧ δ.length ≤ 99 - k ∧
        (o = .ok () ∨ ∃ e, o = .error e ∧ ∀ q, e ≠ .invalidP q) ∧
        ∀ c ∈ δ, weightsInRange c = true := by
  intro fuel
  induction fuel with
  | zero =>
    intro k w hk hf
    have hk99 : k = 99 := by omega
    have hp : ¬ (1 + (k : Int) * s < 100) := by
      subst hk99
      push_cast
      omega
    exact ⟨_, w, [], shiftLoop_done svc l s 0 _ hp w, by simp, by simp, Or.inl rfl, by simp⟩
  | succ n ih =>
    intro k w hk hf
    by_cases hp : 1 + (k : Int) * s < 100
    · have hk99 : k < 99 := by
        by_contra hcon
        have : k = 99 := by omega
        subst this
        push_cast at hp
        omega
      have hks : 0 ≤ (k : Int) * s := by positivity
      obtain ⟨o, w1, δ1, hrun, ht1, hδ1, ho⟩ := setDesired_total svc l (1 + (k : Int) * s)
        (by omega) w
      have hin : ∀ c ∈ δ1, weightsInRange c = true := by
        intro c hc
        rcases hδ1 with h | ⟨d, cu, r, h⟩
        · rw [h] at hc
          cases hc
        · rw [h, List.mem_singleton] at hc
          rw [hc]
          exact weightsInRange_shiftInput d cu r _ (by omega) (by omega)
      have hlen : δ1.length ≤ 1 := by
        rcases hδ1 with h | ⟨d, cu, r, h⟩ <;> simp [h]
      rcases ho with rfl | ⟨e, rfl, he⟩
      · have hnext : wrapInt (1 + (k : Int) * s + s) = 1 + ((k + 1 : Nat) : Int) * s := by
          have e : 1 + (k : Int) * s + s = 1 + ((k + 1 : Nat) : Int) * s := by push_cast; ring
          rw [← e]
          apply wrapInt_of_inRange
          · omega
          · rcases Nat.eq_zero_or_pos k with h0 | hpos
            · subst h0
              simp
              omega
            · have : s ≤ (k : Int) * s := by
                have hk1 : (1 : Int) ≤ k := by exact_mod_cast hpos
                nlinarith
              omega
        obtain ⟨o2, w2, δ2, hrun2, ht2, hlen2, ho2, hin2⟩ := ih (k + 1) w1 (by omega) (by omega)
        refine ⟨o2, w2, δ1 ++ δ2, ?_, ?_, ?_, ho2, ?_⟩
        · rw [shiftLoop_ok_step svc l s n _ hp w w1 hrun, hnext, hrun2]
        · rw [ht2, ht1, List.append_assoc]
        · rw [List.length_append]
          omega
        · intro c hc
          rcases List.mem_append.mp hc with h | h
          · exact hin c h
          · exact hin2 c h
      · refine ⟨_, w1, δ1, shiftLoop_error_step svc l s n _ hp w w1 e hrun, ht1, by omega,
          Or.inr ⟨e, rfl, he⟩, hin⟩
    · exact ⟨_, w, [], shiftLoop_done svc l s (n + 1) _ hp w, by simp, by simp, Or.inl rfl,
        by simp⟩

/-- One round of the stepping loop at `p < 100`: when the loop entered at the
next `p` ends after at most `n` rewrites, the loop entered at `p` ends after at
most `n + 1`. -/
theorem shiftLoop_round {σ : Type} (svc : Elbv2 σ) (l : ListenerStatus) (s : Int) (fuel : Nat)
    (p : Int) (hp : p < 100) (n : Nat)
    (hnext : ∀ w1 : World σ, ∃ o w2 δ,
      shiftLoop svc l s fuel (wrapInt (p + s)) w1 = some (o, w2) ∧ w2.trace = w1.trace ++ δ ∧
        δ.length ≤ n ∧ (o = .ok () ∨ ∃ e, o = .error e ∧ ∀ q, e ≠ .invalidP q))
    (w : World σ) :
    ∃ o w2 δ, shiftLoop svc l s (fuel + 1) p w = some (o, w2) ∧ w2.trace = w.trace ++ δ ∧
      δ.length ≤ n + 1 ∧ (o = .ok () ∨ ∃ e, o = .error e ∧ ∀ q, e ≠ .invalidP q) := by
  obtain ⟨o, w1, δ1, hrun, ht1, hδ1, ho⟩ := setDesired_total svc l p (by omega) w
  have hlen : δ1.length ≤ 1 := by
    rcases hδ1 with h | ⟨d, cu, r, h⟩ <;> simp [h]
  rcases ho with rfl | ⟨e, rfl, he⟩
  · obtain ⟨o2, w2, δ2, hrun2, ht2, hlen2, ho2⟩ := hnext w1
    refine ⟨o2, w2, δ1 ++ δ2, ?_, ?_, ?_, ho2⟩
    · rw [shiftLoop_ok_step svc l s fuel p hp w w1 hrun, hrun2]
    · rw [ht2, ht1, List.append_assoc]
    · rw [List.length_append]
      omega
  · exact ⟨_, w1, δ1, shiftLoop_error_step svc l s fuel p hp w w1 e hrun, ht1, by omega,
      Or.inr ⟨e, rfl, he⟩⟩

/-- The stepping loop at the largest `int`: `p` takes the values 1, -2^63 and
-1 and the loop ends after at most three rewrites. -/
theorem shiftLoop_maxInt_total {σ : Type} (svc : Elbv2 σ) (l : ListenerStatus) (fuel : Nat)
    (hfuel : 3 ≤ fuel) (w : World σ) :
    ∃ o w1 δ, shiftLoop svc l maxInt fuel 1 w = some (o, w1) ∧ w1.trace = w.trace ++ δ ∧
      δ.length ≤ 3 ∧ (o = .ok () ∨ ∃ e, o = .error e ∧ ∀ q, e ≠ .invalidP q) := by
  obtain ⟨n, rfl⟩ : ∃ n, fuel = n + 3 := ⟨fuel - 3, by omega⟩
  have h1 : wrapInt (1 + maxInt) = -(2 ^ 63) := by decide
  have h2 : wrapInt (-(2 ^ 63) + maxInt) = -1 := by decide
  have h3 : wrapInt (-1 + maxInt) = 2 ^ 63 - 2 := by decide
  apply shiftLoop_round svc l maxInt (n + 2) 1 (by omega) 2
  intro w1
  rw [h1]
  apply shiftLoop_round svc l maxInt (n + 1) (-(2 ^ 63)) (by omega) 1
  intro w2
  rw [h2]
  apply shiftLoop_round svc l maxInt n (-1) (by omega) 0
  intro w3
  rw [h3]
  exact ⟨_, w3, [], shiftLoop_done svc l maxInt n _ (by omega) w3, by simp, by simp, Or.inl rfl⟩

/-- The loop body of `graduallyShiftTraffic` for every value of the step that a
Go `int` can hold, whatever the listener status and whatever the control plane
answers: with fuel 99 it ends, after at most 100 rewrites and without the error
of the branch `p > 100`; and when the step in use is below the largest `int`
every rewrite carries weights in range. -/
theorem shiftListener_total {σ : Type} (svc : Elbv2 σ) (opts : CanaryOpts)
    (hmax : opts.CanaryAdvancementStep ≤ maxInt) (fuel : Nat) (hfuel : 99 ≤ fuel)
    (l : ListenerStatus) (w : World σ) :
    ∃ o w1 δ, shiftListener svc opts fuel l w = some (o, w1) ∧ w1.trace = w.trace ++ δ ∧
      δ.length ≤ 100 ∧ (∀ q, o ≠ .error (.invalidP q)) ∧
      (effectiveStep opts < maxInt → ∀ c ∈ δ, weightsInRange c = true) := by
  have hloop : ∃ o w1 δ, shiftLoop svc l (effectiveStep opts) fuel 1 w = some (o, w1) ∧
      w1.trace = w.trace ++ δ ∧ δ.length ≤ 99 ∧
      (o = .ok () ∨ ∃ e, o = .error e ∧ ∀ q, e ≠ .invalidP q) ∧
      (effectiveStep opts < maxInt → ∀ c ∈ δ, weightsInRange c = true) := by
    by_cases hlt : effectiveStep opts < maxInt
    · obtain ⟨o, w1, δ, h1, h2, h3, h4, h5⟩ := shiftLoop_total svc l (effectiveStep opts)
        (effectiveStep_pos opts) (by unfold maxInt at hlt; exact hlt) fuel 0 w (by omega)
        (by omega)
      simp only [Nat.cast_zero, zero_mul, add_zero] at h1
      exact ⟨o, w1, δ, h1, h2, by omega, h4, fun _ => h5⟩
    · have heq : effectiveStep opts = maxInt := by
        have : effectiveStep opts ≤ maxInt := by
          unfold effectiveStep
          split
          · exact hmax
          · decide
        omega
      rw [heq]
      obtain ⟨o, w1, δ, h1, h2, h3, h4⟩ := shiftLoop_maxInt_total svc l fuel (by omega) w
      exact ⟨o, w1, δ, h1, h2, by omega, h4, fun h => absurd h (lt_irrefl _)⟩
  unfold shiftListener
  cases hr : l.Rule with
  | none =>
    refine ⟨_, w, [], rfl, by simp, by simp, ?_, by simp⟩
    intro q h
    cases h
  | some rule =>
    simp only
    by_cases h0 : rule.Actions.length > 0
    · rw [if_pos h0]
      by_cases h1 : rule.Actions.length ≠ 1
      · rw [if_pos h1]
        cases rule.RuleArn with
        | none =>
          refine ⟨_, w, [], rfl, by simp, by simp, ?_, by simp⟩
          intro q h
          cases h
        | some arn =>
          refine ⟨_, w, [], rfl, by simp, by simp, ?_, by simp⟩
          intro q h
          cases h
      · rw [if_neg h1]
        obtain ⟨o, w1, δ1, hrun, ht1, hlen1, ho, hin1⟩ := hloop
        rcases ho with rfl | ⟨e, rfl, he⟩
        · obtain ⟨o2, w2, δ2, hrun2, ht2, hδ2, ho2⟩ := setDesired_total svc l 100 (by omega) w1
          refine ⟨o2, w2, δ1 ++ δ2, by simp only [hrun, hrun2], ?_, ?_, ?_, ?_⟩
          · rw [ht2, ht1, List.append_assoc]
          · rw [List.length_append]
            rcases hδ2 with h | ⟨d, cu, r, h⟩ <;> simp [h] <;> omega
          · intro q hq
            rcases ho2 with h | ⟨e, h, he⟩
            · rw [h] at hq
              cases hq
            · rw [h] at hq
              cases hq
              exact he q rfl
          · intro hlt c hc
            rcases List.mem_append.mp hc with h | h
            · exact hin1 hlt c h
            · rcases hδ2 with h2 | ⟨d, cu, r, h2⟩
              · rw [h2] at h
                cases h
              · rw [h2, List.mem_singleton] at h
                rw [h]
                exact weightsInRange_shiftInput d cu r 100 (by omega) (by omega)
        · refine ⟨.error e, w1, δ1, by simp only [hrun], ht1, by omega, ?_, hin1⟩
          intro q hq
          cases hq
          exact he q rfl
    · rw [if_neg h0]
      refine ⟨_, w, [], rfl, by simp, by simp, ?_, by simp⟩
      intro q h
      cases h

end Alb
